import Mathlib

/-!
# go-doxygen-generator: output sink and block aggregator

A shallow embedding of the three Go packages of the repository:

* `emitter`  (src/emitter/emitter.go): the `Emitter` interface and `SampleEmitter`;
* `command`  (src/command/commands.go): the `Command` interface and directive types;
* `doxygen`  (src/doxygen/doxygen.go): the `Doxygen` block, its options and `Generate`.

Conventions of the embedding.

* Go `string` is `String`; the `strings.Builder` of a sink is the `String` built so far.
* Go `int` and `uint` are taken to be 64 bits wide.  A `uint` is a `Nat` below `2 ^ 64`,
  an `int` is an `Int` in `[-2 ^ 63, 2 ^ 63)`; every arithmetic operation of the source
  is followed by the explicit wrap-around of its type.
* A method with a pointer receiver becomes a function from the old state to the new one.
  A call that may panic returns `Run σ`: `.ok s` is normal completion with the new
  state, `.panicked msg s` is a panic with message `msg` raised in state `s`.
* The arguments of `Print` and `Println` are strings everywhere in the repository, so a
  variadic `args ...interface{}` is a `List String`.
* The helper functions `word`, `optional` and `optionalf` of package command and the
  constant `DefaultTag` of package doxygen are declared outside the three files; they
  are parameters (`Helpers`, and the first argument of `New`).
* `Directive` is the sum of the 88 struct types of package command that implement
  `Command`: 86 declare `Command` and `Generate`, `Lt` and `Gt` get them by embedding.
  The other struct types of the package have no method and cannot be stored in a block.
-/

/-! ## Package fmt (standard library, modelled for string operands) -/

namespace fmt

/-- The operand list printed by the `%!(EXTRA ...)` marker: `string=a, string=b`. -/
def extraOperands : List String → List Char
  | [] => []
  | [a] => "string=".data ++ a.data
  | a :: b :: rest => "string=".data ++ a.data ++ ", ".data ++ extraOperands (b :: rest)

/-- What `fmt` prints once the format is exhausted: nothing when every operand was
consumed, the `%!(EXTRA ...)` marker otherwise. -/
def extraMarker : List String → List Char
  | [] => []
  | a :: rest => "%!(EXTRA ".data ++ extraOperands (a :: rest) ++ ")".data

/-- One operand printed under verb `verb`: the string itself for `%s` and `%v`, the
bad-verb marker `%!verb(string=...)` otherwise.  The verbs `q`, `x`, `X`, `T` and `p`,
which `fmt` treats specially, occur in no format of the repository and are not
modelled. -/
def printArg (verb : Char) (arg : String) : List Char :=
  if verb = 's' ∨ verb = 'v' then arg.data
  else '%' :: '!' :: verb :: ("(string=".data ++ arg.data ++ ")".data)

/-- The formatting loop of `fmt.Fprintf` for string operands and verbs without flags,
width, precision or argument index (the repository's formats have none): literal text is
copied, `%%` prints a percent sign, a verb consumes the next operand, a verb with no
operand left prints `%!verb(MISSING)`, a lone `%` at the end prints `%!(NOVERB)`, and
operands left over at the end are reported by `extraMarker`. -/
def doPrintf : List Char → List String → List Char
  | [], args => extraMarker args
  | c :: rest, args =>
    if c = '%' then
      match rest, args with
      | [], args => "%!(NOVERB)".data ++ extraMarker args
      | verb :: rest, args =>
        if verb = '%' then '%' :: doPrintf rest args
        else
          match args with
          | [] => '%' :: '!' :: verb :: ("(MISSING)".data ++ doPrintf rest [])
          | a :: args => printArg verb a ++ doPrintf rest args
    else c :: doPrintf rest args

/-- The text `fmt.Sprintf(format, args...)` returns, which is also the text
`fmt.Fprintf(w, format, args...)` writes to `w`. -/
def Sprintf (format : String) (args : List String) : String :=
  String.mk (doPrintf format.data args)

end fmt

/-! ## Package emitter -/

namespace emitter

/-- Outcome of a call on a sink of state type `σ`: normal completion with the new state,
or a panic carrying its message and the state in which it was raised. -/
inductive Run (σ : Type) where
  | ok (s : σ)
  | panicked (msg : String) (s : σ)
  deriving DecidableEq, Repr

/-- Sequencing of two statements: the second runs in the state the first leaves, and
does not run at all when the first panics. -/
def Run.andThen {σ : Type} (r : Run σ) (next : σ → Run σ) : Run σ :=
  match r with
  | .ok s => next s
  | .panicked msg s => .panicked msg s

/-- A deferred call: `deferred` runs when the body is left, normally or by a panic.  After
a panic of the body the run stays a panic, with the message of the deferred call when
that one panics too. -/
def Run.deferred {σ : Type} (body : Run σ) (deferred : σ → Run σ) : Run σ :=
  match body with
  | .ok s => deferred s
  | .panicked msg s =>
    match deferred s with
    | .ok s1 => .panicked msg s1
    | .panicked msg1 s1 => .panicked msg1 s1

/-- The Go interface `Emitter`: the four operations a renderer may call on its sink. -/
structure Emitter (σ : Type) where
  Indent : Int → σ → Run σ
  Print : String → List String → σ → Run σ
  Println : String → List String → σ → Run σ
  Newline : σ → Run σ

/-- Width in bits of Go's `int` and `uint`. -/
def intSize : Nat := 64

/-- Conversion `int(x)` of a `uint`: the same bit pattern read as two's complement. -/
def intOfUint (x : Nat) : Int :=
  if x % 2 ^ intSize < 2 ^ (intSize - 1) then ((x % 2 ^ intSize : Nat) : Int)
  else ((x % 2 ^ intSize : Nat) : Int) - 2 ^ intSize

/-- Conversion `uint(n)` of an `int`: the same bit pattern read as unsigned. -/
def uintOfInt (n : Int) : Nat := (n % 2 ^ intSize).toNat

/-- Signed addition `a + b` on `int`, wrapping around on overflow. -/
def intAdd (a b : Int) : Int :=
  (a + b + 2 ^ (intSize - 1)) % 2 ^ intSize - 2 ^ (intSize - 1)

/-- Unsigned addition `a + b` on `uint`, wrapping around on overflow. -/
def uintAdd (a b : Nat) : Nat := (a + b) % 2 ^ intSize

/-- The struct `SampleEmitter`. -/
structure SampleEmitter where
  sb : String
  maxLineLength : Nat
  start : Bool
  indent : Nat
  deriving DecidableEq, Repr

/-- The values a `SampleEmitter` can hold: both `uint` fields fit their machine word. -/
def SampleEmitter.WellFormed (e : SampleEmitter) : Prop :=
  e.maxLineLength < 2 ^ intSize ∧ e.indent < 2 ^ intSize

instance (e : SampleEmitter) : Decidable e.WellFormed := by
  unfold SampleEmitter.WellFormed; infer_instance

/-- The machine values of type `int`. -/
def IsInt (n : Int) : Prop := -(2 ^ (intSize - 1)) ≤ n ∧ n < 2 ^ (intSize - 1)

instance (n : Int) : Decidable (IsInt n) := by
  unfold IsInt; infer_instance

/-- Go `NewEmitter`: empty builder, zero indent, at line start. -/
def NewEmitter (maxLineLength : Nat) : SampleEmitter :=
  { sb := "", maxLineLength := maxLineLength, start := true, indent := 0 }

/-- The panic message of `Indent`. -/
def unbalanced : String := "unexpected unbalanced indentation"

/-- Go `(*SampleEmitter).Indent`: panics when `int(e.indent)+n < 0`, before any
mutation; otherwise performs `e.indent += uint(n)`. -/
def SampleEmitter.Indent (n : Int) (e : SampleEmitter) : Run SampleEmitter :=
  if intAdd (intOfUint e.indent) n < 0 then
    .panicked unbalanced e
  else
    .ok { e with indent := uintAdd e.indent (uintOfInt n) }

/-- The loop `for i := uint(0); i < e.indent; i++ { e.sb.WriteRune('\t') }`, by recursion
on the number of iterations left. -/
def writeTabs : Nat → String → String
  | 0, sb => sb
  | k + 1, sb => writeTabs k (sb.push '\t')

/-- Go `(*SampleEmitter).checkIndent`. -/
def SampleEmitter.checkIndent (e : SampleEmitter) : SampleEmitter :=
  if e.start then { e with sb := writeTabs e.indent e.sb, start := false } else e

/-- Go `(*SampleEmitter).Print`. -/
def SampleEmitter.Print (format : String) (args : List String) (e : SampleEmitter) :
    SampleEmitter :=
  let e := e.checkIndent
  { e with sb := e.sb ++ fmt.Sprintf format args, start := false }

/-- Go `(*SampleEmitter).Newline`. -/
def SampleEmitter.Newline (e : SampleEmitter) : SampleEmitter :=
  { e with sb := e.sb.push '\n', start := true }

/-- Go `(*SampleEmitter).Println`. -/
def SampleEmitter.Println (format : String) (args : List String) (e : SampleEmitter) :
    SampleEmitter :=
  (e.Print format args).Newline

/-- The method set of `*SampleEmitter` seen through the interface `Emitter`. -/
def sampleEmitter : Emitter SampleEmitter where
  Indent := SampleEmitter.Indent
  Print := fun format args e => .ok (e.Print format args)
  Println := fun format args e => .ok (e.Println format args)
  Newline := fun e => .ok e.Newline

end emitter

/-! ## Package command -/

set_option linter.dupNamespace false

namespace command

open emitter

/-- The Go interface `Command`: a directive renders itself on any sink it is handed,
and names its kind. -/
structure Command where
  Generate : (tag : String) → {σ : Type} → (out : Emitter σ) → σ → Run σ
  Command : String

/-- The struct `Brief`. -/
structure Brief where
  BriefDescription : String
  deriving DecidableEq, Repr

/-- Go `Brief.Command`. -/
def Brief.Command (_cmd : Brief) : String := "Brief"

/-- Go `Brief.Generate`. -/
def Brief.Generate (cmd : Brief) (tag : String) {σ : Type} (out : Emitter σ) (s : σ) :
    Run σ :=
  out.Println "%sbrief %s" [tag, cmd.BriefDescription] s

/-- A `Brief` value stored in a variable of interface type `Command`. -/
def Brief.toCommand (cmd : Brief) : command.Command :=
  { Generate := cmd.Generate, Command := cmd.Command }

/-- The struct `Param`. -/
structure Param where
  Direction : String
  ParameterName : String
  ParameterDescription : String
  deriving DecidableEq, Repr

/-- Go `Param.Command`. -/
def Param.Command (_cmd : Param) : String := "Param"

/-- Go `Param.directionValid`: the loop returns true at the first recognised direction
equal to the field, false once the three are exhausted. -/
def Param.directionValid (cmd : Param) : Bool :=
  ["in", "in,out", "out"].any (fun dir => cmd.Direction == dir)

/-- Go `Param.Generate`. -/
def Param.Generate (cmd : Param) (tag : String) {σ : Type} (out : Emitter σ) (s : σ) :
    Run σ :=
  (out.Print "%sparam" [tag] s).andThen fun s =>
  (if cmd.Direction != "" && cmd.directionValid then
      out.Print "[%s]" [cmd.Direction] s
    else
      .ok s).andThen fun s =>
  out.Println " %s %s" [cmd.ParameterName, cmd.ParameterDescription] s

/-- A `Param` value stored in a variable of interface type `Command`. -/
def Param.toCommand (cmd : Param) : command.Command :=
  { Generate := cmd.Generate, Command := cmd.Command }

/-- The helper functions `word`, `optional` and `optionalf` of package command.  They
are declared outside the files at hand and are taken as parameters: any three functions
that return strings. -/
structure Helpers where
  word : String → String
  optional : String → String
  optionalf : String → String → String

/-- The struct `A`. -/
structure A where
  Word : String

/-- Go `A.Command`. -/
def A.Command (_cmd : A) : String := "A"

/-- Go `A.Generate`. -/
def A.Generate (h : Helpers) (cmd : A) (tag : String) {σ : Type} (out : Emitter σ)
    (s : σ) : Run σ :=
  out.Print "%sa %s" [tag, h.word cmd.Word] s

/-- The struct `Addindex`. -/
structure Addindex where
  Text : String

/-- Go `Addindex.Command`. -/
def Addindex.Command (_cmd : Addindex) : String := "Addindex"

/-- Go `Addindex.Generate`. -/
def Addindex.Generate (cmd : Addindex) (tag : String) {σ : Type} (out : Emitter σ)
    (s : σ) : Run σ :=
  out.Println "%saddindex %s" [tag, cmd.Text] s

/-- The struct `Addtogroup`. -/
structure Addtogroup where
  Name : String
  Title : String

/-- Go `Addtogroup.Command`. -/
def Addtogroup.Command (_cmd : Addtogroup) : String := "Addtogroup"

/-- Go `Addtogroup.Generate`. -/
def Addtogroup.Generate (h : Helpers) (cmd : Addtogroup) (tag : String) {σ : Type} (out : Emitter σ)
    (s : σ) : Run σ :=
  out.Println "%saddtogroup %s %s" [tag, h.word cmd.Name, cmd.Title] s

/-- The struct `Anchor`. -/
structure Anchor where
  Name : String
  Text : String

/-- Go `Anchor.Command`. -/
def Anchor.Command (_cmd : Anchor) : String := "Anchor"

/-- Go `Anchor.Generate`. -/
def Anchor.Generate (h : Helpers) (cmd : Anchor) (tag : String) {σ : Type} (out : Emitter σ)
    (s : σ) : Run σ :=
  out.Println "%sanchor %s%s" [tag, h.word cmd.Name, h.optional cmd.Text] s

/-- The struct `Arg`. -/
structure Arg where
  ItemDescription : String

/-- Go `Arg.Command`. -/
def Arg.Command (_cmd : Arg) : String := "Arg"

/-- Go `Arg.Generate`. -/
def Arg.Generate (cmd : Arg) (tag : String) {σ : Type} (out : Emitter σ)
    (s : σ) : Run σ :=
  out.Println "%sarg %s" [tag, cmd.ItemDescription] s

/-- The struct `Attention`. -/
structure Attention where
  Text : String

/-- Go `Attention.Command`. -/
def Attention.Command (_cmd : Attention) : String := "Attention"

/-- Go `Attention.Generate`. -/
def Attention.Generate (cmd : Attention) (tag : String) {σ : Type} (out : Emitter σ)
    (s : σ) : Run σ :=
  out.Println "%sattention %s" [tag, cmd.Text] s

/-- The struct `Author`. -/
structure Author where
  ListOfAuthors : List String

/-- Go `Author.Command`. -/
def Author.Command (_cmd : Author) : String := "Author"

/-- The loop `for _, author := range cmd.ListOfAuthors` of `Author.Generate`, over the
authors left; the call passes `author` as its only operand. -/
def Author.GenerateLoop {σ : Type} (out : Emitter σ) : List String → σ → Run σ
  | [], s => .ok s
  | author :: rest, s =>
    (out.Println "%sauthor %s" [author] s).andThen (Author.GenerateLoop out rest)

/-- Go `Author.Generate`. -/
def Author.Generate (cmd : Author) (_tag : String) {σ : Type} (out : Emitter σ)
    (s : σ) : Run σ :=
  Author.GenerateLoop out cmd.ListOfAuthors s

/-- The struct `Authors`. -/
structure Authors where
  ListOfAuthors : List String

/-- Go `Authors.Command`. -/
def Authors.Command (_cmd : Authors) : String := "Authors"

/-- The loop `for _, author := range cmd.ListOfAuthors` of `Authors.Generate`, over the
authors left. -/
def Authors.GenerateLoop (tag : String) {σ : Type} (out : Emitter σ) :
    List String → σ → Run σ
  | [], s => .ok s
  | author :: rest, s =>
    (out.Println "%sauthor %s" [tag, author] s).andThen (Authors.GenerateLoop tag out rest)

/-- Go `Authors.Generate`. -/
def Authors.Generate (cmd : Authors) (tag : String) {σ : Type} (out : Emitter σ)
    (s : σ) : Run σ :=
  Authors.GenerateLoop tag out cmd.ListOfAuthors s

/-- The struct `B`. -/
structure B where
  Word : String

/-- Go `B.Command`. -/
def B.Command (_cmd : B) : String := "B"

/-- Go `B.Generate`. -/
def B.Generate (h : Helpers) (cmd : B) (tag : String) {σ : Type} (out : Emitter σ)
    (s : σ) : Run σ :=
  out.Print "%sarg %s" [tag, h.word cmd.Word] s

/-- The struct `MultiB`. -/
structure MultiB where
  Text : String

/-- Go `MultiB.Command`. -/
def MultiB.Command (_cmd : MultiB) : String := "MultiB"

/-- Go `MultiB.Generate`. -/
def MultiB.Generate (cmd : MultiB) (_tag : String) {σ : Type} (out : Emitter σ)
    (s : σ) : Run σ :=
  out.Print "<b>%s</b>" [cmd.Text] s

/-- The struct `Bug`. -/
structure Bug where
  Description : String

/-- Go `Bug.Command`. -/
def Bug.Command (_cmd : Bug) : String := "Bug"

/-- Go `Bug.Generate`. -/
def Bug.Generate (cmd : Bug) (tag : String) {σ : Type} (out : Emitter σ)
    (s : σ) : Run σ :=
  out.Println "%sbug %s" [tag, cmd.Description] s

/-- The struct `C`. -/
structure C where
  Word : String

/-- Go `C.Command`. -/
def C.Command (_cmd : C) : String := "C"

/-- Go `C.Generate`. -/
def C.Generate (h : Helpers) (cmd : C) (tag : String) {σ : Type} (out : Emitter σ)
    (s : σ) : Run σ :=
  out.Print "%sc %s" [tag, h.word cmd.Word] s

/-- The struct `Callergraph`. -/
structure Callergraph where

/-- Go `Callergraph.Command`. -/
def Callergraph.Command (_cmd : Callergraph) : String := "Callergraph"

/-- Go `Callergraph.Generate`. -/
def Callergraph.Generate (_cmd : Callergraph) (tag : String) {σ : Type} (out : Emitter σ)
    (s : σ) : Run σ :=
  out.Println "%scallergraph" [tag] s

/-- The struct `Callgraph`. -/
structure Callgraph where

/-- Go `Callgraph.Command`. -/
def Callgraph.Command (_cmd : Callgraph) : String := "Callgraph"

/-- Go `Callgraph.Generate`. -/
def Callgraph.Generate (_cmd : Callgraph) (tag : String) {σ : Type} (out : Emitter σ)
    (s : σ) : Run σ :=
  out.Println "%scallgraph" [tag] s

/-- The struct `Category`. -/
structure Category where
  Name : String
  HeaderFile : String
  HeaderName : String

/-- Go `Category.Command`. -/
def Category.Command (_cmd : Category) : String := "Category"

/-- Go `Category.Generate`. -/
def Category.Generate (h : Helpers) (cmd : Category) (tag : String) {σ : Type} (out : Emitter σ)
    (s : σ) : Run σ :=
  out.Println "%scategory %s%s%s"
    [tag,
      cmd.Name,
      h.optional (h.word cmd.HeaderFile),
      h.optional (h.word cmd.HeaderName)] s

/-- The struct `Cite`. -/
structure Cite where
  Label : String

/-- Go `Cite.Command`. -/
def Cite.Command (_cmd : Cite) : String := "Cite"

/-- Go `Cite.Generate`. -/
def Cite.Generate (h : Helpers) (cmd : Cite) (tag : String) {σ : Type} (out : Emitter σ)
    (s : σ) : Run σ :=
  out.Println "%scite %s" [tag, h.word cmd.Label] s

/-- The struct `Class`. -/
structure Class where
  Name : String
  HeaderFile : String
  HeaderName : String

/-- Go `Class.Command`. -/
def Class.Command (_cmd : Class) : String := "Class"

/-- Go `Class.Generate`. -/
def Class.Generate (h : Helpers) (cmd : Class) (tag : String) {σ : Type} (out : Emitter σ)
    (s : σ) : Run σ :=
  out.Println "%sclass %s%s%s"
    [tag,
      h.word cmd.Name,
      h.optional (h.word cmd.HeaderFile),
      h.optional (h.word cmd.HeaderFile)] s

/-- The struct `Endcode`. -/
structure Endcode where

/-- Go `Endcode.Command`. -/
def Endcode.Command (_cmd : Endcode) : String := "Endcode"

/-- Go `Endcode.Generate`. -/
def Endcode.Generate (_cmd : Endcode) (tag : String) {σ : Type} (out : Emitter σ)
    (s : σ) : Run σ :=
  out.Println "%sendcode" [tag] s

/-- The struct `Code`. -/
structure Code where
  Word : String
  CodeBlock : String

/-- Go `Code.Command`. -/
def Code.Command (_cmd : Code) : String := "Code"

/-- Go `Code.Generate`. -/
def Code.Generate (h : Helpers) (cmd : Code) (tag : String) {σ : Type} (out : Emitter σ)
    (s : σ) : Run σ :=
  (out.Println "%scode" [tag, h.optionalf " \x7b%s\x7d" (h.word cmd.Word)] s).andThen fun s =>
  (out.Println "%s" [cmd.CodeBlock] s).andThen fun s =>
  Endcode.Generate Endcode.mk tag out s

/-- The struct `Concept`. -/
structure Concept where
  Name : String

/-- Go `Concept.Command`. -/
def Concept.Command (_cmd : Concept) : String := "Concept"

/-- Go `Concept.Generate`. -/
def Concept.Generate (h : Helpers) (cmd : Concept) (tag : String) {σ : Type} (out : Emitter σ)
    (s : σ) : Run σ :=
  out.Println "%sconcept %s" [tag, h.word cmd.Name] s

/-- The struct `Cond`. -/
structure Cond where
  SectionLabel : String

/-- Go `Cond.Command`. -/
def Cond.Command (_cmd : Cond) : String := "Cond"

/-- Go `Cond.Generate`. -/
def Cond.Generate (h : Helpers) (cmd : Cond) (tag : String) {σ : Type} (out : Emitter σ)
    (s : σ) : Run σ :=
  out.Println "%scond%s" [tag, h.optional cmd.SectionLabel] s

/-- The struct `Copybrief`. -/
structure Copybrief where
  LinkObject : String

/-- Go `Copybrief.Command`. -/
def Copybrief.Command (_cmd : Copybrief) : String := "Copybrief"

/-- Go `Copybrief.Generate`. -/
def Copybrief.Generate (h : Helpers) (cmd : Copybrief) (tag : String) {σ : Type} (out : Emitter σ)
    (s : σ) : Run σ :=
  out.Println "%scopybrief %s" [tag, h.word cmd.LinkObject] s

/-- The struct `Copydetails`. -/
structure Copydetails where
  LinkObject : String

/-- Go `Copydetails.Command`. -/
def Copydetails.Command (_cmd : Copydetails) : String := "Copydetails"

/-- Go `Copydetails.Generate`. -/
def Copydetails.Generate (h : Helpers) (cmd : Copydetails) (tag : String) {σ : Type} (out : Emitter σ)
    (s : σ) : Run σ :=
  out.Println "%scopydetails %s" [tag, h.word cmd.LinkObject] s

/-- The struct `Copydoc`. -/
structure Copydoc where
  LinkObject : String

/-- Go `Copydoc.Command`. -/
def Copydoc.Command (_cmd : Copydoc) : String := "Copydoc"

/-- Go `Copydoc.Generate`. -/
def Copydoc.Generate (h : Helpers) (cmd : Copydoc) (tag : String) {σ : Type} (out : Emitter σ)
    (s : σ) : Run σ :=
  out.Println "%scopydoc %s" [tag, h.word cmd.LinkObject] s

/-- The struct `Copyright`. -/
structure Copyright where
  Description : String

/-- Go `Copyright.Command`. -/
def Copyright.Command (_cmd : Copyright) : String := "Copyright"

/-- Go `Copyright.Generate`. -/
def Copyright.Generate (h : Helpers) (cmd : Copyright) (tag : String) {σ : Type} (out : Emitter σ)
    (s : σ) : Run σ :=
  out.Println "%scopyright %s" [tag, h.word cmd.Description] s

/-- The struct `Date`. -/
structure Date where
  Description : String

/-- Go `Date.Command`. -/
def Date.Command (_cmd : Date) : String := "Date"

/-- Go `Date.Generate`. -/
def Date.Generate (cmd : Date) (tag : String) {σ : Type} (out : Emitter σ)
    (s : σ) : Run σ :=
  out.Println "%sdate %s" [tag, cmd.Description] s

/-- The struct `Def`. -/
structure Def where
  Name : String

/-- Go `Def.Command`. -/
def Def.Command (_cmd : Def) : String := "Def"

/-- Go `Def.Generate`. -/
def Def.Generate (h : Helpers) (cmd : Def) (tag : String) {σ : Type} (out : Emitter σ)
    (s : σ) : Run σ :=
  out.Println "%sdef %s" [tag, h.word cmd.Name] s

/-- The struct `Defgroup`. -/
structure Defgroup where
  Name : String
  GroupTitle : String

/-- Go `Defgroup.Command`. -/
def Defgroup.Command (_cmd : Defgroup) : String := "Defgroup"

/-- Go `Defgroup.Generate`. -/
def Defgroup.Generate (h : Helpers) (cmd : Defgroup) (tag : String) {σ : Type} (out : Emitter σ)
    (s : σ) : Run σ :=
  out.Println "%sdefgroup %s %s" [tag, h.word cmd.Name, cmd.GroupTitle] s

/-- The struct `Deprecated`. -/
structure Deprecated where
  Description : String

/-- Go `Deprecated.Command`. -/
def Deprecated.Command (_cmd : Deprecated) : String := "Deprecated"

/-- Go `Deprecated.Generate`. -/
def Deprecated.Generate (cmd : Deprecated) (tag : String) {σ : Type} (out : Emitter σ)
    (s : σ) : Run σ :=
  out.Println "%sdeprecated %s" [tag, cmd.Description] s

/-- The struct `Details`. -/
structure Details where
  DetailedDescription : String

/-- Go `Details.Command`. -/
def Details.Command (_cmd : Details) : String := "Details"

/-- Go `Details.Generate`. -/
def Details.Generate (cmd : Details) (tag : String) {σ : Type} (out : Emitter σ)
    (s : σ) : Run σ :=
  out.Println "%sdetails %s" [tag, cmd.DetailedDescription] s

/-- The struct `Diafile`. -/
structure Diafile where
  File : String
  Caption : String
  SizeIndication : String
  Size : String

/-- Go `Diafile.Command`. -/
def Diafile.Command (_cmd : Diafile) : String := "Diafile"

/-- Go `Diafile.Generate`. -/
def Diafile.Generate (h : Helpers) (cmd : Diafile) (tag : String) {σ : Type} (out : Emitter σ)
    (s : σ) : Run σ :=
  let size :=
    if cmd.SizeIndication != "" && cmd.Size != "" then
      fmt.Sprintf " %s=%s" [cmd.SizeIndication, cmd.Size]
    else
      ""
  out.Println "%sdiafile %s%s%s"
    [tag, h.word cmd.File, h.optionalf " \"%s\"" cmd.Caption, size] s

/-- The struct `Dir`. -/
structure Dir where
  PathFragment : String

/-- Go `Dir.Command`. -/
def Dir.Command (_cmd : Dir) : String := "Dir"

/-- Go `Dir.Generate`. -/
def Dir.Generate (h : Helpers) (cmd : Dir) (tag : String) {σ : Type} (out : Emitter σ)
    (s : σ) : Run σ :=
  out.Println "%sdir%s" [tag, h.optional (h.word cmd.PathFragment)] s

/-- The struct `E`. -/
structure E where
  Word : String

/-- Go `E.Command`. -/
def E.Command (_cmd : E) : String := "E"

/-- Go `E.Generate`. -/
def E.Generate (h : Helpers) (cmd : E) (tag : String) {σ : Type} (out : Emitter σ)
    (s : σ) : Run σ :=
  out.Print "%se %s" [tag, h.word cmd.Word] s

/-- The struct `Em`. -/
structure Em where
  Word : String

/-- Go `Em.Command`. -/
def Em.Command (_cmd : Em) : String := "Em"

/-- Go `Em.Generate`. -/
def Em.Generate (h : Helpers) (cmd : Em) (tag : String) {σ : Type} (out : Emitter σ)
    (s : σ) : Run σ :=
  out.Print "%sEm %s" [tag, h.word cmd.Word] s

/-- The struct `MultiEm`. -/
structure MultiEm where
  Text : String

/-- Go `MultiEm.Command`. -/
def MultiEm.Command (_cmd : MultiEm) : String := "MultiEm"

/-- Go `MultiEm.Generate`. -/
def MultiEm.Generate (cmd : MultiEm) (_tag : String) {σ : Type} (out : Emitter σ)
    (s : σ) : Run σ :=
  out.Print "<em>%s</em>" [cmd.Text] s

/-- The struct `Emoji`. -/
structure Emoji where
  Name : String

/-- Go `Emoji.Command`. -/
def Emoji.Command (_cmd : Emoji) : String := "Emoji"

/-- Go `Emoji.Generate`. -/
def Emoji.Generate (cmd : Emoji) (tag : String) {σ : Type} (out : Emitter σ)
    (s : σ) : Run σ :=
  out.Print "%semoji %s" [tag, cmd.Name] s

/-- The struct `Enum`. -/
structure Enum where
  Name : String

/-- Go `Enum.Command`. -/
def Enum.Command (_cmd : Enum) : String := "Enum"

/-- Go `Enum.Generate`. -/
def Enum.Generate (h : Helpers) (cmd : Enum) (tag : String) {σ : Type} (out : Emitter σ)
    (s : σ) : Run σ :=
  out.Println "%senum %s" [tag, h.word cmd.Name] s

/-- The struct `Exception`. -/
structure Exception where
  ExceptionObject : String
  ExceptionDescription : String

/-- Go `Exception.Command`. -/
def Exception.Command (_cmd : Exception) : String := "Exception"

/-- Go `Exception.Generate`. -/
def Exception.Generate (h : Helpers) (cmd : Exception) (tag : String) {σ : Type} (out : Emitter σ)
    (s : σ) : Run σ :=
  out.Println "%sexception %s %s" [tag, h.word cmd.ExceptionObject, cmd.ExceptionDescription] s

/-- The struct `Extends`. -/
structure Extends where
  Name : String

/-- Go `Extends.Command`. -/
def Extends.Command (_cmd : Extends) : String := "Extends"

/-- Go `Extends.Generate`. -/
def Extends.Generate (h : Helpers) (cmd : Extends) (tag : String) {σ : Type} (out : Emitter σ)
    (s : σ) : Run σ :=
  out.Println "%sextends %s" [tag, h.word cmd.Name] s

/-- The struct `File`. -/
structure File where
  Name : String

/-- Go `File.Command`. -/
def File.Command (_cmd : File) : String := "File"

/-- Go `File.Generate`. -/
def File.Generate (h : Helpers) (cmd : File) (tag : String) {σ : Type} (out : Emitter σ)
    (s : σ) : Run σ :=
  out.Println "%sfile%s" [tag, h.optional (h.word cmd.Name)] s

/-- The struct `HeaderFile`. -/
structure HeaderFile where
  File : String
  Name : String

/-- Go `HeaderFile.Command`. -/
def HeaderFile.Command (_cmd : HeaderFile) : String := "HeaderFile"

/-- Go `HeaderFile.Generate`. -/
def HeaderFile.Generate (h : Helpers) (cmd : HeaderFile) (tag : String) {σ : Type} (out : Emitter σ)
    (s : σ) : Run σ :=
  out.Println "%sexception %s%s" [tag, h.word cmd.File, h.optional (h.word cmd.Name)] s

/-- The struct `Idlexcept`. -/
structure Idlexcept where
  Name : String

/-- Go `Idlexcept.Command`. -/
def Idlexcept.Command (_cmd : Idlexcept) : String := "Idlexcept"

/-- Go `Idlexcept.Generate`. -/
def Idlexcept.Generate (h : Helpers) (cmd : Idlexcept) (tag : String) {σ : Type} (out : Emitter σ)
    (s : σ) : Run σ :=
  out.Println "%sidlexcept %s" [tag, h.word cmd.Name] s

/-- The struct `Implements`. -/
structure Implements where
  Name : String

/-- Go `Implements.Command`. -/
def Implements.Command (_cmd : Implements) : String := "Implements"

/-- Go `Implements.Generate`. -/
def Implements.Generate (h : Helpers) (cmd : Implements) (tag : String) {σ : Type} (out : Emitter σ)
    (s : σ) : Run σ :=
  out.Println "%simplements %s" [tag, h.word cmd.Name] s

/-- The struct `Memberof`. -/
structure Memberof where
  Name : String

/-- Go `Memberof.Command`. -/
def Memberof.Command (_cmd : Memberof) : String := "Memberof"

/-- Go `Memberof.Generate`. -/
def Memberof.Generate (h : Helpers) (cmd : Memberof) (tag : String) {σ : Type} (out : Emitter σ)
    (s : σ) : Run σ :=
  out.Println "%smemberof %s" [tag, h.word cmd.Name] s

/-- The struct `Namespace`. -/
structure Namespace where
  Name : String

/-- Go `Namespace.Command`. -/
def Namespace.Command (_cmd : Namespace) : String := "Namespace"

/-- Go `Namespace.Generate`. -/
def Namespace.Generate (h : Helpers) (cmd : Namespace) (tag : String) {σ : Type} (out : Emitter σ)
    (s : σ) : Run σ :=
  out.Println "%snamespace %s" [tag, h.word cmd.Name] s

/-- The struct `Noop`. -/
structure Noop where
  IgnoredText : String

/-- Go `Noop.Command`. -/
def Noop.Command (_cmd : Noop) : String := "Noop"

/-- Go `Noop.Generate`. -/
def Noop.Generate (cmd : Noop) (tag : String) {σ : Type} (out : Emitter σ)
    (s : σ) : Run σ :=
  out.Println "%snoop %s" [tag, cmd.IgnoredText] s

/-- The struct `Package`. -/
structure Package where
  Name : String

/-- Go `Package.Command`. -/
def Package.Command (_cmd : Package) : String := "Package"

/-- Go `Package.Generate`. -/
def Package.Generate (h : Helpers) (cmd : Package) (tag : String) {σ : Type} (out : Emitter σ)
    (s : σ) : Run σ :=
  out.Println "%spackage %s" [tag, h.word cmd.Name] s

/-- The struct `Par`. -/
structure Par where
  Title : String
  Paragraph : String

/-- Go `Par.Command`. -/
def Par.Command (_cmd : Par) : String := "Par"

/-- Go `Par.Generate`. -/
def Par.Generate (cmd : Par) (tag : String) {σ : Type} (out : Emitter σ)
    (s : σ) : Run σ :=
  (out.Print "%spar " [tag] s).andThen fun s =>
  (if cmd.Title != "" then out.Println "%s" [cmd.Title] s else .ok s).andThen fun s =>
  out.Println "%s" [cmd.Paragraph] s

/-- The struct `Paragraph`. -/
structure Paragraph where
  Name : String
  Title : String

/-- Go `Paragraph.Command`. -/
def Paragraph.Command (_cmd : Paragraph) : String := "Paragraph"

/-- Go `Paragraph.Generate`. -/
def Paragraph.Generate (h : Helpers) (cmd : Paragraph) (tag : String) {σ : Type} (out : Emitter σ)
    (s : σ) : Run σ :=
  out.Println "%sparagraph %s %s" [tag, h.word cmd.Name, cmd.Title] s

/-- The struct `Endparblock`. -/
structure Endparblock where

/-- Go `Endparblock.Command`. -/
def Endparblock.Command (_cmd : Endparblock) : String := "Endparblock"

/-- Go `Endparblock.Generate`. -/
def Endparblock.Generate (_cmd : Endparblock) (tag : String) {σ : Type} (out : Emitter σ)
    (s : σ) : Run σ :=
  out.Println "%sendparblock" [tag] s

/-- The struct `Parblock`. -/
structure Parblock where
  Paragraphs : List String

/-- Go `Parblock.Command`. -/
def Parblock.Command (_cmd : Parblock) : String := "Parblock"

/-- The loop `for i := 0; i < len(cmd.Paragraphs); i++` of `Parblock.Generate`, over
the paragraphs from index `i` on; the test `i < len(cmd.Paragraphs)-1` holds exactly
when a paragraph is left after the current one. -/
def Parblock.GenerateLoop {σ : Type} (out : Emitter σ) : List String → σ → Run σ
  | [], s => .ok s
  | paragraph :: rest, s =>
    (out.Println "%s" [paragraph] s).andThen fun s =>
    (if !rest.isEmpty then out.Newline s else .ok s).andThen
      (Parblock.GenerateLoop out rest)

/-- Go `Parblock.Generate`: the `defer` is registered once the first line is written,
and the deferred `Endparblock.Generate` runs when the loop is left. -/
def Parblock.Generate (cmd : Parblock) (tag : String) {σ : Type} (out : Emitter σ)
    (s : σ) : Run σ :=
  (out.Println "%sparblock" [tag] s).andThen fun s =>
  (Parblock.GenerateLoop out cmd.Paragraphs s).deferred
    (Endparblock.Generate Endparblock.mk tag out)

/-- The struct `Refitem`. -/
structure Refitem where
  Name : String

/-- Go `Refitem.Command`. -/
def Refitem.Command (_cmd : Refitem) : String := "Refitem"

/-- Go `Refitem.Generate`. -/
def Refitem.Generate (h : Helpers) (cmd : Refitem) (tag : String) {σ : Type} (out : Emitter σ)
    (s : σ) : Run σ :=
  out.Println "%srefitem %s" [tag, h.word cmd.Name] s

/-- The struct `Related`. -/
structure Related where
  Name : String

/-- Go `Related.Command`. -/
def Related.Command (_cmd : Related) : String := "Related"

/-- Go `Related.Generate`. -/
def Related.Generate (h : Helpers) (cmd : Related) (tag : String) {σ : Type} (out : Emitter σ)
    (s : σ) : Run σ :=
  out.Println "%srelated %s" [tag, h.word cmd.Name] s

/-- The struct `Relates`. -/
structure Relates where
  Name : String

/-- Go `Relates.Command`. -/
def Relates.Command (_cmd : Relates) : String := "Relates"

/-- Go `Relates.Generate`. -/
def Relates.Generate (h : Helpers) (cmd : Relates) (tag : String) {σ : Type} (out : Emitter σ)
    (s : σ) : Run σ :=
  out.Println "%srelates %s" [tag, h.word cmd.Name] s

/-- The struct `Relatedalso`. -/
structure Relatedalso where
  Name : String

/-- Go `Relatedalso.Command`. -/
def Relatedalso.Command (_cmd : Relatedalso) : String := "Relatedalso"

/-- Go `Relatedalso.Generate`. -/
def Relatedalso.Generate (h : Helpers) (cmd : Relatedalso) (tag : String) {σ : Type} (out : Emitter σ)
    (s : σ) : Run σ :=
  out.Println "%srelatedalso %s" [tag, h.word cmd.Name] s

/-- The struct `Relatesalso`. -/
structure Relatesalso where
  Name : String

/-- Go `Relatesalso.Command`. -/
def Relatesalso.Command (_cmd : Relatesalso) : String := "Relatesalso"

/-- Go `Relatesalso.Generate`. -/
def Relatesalso.Generate (h : Helpers) (cmd : Relatesalso) (tag : String) {σ : Type} (out : Emitter σ)
    (s : σ) : Run σ :=
  out.Println "%srelatesalso %s" [tag, h.word cmd.Name] s

/-- The struct `Remark`. -/
structure Remark where
  Text : String

/-- Go `Remark.Command`. -/
def Remark.Command (_cmd : Remark) : String := "Remark"

/-- Go `Remark.Generate`. -/
def Remark.Generate (cmd : Remark) (tag : String) {σ : Type} (out : Emitter σ)
    (s : σ) : Run σ :=
  out.Println "%sremark %s" [tag, cmd.Text] s

/-- The struct `Remarks`. -/
structure Remarks where
  Text : String

/-- Go `Remarks.Command`. -/
def Remarks.Command (_cmd : Remarks) : String := "Remarks"

/-- Go `Remarks.Generate`. -/
def Remarks.Generate (cmd : Remarks) (tag : String) {σ : Type} (out : Emitter σ)
    (s : σ) : Run σ :=
  out.Println "%sremarks %s" [tag, cmd.Text] s

/-- The struct `Return`. -/
structure Return where
  Description : String

/-- Go `Return.Command`. -/
def Return.Command (_cmd : Return) : String := "Return"

/-- Go `Return.Generate`. -/
def Return.Generate (cmd : Return) (tag : String) {σ : Type} (out : Emitter σ)
    (s : σ) : Run σ :=
  out.Println "%sreturn %s" [tag, cmd.Description] s

/-- The struct `Returns`. -/
structure Returns where
  Description : String

/-- Go `Returns.Command`. -/
def Returns.Command (_cmd : Returns) : String := "Returns"

/-- Go `Returns.Generate`. -/
def Returns.Generate (cmd : Returns) (tag : String) {σ : Type} (out : Emitter σ)
    (s : σ) : Run σ :=
  out.Println "%sreturns %s" [tag, cmd.Description] s

/-- The struct `Short`. -/
structure Short where
  ShortDescription : String

/-- Go `Short.Command`. -/
def Short.Command (_cmd : Short) : String := "Short"

/-- Go `Short.Generate`. -/
def Short.Generate (cmd : Short) (tag : String) {σ : Type} (out : Emitter σ)
    (s : σ) : Run σ :=
  out.Println "%sshort %s" [tag, cmd.ShortDescription] s

/-- The struct `Showdate`. -/
structure Showdate where
  Format : String
  DateTime : String

/-- Go `Showdate.Command`. -/
def Showdate.Command (_cmd : Showdate) : String := "Showdate"

/-- Go `Showdate.Generate`. -/
def Showdate.Generate (cmd : Showdate) (tag : String) {σ : Type} (out : Emitter σ)
    (s : σ) : Run σ :=
  out.Println "%sshowdate \"%s\" %s" [tag, cmd.Format, cmd.DateTime] s

/-- The struct `Throw`. -/
structure Throw where
  ExceptionObject : String
  ExceptionDescription : String

/-- Go `Throw.Command`. -/
def Throw.Command (_cmd : Throw) : String := "Throw"

/-- Go `Throw.Generate`. -/
def Throw.Generate (h : Helpers) (cmd : Throw) (tag : String) {σ : Type} (out : Emitter σ)
    (s : σ) : Run σ :=
  out.Print "%sthrow %s %s" [tag, h.word cmd.ExceptionObject, cmd.ExceptionDescription] s

/-- The struct `Throws`. -/
structure Throws where
  ExceptionObject : String
  ExceptionDescription : String

/-- Go `Throws.Command`. -/
def Throws.Command (_cmd : Throws) : String := "Throws"

/-- Go `Throws.Generate`. -/
def Throws.Generate (h : Helpers) (cmd : Throws) (tag : String) {σ : Type} (out : Emitter σ)
    (s : σ) : Run σ :=
  out.Println "%sthrows" [tag, h.word cmd.ExceptionObject, cmd.ExceptionDescription] s

/-- The struct `Todo`. -/
structure Todo where
  Description : String

/-- Go `Todo.Command`. -/
def Todo.Command (_cmd : Todo) : String := "Todo"

/-- Go `Todo.Generate`. -/
def Todo.Generate (cmd : Todo) (tag : String) {σ : Type} (out : Emitter σ)
    (s : σ) : Run σ :=
  out.Print "%stodo %s" [tag, cmd.Description] s

/-- The struct `Var`. -/
structure Var where
  Datatype : String
  Name : String
  Description : String

/-- Go `Var.Command`. -/
def Var.Command (_cmd : Var) : String := "Var"

/-- Go `Var.Generate`. -/
def Var.Generate (cmd : Var) (tag : String) {σ : Type} (out : Emitter σ)
    (s : σ) : Run σ :=
  (out.Println "%svar %s $%s" [tag, cmd.Datatype, cmd.Name] s).andThen fun s =>
  out.Println "%s" [cmd.Description] s

/-- The struct `Version`. -/
structure Version where
  Number : String

/-- Go `Version.Command`. -/
def Version.Command (_cmd : Version) : String := "Version"

/-- Go `Version.Generate`. -/
def Version.Generate (cmd : Version) (tag : String) {σ : Type} (out : Emitter σ)
    (s : σ) : Run σ :=
  out.Println "%sversion %s" [tag, cmd.Number] s

/-- The struct `Warning`. -/
structure Warning where
  Message : String

/-- Go `Warning.Command`. -/
def Warning.Command (_cmd : Warning) : String := "Warning"

/-- Go `Warning.Generate`. -/
def Warning.Generate (cmd : Warning) (tag : String) {σ : Type} (out : Emitter σ)
    (s : σ) : Run σ :=
  out.Println "%swarning %s" [tag, cmd.Message] s

/-- The struct `Dollar`. -/
structure Dollar where

/-- Go `Dollar.Command`. -/
def Dollar.Command (_cmd : Dollar) : String := "Dollar"

/-- Go `Dollar.Generate`. -/
def Dollar.Generate (_cmd : Dollar) (tag : String) {σ : Type} (out : Emitter σ)
    (s : σ) : Run σ :=
  out.Print "%s$" [tag] s

/-- The struct `At`. -/
structure At where

/-- Go `At.Command`. -/
def At.Command (_cmd : At) : String := "At"

/-- Go `At.Generate`. -/
def At.Generate (_cmd : At) (tag : String) {σ : Type} (out : Emitter σ)
    (s : σ) : Run σ :=
  out.Print "%s@" [tag] s

/-- The struct `Backslash`. -/
structure Backslash where

/-- Go `Backslash.Command`. -/
def Backslash.Command (_cmd : Backslash) : String := "Backslash"

/-- Go `Backslash.Generate`. -/
def Backslash.Generate (_cmd : Backslash) (tag : String) {σ : Type} (out : Emitter σ)
    (s : σ) : Run σ :=
  out.Print "%s\\" [tag] s

/-- The struct `Ampersand`. -/
structure Ampersand where

/-- Go `Ampersand.Command`. -/
def Ampersand.Command (_cmd : Ampersand) : String := "Ampersand"

/-- Go `Ampersand.Generate`. -/
def Ampersand.Generate (_cmd : Ampersand) (tag : String) {σ : Type} (out : Emitter σ)
    (s : σ) : Run σ :=
  out.Print "%s&" [tag] s

/-- The struct `Tilde`. -/
structure Tilde where
  LanguageID : String

/-- Go `Tilde.Command`. -/
def Tilde.Command (_cmd : Tilde) : String := "Tilde"

/-- Go `Tilde.Generate`. -/
def Tilde.Generate (h : Helpers) (cmd : Tilde) (tag : String) {σ : Type} (out : Emitter σ)
    (s : σ) : Run σ :=
  out.Print "%s~%s" [tag, h.optional cmd.LanguageID] s

/-- The struct `LessThan`. -/
structure LessThan where

/-- Go `LessThan.Command`. -/
def LessThan.Command (_cmd : LessThan) : String := "LessThan"

/-- Go `LessThan.Generate`. -/
def LessThan.Generate (_cmd : LessThan) (tag : String) {σ : Type} (out : Emitter σ)
    (s : σ) : Run σ :=
  out.Print "%s<" [tag] s

/-- The struct `Lt`, which embeds `LessThan`. -/
structure Lt where
  LessThan : LessThan

/-- The method `Command` of `Lt`, promoted from the embedded `LessThan`. -/
def Lt.Command (cmd : Lt) : String := cmd.LessThan.Command

/-- The method `Generate` of `Lt`, promoted from the embedded `LessThan`. -/
def Lt.Generate (cmd : Lt) (tag : String) {σ : Type} (out : Emitter σ)
    (s : σ) : Run σ :=
  cmd.LessThan.Generate tag out s

/-- The struct `Equals`. -/
structure Equals where

/-- Go `Equals.Command`. -/
def Equals.Command (_cmd : Equals) : String := "Equals"

/-- Go `Equals.Generate`. -/
def Equals.Generate (_cmd : Equals) (tag : String) {σ : Type} (out : Emitter σ)
    (s : σ) : Run σ :=
  out.Print "%s=" [tag] s

/-- The struct `GreaterThan`. -/
structure GreaterThan where

/-- Go `GreaterThan.Command`. -/
def GreaterThan.Command (_cmd : GreaterThan) : String := "GreaterThan"

/-- Go `GreaterThan.Generate`. -/
def GreaterThan.Generate (_cmd : GreaterThan) (tag : String) {σ : Type} (out : Emitter σ)
    (s : σ) : Run σ :=
  out.Print "%s>" [tag] s

/-- The struct `Gt`, which embeds `GreaterThan`. -/
structure Gt where
  GreaterThan : GreaterThan

/-- The method `Command` of `Gt`, promoted from the embedded `GreaterThan`. -/
def Gt.Command (cmd : Gt) : String := cmd.GreaterThan.Command

/-- The method `Generate` of `Gt`, promoted from the embedded `GreaterThan`. -/
def Gt.Generate (cmd : Gt) (tag : String) {σ : Type} (out : Emitter σ)
    (s : σ) : Run σ :=
  cmd.GreaterThan.Generate tag out s

/-- The struct `Hashtag`. -/
structure Hashtag where

/-- Go `Hashtag.Command`. -/
def Hashtag.Command (_cmd : Hashtag) : String := "Hashtag"

/-- Go `Hashtag.Generate`. -/
def Hashtag.Generate (_cmd : Hashtag) (tag : String) {σ : Type} (out : Emitter σ)
    (s : σ) : Run σ :=
  out.Print "%s#" [tag] s

/-- The struct `Percent`. -/
structure Percent where

/-- Go `Percent.Command`. -/
def Percent.Command (_cmd : Percent) : String := "Percent"

/-- Go `Percent.Generate`. -/
def Percent.Generate (_cmd : Percent) (tag : String) {σ : Type} (out : Emitter σ)
    (s : σ) : Run σ :=
  out.Print "%s%" [tag] s

/-- The struct `QuotationMark`. -/
structure QuotationMark where

/-- Go `QuotationMark.Command`. -/
def QuotationMark.Command (_cmd : QuotationMark) : String := "QuotationMark"

/-- Go `QuotationMark.Generate`. -/
def QuotationMark.Generate (_cmd : QuotationMark) (tag : String) {σ : Type} (out : Emitter σ)
    (s : σ) : Run σ :=
  out.Print "%s\"" [tag] s

/-- The struct `CharDot`. -/
structure CharDot where

/-- Go `CharDot.Command`. -/
def CharDot.Command (_cmd : CharDot) : String := "CharDot"

/-- Go `CharDot.Generate`. -/
def CharDot.Generate (_cmd : CharDot) (tag : String) {σ : Type} (out : Emitter σ)
    (s : σ) : Run σ :=
  out.Print "%s." [tag] s

/-- The struct `Colon`. -/
structure Colon where

/-- Go `Colon.Command`. -/
def Colon.Command (_cmd : Colon) : String := "Colon"

/-- Go `Colon.Generate`. -/
def Colon.Generate (_cmd : Colon) (tag : String) {σ : Type} (out : Emitter σ)
    (s : σ) : Run σ :=
  out.Print "%s::" [tag] s

/-- The struct `Pipe`. -/
structure Pipe where

/-- Go `Pipe.Command`. -/
def Pipe.Command (_cmd : Pipe) : String := "Pipe"

/-- Go `Pipe.Generate`. -/
def Pipe.Generate (_cmd : Pipe) (tag : String) {σ : Type} (out : Emitter σ)
    (s : σ) : Run σ :=
  out.Print "%s|" [tag] s

/-- The struct `NDash`. -/
structure NDash where

/-- Go `NDash.Command`. -/
def NDash.Command (_cmd : NDash) : String := "NDash"

/-- Go `NDash.Generate`. -/
def NDash.Generate (_cmd : NDash) (tag : String) {σ : Type} (out : Emitter σ)
    (s : σ) : Run σ :=
  out.Print "%s--" [tag] s

/-- The struct `MDash`. -/
structure MDash where

/-- Go `MDash.Command`. -/
def MDash.Command (_cmd : MDash) : String := "MDash"

/-- Go `MDash.Generate`. -/
def MDash.Generate (_cmd : MDash) (tag : String) {σ : Type} (out : Emitter σ)
    (s : σ) : Run σ :=
  out.Print "%s---" [tag] s

/-- A value of one of the struct types of package command that implement `Command`:
what a variable of interface type `Command` can hold from this library. -/
inductive Directive where
  | ofA (cmd : A)
  | ofAddindex (cmd : Addindex)
  | ofAddtogroup (cmd : Addtogroup)
  | ofAnchor (cmd : Anchor)
  | ofArg (cmd : Arg)
  | ofAttention (cmd : Attention)
  | ofAuthor (cmd : Author)
  | ofAuthors (cmd : Authors)
  | ofB (cmd : B)
  | ofMultiB (cmd : MultiB)
  | ofBrief (cmd : Brief)
  | ofBug (cmd : Bug)
  | ofC (cmd : C)
  | ofCallergraph (cmd : Callergraph)
  | ofCallgraph (cmd : Callgraph)
  | ofCategory (cmd : Category)
  | ofCite (cmd : Cite)
  | ofClass (cmd : Class)
  | ofCode (cmd : Code)
  | ofConcept (cmd : Concept)
  | ofCond (cmd : Cond)
  | ofCopybrief (cmd : Copybrief)
  | ofCopydetails (cmd : Copydetails)
  | ofCopydoc (cmd : Copydoc)
  | ofCopyright (cmd : Copyright)
  | ofDate (cmd : Date)
  | ofDef (cmd : Def)
  | ofDefgroup (cmd : Defgroup)
  | ofDeprecated (cmd : Deprecated)
  | ofDetails (cmd : Details)
  | ofDiafile (cmd : Diafile)
  | ofDir (cmd : Dir)
  | ofE (cmd : E)
  | ofEm (cmd : Em)
  | ofMultiEm (cmd : MultiEm)
  | ofEmoji (cmd : Emoji)
  | ofEndcode (cmd : Endcode)
  | ofEndparblock (cmd : Endparblock)
  | ofEnum (cmd : Enum)
  | ofException (cmd : Exception)
  | ofExtends (cmd : Extends)
  | ofFile (cmd : File)
  | ofHeaderFile (cmd : HeaderFile)
  | ofIdlexcept (cmd : Idlexcept)
  | ofImplements (cmd : Implements)
  | ofMemberof (cmd : Memberof)
  | ofNamespace (cmd : Namespace)
  | ofNoop (cmd : Noop)
  | ofPackage (cmd : Package)
  | ofPar (cmd : Par)
  | ofParagraph (cmd : Paragraph)
  | ofParam (cmd : Param)
  | ofParblock (cmd : Parblock)
  | ofRefitem (cmd : Refitem)
  | ofRelated (cmd : Related)
  | ofRelates (cmd : Relates)
  | ofRelatedalso (cmd : Relatedalso)
  | ofRelatesalso (cmd : Relatesalso)
  | ofRemark (cmd : Remark)
  | ofRemarks (cmd : Remarks)
  | ofReturn (cmd : Return)
  | ofReturns (cmd : Returns)
  | ofShort (cmd : Short)
  | ofShowdate (cmd : Showdate)
  | ofThrow (cmd : Throw)
  | ofThrows (cmd : Throws)
  | ofTodo (cmd : Todo)
  | ofVar (cmd : Var)
  | ofVersion (cmd : Version)
  | ofWarning (cmd : Warning)
  | ofDollar (cmd : Dollar)
  | ofAt (cmd : At)
  | ofBackslash (cmd : Backslash)
  | ofAmpersand (cmd : Ampersand)
  | ofTilde (cmd : Tilde)
  | ofLessThan (cmd : LessThan)
  | ofLt (cmd : Lt)
  | ofEquals (cmd : Equals)
  | ofGreaterThan (cmd : GreaterThan)
  | ofGt (cmd : Gt)
  | ofHashtag (cmd : Hashtag)
  | ofPercent (cmd : Percent)
  | ofQuotationMark (cmd : QuotationMark)
  | ofCharDot (cmd : CharDot)
  | ofColon (cmd : Colon)
  | ofPipe (cmd : Pipe)
  | ofNDash (cmd : NDash)
  | ofMDash (cmd : MDash)

/-- The method `Command` of the value held. -/
def Directive.Command : Directive → String
  | .ofA cmd => cmd.Command
  | .ofAddindex cmd => cmd.Command
  | .ofAddtogroup cmd => cmd.Command
  | .ofAnchor cmd => cmd.Command
  | .ofArg cmd => cmd.Command
  | .ofAttention cmd => cmd.Command
  | .ofAuthor cmd => cmd.Command
  | .ofAuthors cmd => cmd.Command
  | .ofB cmd => cmd.Command
  | .ofMultiB cmd => cmd.Command
  | .ofBrief cmd => cmd.Command
  | .ofBug cmd => cmd.Command
  | .ofC cmd => cmd.Command
  | .ofCallergraph cmd => cmd.Command
  | .ofCallgraph cmd => cmd.Command
  | .ofCategory cmd => cmd.Command
  | .ofCite cmd => cmd.Command
  | .ofClass cmd => cmd.Command
  | .ofCode cmd => cmd.Command
  | .ofConcept cmd => cmd.Command
  | .ofCond cmd => cmd.Command
  | .ofCopybrief cmd => cmd.Command
  | .ofCopydetails cmd => cmd.Command
  | .ofCopydoc cmd => cmd.Command
  | .ofCopyright cmd => cmd.Command
  | .ofDate cmd => cmd.Command
  | .ofDef cmd => cmd.Command
  | .ofDefgroup cmd => cmd.Command
  | .ofDeprecated cmd => cmd.Command
  | .ofDetails cmd => cmd.Command
  | .ofDiafile cmd => cmd.Command
  | .ofDir cmd => cmd.Command
  | .ofE cmd => cmd.Command
  | .ofEm cmd => cmd.Command
  | .ofMultiEm cmd => cmd.Command
  | .ofEmoji cmd => cmd.Command
  | .ofEndcode cmd => cmd.Command
  | .ofEndparblock cmd => cmd.Command
  | .ofEnum cmd => cmd.Command
  | .ofException cmd => cmd.Command
  | .ofExtends cmd => cmd.Command
  | .ofFile cmd => cmd.Command
  | .ofHeaderFile cmd => cmd.Command
  | .ofIdlexcept cmd => cmd.Command
  | .ofImplements cmd => cmd.Command
  | .ofMemberof cmd => cmd.Command
  | .ofNamespace cmd => cmd.Command
  | .ofNoop cmd => cmd.Command
  | .ofPackage cmd => cmd.Command
  | .ofPar cmd => cmd.Command
  | .ofParagraph cmd => cmd.Command
  | .ofParam cmd => cmd.Command
  | .ofParblock cmd => cmd.Command
  | .ofRefitem cmd => cmd.Command
  | .ofRelated cmd => cmd.Command
  | .ofRelates cmd => cmd.Command
  | .ofRelatedalso cmd => cmd.Command
  | .ofRelatesalso cmd => cmd.Command
  | .ofRemark cmd => cmd.Command
  | .ofRemarks cmd => cmd.Command
  | .ofReturn cmd => cmd.Command
  | .ofReturns cmd => cmd.Command
  | .ofShort cmd => cmd.Command
  | .ofShowdate cmd => cmd.Command
  | .ofThrow cmd => cmd.Command
  | .ofThrows cmd => cmd.Command
  | .ofTodo cmd => cmd.Command
  | .ofVar cmd => cmd.Command
  | .ofVersion cmd => cmd.Command
  | .ofWarning cmd => cmd.Command
  | .ofDollar cmd => cmd.Command
  | .ofAt cmd => cmd.Command
  | .ofBackslash cmd => cmd.Command
  | .ofAmpersand cmd => cmd.Command
  | .ofTilde cmd => cmd.Command
  | .ofLessThan cmd => cmd.Command
  | .ofLt cmd => cmd.Command
  | .ofEquals cmd => cmd.Command
  | .ofGreaterThan cmd => cmd.Command
  | .ofGt cmd => cmd.Command
  | .ofHashtag cmd => cmd.Command
  | .ofPercent cmd => cmd.Command
  | .ofQuotationMark cmd => cmd.Command
  | .ofCharDot cmd => cmd.Command
  | .ofColon cmd => cmd.Command
  | .ofPipe cmd => cmd.Command
  | .ofNDash cmd => cmd.Command
  | .ofMDash cmd => cmd.Command

/-- The method `Generate` of the value held. -/
def Directive.Generate (h : Helpers) (d : Directive) (tag : String) {σ : Type}
    (out : Emitter σ) (s : σ) : Run σ :=
  match d with
  | .ofA cmd => cmd.Generate h tag out s
  | .ofAddindex cmd => cmd.Generate tag out s
  | .ofAddtogroup cmd => cmd.Generate h tag out s
  | .ofAnchor cmd => cmd.Generate h tag out s
  | .ofArg cmd => cmd.Generate tag out s
  | .ofAttention cmd => cmd.Generate tag out s
  | .ofAuthor cmd => cmd.Generate tag out s
  | .ofAuthors cmd => cmd.Generate tag out s
  | .ofB cmd => cmd.Generate h tag out s
  | .ofMultiB cmd => cmd.Generate tag out s
  | .ofBrief cmd => cmd.Generate tag out s
  | .ofBug cmd => cmd.Generate tag out s
  | .ofC cmd => cmd.Generate h tag out s
  | .ofCallergraph cmd => cmd.Generate tag out s
  | .ofCallgraph cmd => cmd.Generate tag out s
  | .ofCategory cmd => cmd.Generate h tag out s
  | .ofCite cmd => cmd.Generate h tag out s
  | .ofClass cmd => cmd.Generate h tag out s
  | .ofCode cmd => cmd.Generate h tag out s
  | .ofConcept cmd => cmd.Generate h tag out s
  | .ofCond cmd => cmd.Generate h tag out s
  | .ofCopybrief cmd => cmd.Generate h tag out s
  | .ofCopydetails cmd => cmd.Generate h tag out s
  | .ofCopydoc cmd => cmd.Generate h tag out s
  | .ofCopyright cmd => cmd.Generate h tag out s
  | .ofDate cmd => cmd.Generate tag out s
  | .ofDef cmd => cmd.Generate h tag out s
  | .ofDefgroup cmd => cmd.Generate h tag out s
  | .ofDeprecated cmd => cmd.Generate tag out s
  | .ofDetails cmd => cmd.Generate tag out s
  | .ofDiafile cmd => cmd.Generate h tag out s
  | .ofDir cmd => cmd.Generate h tag out s
  | .ofE cmd => cmd.Generate h tag out s
  | .ofEm cmd => cmd.Generate h tag out s
  | .ofMultiEm cmd => cmd.Generate tag out s
  | .ofEmoji cmd => cmd.Generate tag out s
  | .ofEndcode cmd => cmd.Generate tag out s
  | .ofEndparblock cmd => cmd.Generate tag out s
  | .ofEnum cmd => cmd.Generate h tag out s
  | .ofException cmd => cmd.Generate h tag out s
  | .ofExtends cmd => cmd.Generate h tag out s
  | .ofFile cmd => cmd.Generate h tag out s
  | .ofHeaderFile cmd => cmd.Generate h tag out s
  | .ofIdlexcept cmd => cmd.Generate h tag out s
  | .ofImplements cmd => cmd.Generate h tag out s
  | .ofMemberof cmd => cmd.Generate h tag out s
  | .ofNamespace cmd => cmd.Generate h tag out s
  | .ofNoop cmd => cmd.Generate tag out s
  | .ofPackage cmd => cmd.Generate h tag out s
  | .ofPar cmd => cmd.Generate tag out s
  | .ofParagraph cmd => cmd.Generate h tag out s
  | .ofParam cmd => cmd.Generate tag out s
  | .ofParblock cmd => cmd.Generate tag out s
  | .ofRefitem cmd => cmd.Generate h tag out s
  | .ofRelated cmd => cmd.Generate h tag out s
  | .ofRelates cmd => cmd.Generate h tag out s
  | .ofRelatedalso cmd => cmd.Generate h tag out s
  | .ofRelatesalso cmd => cmd.Generate h tag out s
  | .ofRemark cmd => cmd.Generate tag out s
  | .ofRemarks cmd => cmd.Generate tag out s
  | .ofReturn cmd => cmd.Generate tag out s
  | .ofReturns cmd => cmd.Generate tag out s
  | .ofShort cmd => cmd.Generate tag out s
  | .ofShowdate cmd => cmd.Generate tag out s
  | .ofThrow cmd => cmd.Generate h tag out s
  | .ofThrows cmd => cmd.Generate h tag out s
  | .ofTodo cmd => cmd.Generate tag out s
  | .ofVar cmd => cmd.Generate tag out s
  | .ofVersion cmd => cmd.Generate tag out s
  | .ofWarning cmd => cmd.Generate tag out s
  | .ofDollar cmd => cmd.Generate tag out s
  | .ofAt cmd => cmd.Generate tag out s
  | .ofBackslash cmd => cmd.Generate tag out s
  | .ofAmpersand cmd => cmd.Generate tag out s
  | .ofTilde cmd => cmd.Generate h tag out s
  | .ofLessThan cmd => cmd.Generate tag out s
  | .ofLt cmd => cmd.Generate tag out s
  | .ofEquals cmd => cmd.Generate tag out s
  | .ofGreaterThan cmd => cmd.Generate tag out s
  | .ofGt cmd => cmd.Generate tag out s
  | .ofHashtag cmd => cmd.Generate tag out s
  | .ofPercent cmd => cmd.Generate tag out s
  | .ofQuotationMark cmd => cmd.Generate tag out s
  | .ofCharDot cmd => cmd.Generate tag out s
  | .ofColon cmd => cmd.Generate tag out s
  | .ofPipe cmd => cmd.Generate tag out s
  | .ofNDash cmd => cmd.Generate tag out s
  | .ofMDash cmd => cmd.Generate tag out s

/-- A directive stored in a variable of interface type `Command`. -/
def Directive.toCommand (h : Helpers) (d : Directive) : command.Command :=
  { Generate := d.Generate h, Command := d.Command }

end command

/-! ## Package doxygen -/

namespace doxygen

open emitter command

/-- The struct `Doxygen`. -/
structure Doxygen where
  Commands : List Command
  Tag : String

/-- The Go type `Option`, a function that updates the block it is applied to. -/
abbrev Option := Doxygen → Doxygen

/-- Go `New`.  The constant `DefaultTag` is declared outside the files at hand and is
taken as a parameter. -/
def New (DefaultTag : String) (options : List Option) : Doxygen :=
  options.foldl (fun d opt => opt d) { Commands := [], Tag := DefaultTag }

/-- Go `WithTag`. -/
def WithTag (tag : String) : Option :=
  fun d => { d with Tag := tag }

/-- Go `WithCommand`. -/
def WithCommand (command : Command) : Option :=
  fun d => { d with Commands := d.Commands ++ [command] }

/-- Go `WithMultipleCommands`. -/
def WithMultipleCommands (commands : List Command) : Option :=
  fun d => { d with Commands := d.Commands ++ commands }

/-- The loop of `hasCommand` over the stored directives. -/
def hasCommandLoop (command : Command) : List Command → Bool
  | [] => false
  | cmd :: rest => if cmd.Command = command.Command then true else hasCommandLoop command rest

/-- Go `Doxygen.hasCommand`. -/
def Doxygen.hasCommand (d : Doxygen) (command : Command) : Bool :=
  hasCommandLoop command d.Commands

/-- Go `WithCommandOnce`. -/
def WithCommandOnce (command : Command) : Option :=
  fun d => if !d.hasCommand command then { d with Commands := d.Commands ++ [command] } else d

/-- The loop `for _, cmd := range d.Commands { cmd.Generate(d.Tag, out) }`; a panic in
one directive ends the loop. -/
def generateLoop (tag : String) {σ : Type} (out : Emitter σ) : List Command → σ → Run σ
  | [], s => .ok s
  | cmd :: rest, s =>
    (cmd.Generate tag out s).andThen (generateLoop tag out rest)

/-- Go `Doxygen.Generate`. -/
def Doxygen.Generate (d : Doxygen) {σ : Type} (out : Emitter σ) (s : σ) : Run σ :=
  (out.Println "/**" [] s).andThen fun s =>
  (out.Indent 1 s).andThen fun s =>
  (generateLoop d.Tag out d.Commands s).andThen fun s =>
  (out.Indent (-1) s).andThen fun s =>
  out.Println "*/" [] s

end doxygen

/-! ## Definitions used to state the properties -/

namespace emitter

/-- Whether a run ended in a panic. -/
def Run.panics {σ : Type} : Run σ → Bool
  | .ok _ => false
  | .panicked _ _ => true

/-- The state in which a run ended, normally or by a panic. -/
def Run.state {σ : Type} : Run σ → σ
  | .ok s => s
  | .panicked _ s => s

/-- The calls of a list performed one after the other, each in the state left by the one
before it; the first call that panics ends the run. -/
def performInOrder {σ : Type} : List (σ → Run σ) → σ → Run σ
  | [], s => .ok s
  | call :: rest, s =>
    match call s with
    | .ok s1 => performInOrder rest s1
    | .panicked msg s1 => .panicked msg s1

/-- The indentation written in front of a text: one tab per unit of indent depth when
the sink is at line start, nothing otherwise. -/
def indentation (indent : Nat) (start : Bool) : String :=
  if start then String.mk (List.replicate indent '\t') else ""

/-- The indent depth after the first `i` calls of `Indent(n1)`, ..., `Indent(nk)` made
from depth `d`, computed on unbounded integers: `d + n1 + ... + ni`. -/
def depthAfter (d : Int) (ns : List Int) (i : Nat) : Int := d + (ns.take i).sum

/-- The integers that are an indent depth `Indent` accepts: not negative, and small
enough for the conversion `int(e.indent)` to keep the value. -/
def IsDepth (z : Int) : Prop := 0 ≤ z ∧ z < 2 ^ (intSize - 1)

instance (z : Int) : Decidable (IsDepth z) := by
  unfold IsDepth; infer_instance

/-- A sink with an empty buffer in the given formatting state. -/
def blank (indent : Nat) (start : Bool) : SampleEmitter :=
  { sb := "", maxLineLength := 0, start := start, indent := indent }

end emitter

namespace command

open emitter

/-- The text a directive emits when rendered at the given indent depth and line-start
flag: what it leaves in a sink whose buffer was empty. -/
def emittedText (c : Command) (tag : String) (indent : Nat) (start : Bool) : String :=
  (c.Generate tag sampleEmitter (blank indent start)).state.sb

/-- The line-start flag a directive leaves behind when rendered at the given indent depth
and line-start flag. -/
def startAfter (c : Command) (tag : String) (indent : Nat) (start : Bool) : Bool :=
  (c.Generate tag sampleEmitter (blank indent start)).state.start

/-- The directive contract: rendering completes, appends the directive's text to the
buffer whatever the buffer holds, and changes neither the indent depth nor the
maximum line width. -/
def WritesOnly (c : Command) (tag : String) : Prop :=
  ∀ e : SampleEmitter, c.Generate tag sampleEmitter e =
    .ok { e with sb := e.sb ++ emittedText c tag e.indent e.start,
                 start := startAfter c tag e.indent e.start }

/-- The texts of a list written one after the other. -/
def concatInOrder : List String → String
  | [] => ""
  | x :: rest => x ++ concatInOrder rest

/-- The texts emitted by the directives of a list rendered one after the other at a fixed
indent depth, the first at line-start flag `start`, each next one at the flag left by
its predecessor. -/
def textsInOrder (tag : String) (indent : Nat) : List Command → Bool → List String
  | [], _ => []
  | c :: rest, start =>
    emittedText c tag indent start :: textsInOrder tag indent rest (startAfter c tag indent start)

/-- The line-start flag left after the directives of a list were rendered in order. -/
def startAfterAll (tag : String) (indent : Nat) : List Command → Bool → Bool
  | [], start => start
  | c :: rest, start => startAfterAll tag indent rest (startAfter c tag indent start)

end command

namespace doxygen

/-- The options of a list applied one after the other, the first to the given block,
each next one to the block returned by the one before it. -/
def applyInOrder : List Option → Doxygen → Doxygen
  | [], d => d
  | opt :: rest, d => applyInOrder rest (opt d)

end doxygen

namespace emitter

/-- A sink action that only writes: on every sink it completes, appends to the buffer a
text fixed by the indent depth and the line-start flag, leaves a line-start flag fixed by
the old one, and keeps the indent depth and the maximum line width. -/
def Writes (f : SampleEmitter → Run SampleEmitter) : Prop :=
  ∃ (text : Nat → Bool → String) (after : Bool → Bool), ∀ e : SampleEmitter,
    f e = .ok { e with sb := e.sb ++ text e.indent e.start, start := after e.start }

/-- What a sink action does to a sink, the old contents of the buffer apart: the text it
appends, the line-start flag and indent depth it leaves, and the message of its panic
when it ends in one. -/
structure Effect where
  text : String
  start : Bool
  indent : Nat
  failure : Option String

/-- The outcome of an effect on a sink. -/
def Effect.applyTo (x : Effect) (e : SampleEmitter) : Run SampleEmitter :=
  match x.failure with
  | none => .ok { e with sb := e.sb ++ x.text, start := x.start, indent := x.indent }
  | some msg =>
    .panicked msg { e with sb := e.sb ++ x.text, start := x.start, indent := x.indent }

/-- A sink action whose effect is fixed by the indent depth and the line-start flag of
the sink it is run on: it neither reads the buffer nor the maximum width, and it only
appends to the buffer. -/
def BufferBlind (f : SampleEmitter → Run SampleEmitter) : Prop :=
  ∃ effect : Nat → Bool → Effect, ∀ e : SampleEmitter, f e = (effect e.indent e.start).applyTo e

end emitter

namespace doxygen

open emitter command

/-- The states in which the directives of a list begin their render, when they are
rendered in order from state `s`; a panic ends the list. -/
def statesAtRender (tag : String) {σ : Type} (out : Emitter σ) : List Command → σ → List σ
  | [], _ => []
  | cmd :: rest, s =>
    s :: (match cmd.Generate tag out s with
          | .ok s1 => statesAtRender tag out rest s1
          | .panicked _ _ => [])

/-- The states in which the directives of a block begin their render during
`Doxygen.Generate` started in state `s`. -/
def Doxygen.statesAtRender (d : Doxygen) {σ : Type} (out : Emitter σ) (s : σ) : List σ :=
  match out.Println "/**" [] s with
  | .panicked _ _ => []
  | .ok s1 =>
    match out.Indent 1 s1 with
    | .panicked _ _ => []
    | .ok s2 => doxygen.statesAtRender d.Tag out d.Commands s2

/-- The block that stores the given library directives under the given tag. -/
def blockOf (h : Helpers) (tag : String) (ds : List Directive) : Doxygen :=
  { Commands := ds.map (Directive.toCommand h), Tag := tag }

end doxygen

namespace emitter

/-- One call on a sink. -/
inductive Op where
  | Indent (n : Int)
  | Print (format : String) (args : List String)
  | Println (format : String) (args : List String)
  | Newline

/-- The call performed on the sample sink, through the interface. -/
def Op.run : Op → SampleEmitter → Run SampleEmitter
  | .Indent n, e => sampleEmitter.Indent n e
  | .Print format args, e => sampleEmitter.Print format args e
  | .Println format args, e => sampleEmitter.Println format args e
  | .Newline, e => sampleEmitter.Newline e

/-- The operand of a call is a machine integer. -/
def Op.WellFormed : Op → Prop
  | .Indent n => IsInt n
  | _ => True

instance : DecidablePred Op.WellFormed
  | .Indent n => inferInstanceAs (Decidable (IsInt n))
  | .Print _ _ => isTrue trivial
  | .Println _ _ => isTrue trivial
  | .Newline => isTrue trivial

/-- The text a call writes contains no line feed. -/
def Op.SingleLine : Op → Prop
  | .Print format args => '\n' ∉ (fmt.Sprintf format args).data
  | .Println format args => '\n' ∉ (fmt.Sprintf format args).data
  | _ => True

instance : DecidablePred Op.SingleLine
  | .Indent _ => isTrue trivial
  | .Print format args => inferInstanceAs (Decidable ('\n' ∉ (fmt.Sprintf format args).data))
  | .Println format args => inferInstanceAs (Decidable ('\n' ∉ (fmt.Sprintf format args).data))
  | .Newline => isTrue trivial

/-- A logical line to which text was written: the indent depth in force at its first
write and the texts written to it, one after the other. -/
structure Line where
  depth : Nat
  text : String

/-- The characters of a logical line: nothing for a line to which no text was written,
otherwise as many tabs as the depth in force at its first write, then its texts. -/
def lineChars : Option Line → List Char
  | none => []
  | some l => List.replicate l.depth '\t' ++ l.text.data

/-- What a sequence of calls builds, line by line: the lines already ended, the line
under way (`none` while no text was written to it) and the indent depth in force. -/
structure Page where
  done : List (Option Line)
  current : Option Line
  depth : Nat

/-- A text written to the page: it opens the line under way at the depth in force, or
extends it. -/
def Page.write (x : String) (p : Page) : Page :=
  match p.current with
  | none => { p with current := some { depth := p.depth, text := x } }
  | some l => { p with current := some { depth := l.depth, text := l.text ++ x } }

/-- The line under way is ended and a new one begun. -/
def Page.newline (p : Page) : Page :=
  { p with done := p.done ++ [p.current], current := none }

/-- The effect of one call on the page. -/
def Page.step (p : Page) : Op → Page
  | .Indent n => { p with depth := ((p.depth : Int) + n).toNat }
  | .Print format args => p.write (fmt.Sprintf format args)
  | .Println format args => (p.write (fmt.Sprintf format args)).newline
  | .Newline => p.newline

/-- The page built by a sequence of calls on a new sink. -/
def pageOf (ops : List Op) : Page :=
  ops.foldl Page.step { done := [], current := none, depth := 0 }

/-- The logical lines of a page, the line under way last. -/
def Page.lines (p : Page) : List (Option Line) := p.done ++ [p.current]

/-- The sink holds what the page describes: its buffer is the lines already ended, each
followed by a line feed, then the line under way; its depth is the depth in force; it is
at line start exactly when no text was written to the line under way. -/
def Holds (e : SampleEmitter) (p : Page) : Prop :=
  e.sb.data = (p.done.map (fun l => lineChars l ++ ['\n'])).flatten ++ lineChars p.current ∧
  e.indent = p.depth ∧ (e.start = true ↔ p.current = none) ∧ e.indent < 2 ^ 63

/-- No line of the page contains a line feed. -/
def Page.SingleLines (p : Page) : Prop := ∀ l ∈ p.lines, '\n' ∉ lineChars l

/-- The number of tabs a line begins with. -/
def leadingTabs (line : List Char) : Nat := (line.takeWhile (fun c => c = '\t')).length

end emitter

namespace command

/-- The name of the Go struct type of a directive value: its variant. -/
def Directive.typeName : Directive → String
  | .ofA _ => "A"
  | .ofAddindex _ => "Addindex"
  | .ofAddtogroup _ => "Addtogroup"
  | .ofAnchor _ => "Anchor"
  | .ofArg _ => "Arg"
  | .ofAttention _ => "Attention"
  | .ofAuthor _ => "Author"
  | .ofAuthors _ => "Authors"
  | .ofB _ => "B"
  | .ofMultiB _ => "MultiB"
  | .ofBrief _ => "Brief"
  | .ofBug _ => "Bug"
  | .ofC _ => "C"
  | .ofCallergraph _ => "Callergraph"
  | .ofCallgraph _ => "Callgraph"
  | .ofCategory _ => "Category"
  | .ofCite _ => "Cite"
  | .ofClass _ => "Class"
  | .ofCode _ => "Code"
  | .ofConcept _ => "Concept"
  | .ofCond _ => "Cond"
  | .ofCopybrief _ => "Copybrief"
  | .ofCopydetails _ => "Copydetails"
  | .ofCopydoc _ => "Copydoc"
  | .ofCopyright _ => "Copyright"
  | .ofDate _ => "Date"
  | .ofDef _ => "Def"
  | .ofDefgroup _ => "Defgroup"
  | .ofDeprecated _ => "Deprecated"
  | .ofDetails _ => "Details"
  | .ofDiafile _ => "Diafile"
  | .ofDir _ => "Dir"
  | .ofE _ => "E"
  | .ofEm _ => "Em"
  | .ofMultiEm _ => "MultiEm"
  | .ofEmoji _ => "Emoji"
  | .ofEndcode _ => "Endcode"
  | .ofEndparblock _ => "Endparblock"
  | .ofEnum _ => "Enum"
  | .ofException _ => "Exception"
  | .ofExtends _ => "Extends"
  | .ofFile _ => "File"
  | .ofHeaderFile _ => "HeaderFile"
  | .ofIdlexcept _ => "Idlexcept"
  | .ofImplements _ => "Implements"
  | .ofMemberof _ => "Memberof"
  | .ofNamespace _ => "Namespace"
  | .ofNoop _ => "Noop"
  | .ofPackage _ => "Package"
  | .ofPar _ => "Par"
  | .ofParagraph _ => "Paragraph"
  | .ofParam _ => "Param"
  | .ofParblock _ => "Parblock"
  | .ofRefitem _ => "Refitem"
  | .ofRelated _ => "Related"
  | .ofRelates _ => "Relates"
  | .ofRelatedalso _ => "Relatedalso"
  | .ofRelatesalso _ => "Relatesalso"
  | .ofRemark _ => "Remark"
  | .ofRemarks _ => "Remarks"
  | .ofReturn _ => "Return"
  | .ofReturns _ => "Returns"
  | .ofShort _ => "Short"
  | .ofShowdate _ => "Showdate"
  | .ofThrow _ => "Throw"
  | .ofThrows _ => "Throws"
  | .ofTodo _ => "Todo"
  | .ofVar _ => "Var"
  | .ofVersion _ => "Version"
  | .ofWarning _ => "Warning"
  | .ofDollar _ => "Dollar"
  | .ofAt _ => "At"
  | .ofBackslash _ => "Backslash"
  | .ofAmpersand _ => "Ampersand"
  | .ofTilde _ => "Tilde"
  | .ofLessThan _ => "LessThan"
  | .ofLt _ => "Lt"
  | .ofEquals _ => "Equals"
  | .ofGreaterThan _ => "GreaterThan"
  | .ofGt _ => "Gt"
  | .ofHashtag _ => "Hashtag"
  | .ofPercent _ => "Percent"
  | .ofQuotationMark _ => "QuotationMark"
  | .ofCharDot _ => "CharDot"
  | .ofColon _ => "Colon"
  | .ofPipe _ => "Pipe"
  | .ofNDash _ => "NDash"
  | .ofMDash _ => "MDash"

/-- The struct type whose `Command` method a struct type has: `Lt` embeds `LessThan` and
`Gt` embeds `GreaterThan`, declared as their aliases; every other type has its own. -/
def aliasedType (typeName : String) : String :=
  if typeName = "Lt" then "LessThan"
  else if typeName = "Gt" then "GreaterThan"
  else typeName

end command

namespace command

open emitter

/-- The directive renders one terminated line: on every sink it completes and appends the
sink's indentation, the tag, the line text `line` and a line feed, and leaves the sink at
line start. -/
def RendersLine (c : Command) (tag : String) (line : String) : Prop :=
  ∀ e : SampleEmitter, c.Generate tag sampleEmitter e =
    .ok { e with sb := e.sb ++ (indentation e.indent e.start ++ (tag ++ line) ++ "\n"),
                 start := true }

/-- The directive renders inline: on every sink it completes and appends the sink's
indentation and the text `text`, with no line feed, and leaves the sink inside the
line. -/
def RendersInline (c : Command) (tag : String) (text : String) : Prop :=
  ∀ e : SampleEmitter, c.Generate tag sampleEmitter e =
    .ok { e with sb := e.sb ++ (indentation e.indent e.start ++ text), start := false }

end command

/-! ## Packages unicode, strings and wordwrap (dependencies of `Comment`) -/

namespace unicode

/-- Go `unicode.IsSpace`: the code points with the Unicode property White_Space. In
Latin-1 these are tab, line feed, vertical tab, form feed, carriage return, space,
U+0085 and U+00A0; beyond Latin-1 the table `White_Space`. -/
def IsSpace (r : Char) : Bool :=
  let n := r.toNat
  if n ≤ 0xFF then
    n = 0x09 || n = 0x0A || n = 0x0B || n = 0x0C || n = 0x0D || n = 0x20 || n = 0x85
      || n = 0xA0
  else
    n = 0x1680 || (0x2000 ≤ n && n ≤ 0x200A) || n = 0x2028 || n = 0x2029 || n = 0x202F
      || n = 0x205F || n = 0x3000

end unicode

namespace strings

/-- Go `strings.Split(s, sep)` for a separator of one character, the only use in the
repository (`"\n"`): the pieces of `s` between the occurrences of `sep`, one piece more
than there are occurrences. -/
def Split (s : String) (sep : Char) : List String :=
  (s.data.splitOn sep).map String.mk

end strings

namespace wordwrap

/-- The constant `nbsp` of go-wordwrap: the no-break space U+00A0. -/
def nbsp : Char := Char.ofNat 0xA0

/-- The local variables of `WrapString`: the output buffer `buf`, the number `current`
of characters on the line being built, and the pending word and white space.  The
counters `wordBufLen` and `spaceBufLen` of the library hold the numbers of characters of
`wordBuf` and `spaceBuf`; they are read off the buffers here.  All counters are bounded
by the length of the text, which is below `2 ^ 63` for a Go string, so their `uint`
additions do not wrap around. -/
structure State where
  buf : List Char
  current : Nat
  wordBuf : List Char
  spaceBuf : List Char
  deriving DecidableEq, Repr

/-- The body of the loop `for _, char := range s` of `WrapString`, with limit `lim`. -/
def step (lim : Nat) (st : State) (char : Char) : State :=
  if char = '\n' then
    if st.wordBuf = [] then
      if st.current + st.spaceBuf.length > lim then
        { buf := st.buf ++ [char], current := 0, wordBuf := st.wordBuf, spaceBuf := [] }
      else
        { buf := st.buf ++ st.spaceBuf ++ [char], current := 0, wordBuf := st.wordBuf,
          spaceBuf := [] }
    else
      { buf := st.buf ++ st.spaceBuf ++ st.wordBuf ++ [char], current := 0, wordBuf := [],
        spaceBuf := [] }
  else if unicode.IsSpace char && char != nbsp then
    if st.spaceBuf = [] ∨ st.wordBuf ≠ [] then
      { buf := st.buf ++ st.spaceBuf ++ st.wordBuf,
        current := st.current + (st.spaceBuf.length + st.wordBuf.length),
        wordBuf := [], spaceBuf := [char] }
    else
      { st with spaceBuf := st.spaceBuf ++ [char] }
  else
    if st.current + (st.wordBuf.length + 1) + st.spaceBuf.length > lim
        ∧ st.wordBuf.length + 1 < lim then
      { buf := st.buf ++ ['\n'], current := 0, wordBuf := st.wordBuf ++ [char],
        spaceBuf := [] }
    else
      { st with wordBuf := st.wordBuf ++ [char] }

/-- The statements of `WrapString` after the loop: what is still pending is written,
trailing white space only when it fits the line. -/
def finish (lim : Nat) (st : State) : List Char :=
  if st.wordBuf = [] then
    if st.current + st.spaceBuf.length ≤ lim then st.buf ++ st.spaceBuf else st.buf
  else
    st.buf ++ st.spaceBuf ++ st.wordBuf

/-- The function `WrapString(s, lim)` of github.com/mitchellh/go-wordwrap, the library
`Comment` calls: the text with white space replaced by line feeds where a word would
pass the limit; a word is never broken. -/
def WrapString (s : String) (lim : Nat) : String :=
  String.mk (finish lim (s.data.foldl (step lim) ⟨[], 0, [], []⟩))

end wordwrap

/-! ## Package emitter: `Comment` and the accessors -/

namespace emitter

/-- Unsigned subtraction `a - b` on `uint`, wrapping around below zero. -/
def uintSub (a b : Nat) : Nat := (a + (2 ^ intSize - b % 2 ^ intSize)) % 2 ^ intSize

/-- The local variable `lines` of `Comment`: the text wrapped by `wrap` to the limit
`e.maxLineLength - uint(e.indent)` and split at the line feeds. The wrapping function
is a parameter; the program passes `wordwrap.WrapString`. -/
def SampleEmitter.commentLines (wrap : String → Nat → String) (s : String)
    (e : SampleEmitter) : List String :=
  strings.Split (wrap s (uintSub e.maxLineLength e.indent)) '\n'

/-- The loop `for _, line := range lines \x7b e.Println("// %s", line) \x7d` of `Comment`. -/
def SampleEmitter.commentLoop : List String → SampleEmitter → SampleEmitter
  | [], e => e
  | line :: rest, e => SampleEmitter.commentLoop rest (e.Println "// %s" [line])

/-- Go `(*SampleEmitter).Comment`. -/
def SampleEmitter.Comment (wrap : String → Nat → String) (s : String) (e : SampleEmitter) :
    SampleEmitter :=
  if s ≠ "" then e.commentLoop (e.commentLines wrap s) else e

/-- Go `(*SampleEmitter).MaxLineLength`: the value returned, and the sink after the call. -/
def SampleEmitter.MaxLineLength (e : SampleEmitter) : Nat × SampleEmitter :=
  (e.maxLineLength, e)

/-- Go `(*SampleEmitter).Bytes`, the conversion `[]byte(e.sb.String())`: the UTF-8
encoding of the buffer, and the sink after the call. -/
def SampleEmitter.Bytes (e : SampleEmitter) : ByteArray × SampleEmitter :=
  (e.sb.toUTF8, e)

/-- Go `(*SampleEmitter).String`: the contents of the buffer, and the sink after the
call. -/
def SampleEmitter.String (e : SampleEmitter) : String × SampleEmitter :=
  (e.sb, e)

end emitter

namespace emitter

/-- The text `Comment` emits for a list of lines at indent depth `indent`: each line as
the indentation due at that point (for the first line only when the sink is at line
start, flag `start`), the marker `// `, the line and a line feed. -/
def commentText (indent : Nat) : Bool → List String → String
  | _, [] => ""
  | start, line :: rest =>
    indentation indent start ++ "// " ++ line ++ "\n" ++ commentText indent true rest

end emitter

namespace wordwrap

/-- The characters at which `WrapString` may break a text: the line feed and the white
space other than the no-break space. -/
def breakable (c : Char) : Bool := c = '\n' || (unicode.IsSpace c && c != nbsp)

/-- The words of a text read from left to right, `cur` being the word read so far: the
maximal runs of characters that are not separators, in order. -/
def wordsFrom (sep : Char → Bool) : List Char → List Char → List (List Char)
  | cur, [] => if cur = [] then [] else [cur]
  | cur, c :: rest =>
    if sep c then (if cur = [] then [] else [cur]) ++ wordsFrom sep [] rest
    else wordsFrom sep (cur ++ [c]) rest

/-- The word sequence of a text for the separators `sep`. -/
def words (sep : Char → Bool) (s : String) : List String :=
  (wordsFrom sep [] s.data).map String.mk

end wordwrap

namespace doxygen

/-- The no-duplicate-kind invariant of a block: no two directives of its sequence have
the same `Command()` value. -/
def DistinctKinds (d : Doxygen) : Prop := (d.Commands.map (fun c => c.Command)).Nodup

end doxygen

namespace emitter

/-- The buffer of `before` is kept as the beginning of the buffer of `after`: nothing
already emitted was removed or rewritten. -/
def AppendsOnly (before after : SampleEmitter) : Prop := before.sb.data <+: after.sb.data

end emitter

namespace command

open emitter

/-- The lines of the paragraphs of a `Parblock` at indent depth `indent`, the first one
written at line-start flag `start`: each paragraph as its indentation, the paragraph and
a line feed, with one empty line (a lone line feed) between consecutive paragraphs and
none after the last. -/
def paragraphsText (indent : Nat) : Bool → List String → String
  | _, [] => ""
  | start, [p] => indentation indent start ++ p ++ "\n"
  | start, p :: q :: rest =>
    indentation indent start ++ p ++ "\n" ++ "\n" ++ paragraphsText indent true (q :: rest)

end command

/-! ## Auxiliary lemmas -/

namespace emitter

theorem writeTabs_eq (k : Nat) (sb : String) :
    writeTabs k sb = sb ++ String.mk (List.replicate k '\t') := by
  induction k generalizing sb with
  | zero => apply String.ext; simp [writeTabs]
  | succ k ih =>
    rw [writeTabs, ih]
    apply String.ext
    simp [String.data_append, String.data_push, List.replicate_succ]

theorem Print_eq (format : String) (args : List String) (e : SampleEmitter) :
    e.Print format args =
      { e with sb := e.sb ++ (indentation e.indent e.start ++ fmt.Sprintf format args),
               start := false } := by
  cases e with
  | mk sb m start indent =>
    cases start <;>
      simp [SampleEmitter.Print, SampleEmitter.checkIndent, indentation, writeTabs_eq,
        String.append_assoc]

theorem Println_eq (format : String) (args : List String) (e : SampleEmitter) :
    e.Println format args =
      { e with sb := e.sb ++ (indentation e.indent e.start ++ fmt.Sprintf format args ++ "\n"),
               start := true } := by
  rw [SampleEmitter.Println, Print_eq]
  simp only [SampleEmitter.Newline]
  congr 1
  apply String.ext
  simp [String.data_append, String.data_push]

theorem intOfUint_small (d : Nat) (h : d < 2 ^ 63) : intOfUint d = (d : Int) := by
  unfold intOfUint intSize
  have h1 : d % 2 ^ 64 = d := Nat.mod_eq_of_lt (by omega)
  rw [h1, if_pos (by simpa using h)]

theorem intAdd_exact (a b : Int) (h0 : -(2 ^ 63) ≤ a + b) (h1 : a + b < 2 ^ 63) :
    intAdd a b = a + b := by
  unfold intAdd intSize
  norm_num at h0 h1 ⊢
  omega

theorem intAdd_overflow (a b : Int) (h0 : 2 ^ 63 ≤ a + b) (h1 : a + b < 2 ^ 64) :
    intAdd a b = a + b - 2 ^ 64 := by
  unfold intAdd intSize
  norm_num at h0 h1 ⊢
  omega

theorem uintAdd_uintOfInt (d : Nat) (n : Int) (h0 : 0 ≤ (d : Int) + n)
    (h1 : (d : Int) + n < 2 ^ 64) :
    uintAdd d (uintOfInt n) = ((d : Int) + n).toNat := by
  unfold uintAdd uintOfInt intSize
  norm_num at h0 h1 ⊢
  omega

theorem Indent_ok (n : Int) (e : SampleEmitter) (hd : e.indent < 2 ^ 63)
    (h0 : 0 ≤ (e.indent : Int) + n) (h1 : (e.indent : Int) + n < 2 ^ 63) :
    e.Indent n = .ok { e with indent := ((e.indent : Int) + n).toNat } := by
  unfold SampleEmitter.Indent
  rw [intOfUint_small _ hd, intAdd_exact _ _ (by omega) h1, if_neg (by omega),
    uintAdd_uintOfInt _ _ h0 (by omega)]

theorem Indent_negative (n : Int) (e : SampleEmitter) (hd : e.indent < 2 ^ 63)
    (hn : IsInt n) (h : (e.indent : Int) + n < 0) :
    e.Indent n = .panicked unbalanced e := by
  unfold SampleEmitter.Indent
  have hn0 : -(2 ^ 63) ≤ n := by simpa [IsInt, intSize] using hn.1
  rw [intOfUint_small _ hd, intAdd_exact _ _ (by omega) (by omega), if_pos h]

theorem Indent_overflow (n : Int) (e : SampleEmitter) (hd : e.indent < 2 ^ 63)
    (hn : IsInt n) (h : 2 ^ 63 ≤ (e.indent : Int) + n) :
    e.Indent n = .panicked unbalanced e := by
  unfold SampleEmitter.Indent
  have hn1 : n < 2 ^ 63 := by simpa [IsInt, intSize] using hn.2
  rw [intOfUint_small _ hd, intAdd_overflow _ _ h (by omega), if_pos (by omega)]

theorem Sprintf_open : fmt.Sprintf "/**" [] = "/**" := by decide

theorem Sprintf_close : fmt.Sprintf "*/" [] = "*/" := by decide

theorem sampleEmitter_Println (format : String) (args : List String) (e : SampleEmitter) :
    sampleEmitter.Println format args e = .ok (e.Println format args) := rfl

theorem sampleEmitter_Indent (n : Int) (e : SampleEmitter) :
    sampleEmitter.Indent n e = e.Indent n := rfl

theorem Indent_succ (e : SampleEmitter) (h : e.indent + 1 < 2 ^ 63) :
    e.Indent 1 = .ok { e with indent := e.indent + 1 } := by
  rw [Indent_ok 1 e (by omega) (by omega) (by omega)]
  congr 2

theorem Indent_pred (e : SampleEmitter) (h0 : 0 < e.indent) (h : e.indent < 2 ^ 63) :
    e.Indent (-1) = .ok { e with indent := e.indent - 1 } := by
  rw [Indent_ok (-1) e h (by omega) (by omega)]
  congr 2
  omega

theorem andThen_ok {σ : Type} (s : σ) (next : σ → Run σ) :
    (Run.ok s).andThen next = next s := rfl

theorem andThen_panicked {σ : Type} (msg : String) (s : σ) (next : σ → Run σ) :
    (Run.panicked msg s).andThen next = .panicked msg s := rfl

theorem performInOrder_cons {σ : Type} (call : σ → Run σ) (rest : List (σ → Run σ)) (s : σ) :
    performInOrder (call :: rest) s = (call s).andThen (performInOrder rest) := by
  rw [performInOrder]
  cases call s <;> rfl

theorem performInOrder_append {σ : Type} (xs ys : List (σ → Run σ)) (s : σ) :
    performInOrder (xs ++ ys) s = (performInOrder xs s).andThen (performInOrder ys) := by
  induction xs generalizing s with
  | nil => rfl
  | cons call rest ih =>
    rw [List.cons_append, performInOrder_cons, performInOrder_cons]
    cases call s with
    | ok s1 => simpa [andThen_ok] using ih s1
    | panicked msg s1 => rfl

theorem Indent_invalid (n : Int) (e : SampleEmitter) (hd : e.indent < 2 ^ 63)
    (hn : IsInt n) (h : ¬ IsDepth ((e.indent : Int) + n)) :
    e.Indent n = .panicked unbalanced e := by
  by_cases h0 : (e.indent : Int) + n < 0
  · exact Indent_negative n e hd hn h0
  · apply Indent_overflow n e hd hn
    simp only [IsDepth, intSize] at h
    norm_num at h
    omega

theorem depthAfter_zero (d : Int) (ns : List Int) : depthAfter d ns 0 = d := by
  simp [depthAfter]

theorem depthAfter_cons_succ (d n : Int) (ns : List Int) (i : Nat) :
    depthAfter d (n :: ns) (i + 1) = depthAfter (d + n) ns i := by
  simp [depthAfter, add_assoc]

theorem IsDepth_toNat (z : Int) (h : IsDepth z) : z.toNat < 2 ^ 63 ∧ (z.toNat : Int) = z := by
  simp only [IsDepth, intSize] at h
  norm_num at h
  omega

theorem indentAll_complete (ns : List Int) (e : SampleEmitter)
    (h : ∀ j ≤ ns.length, IsDepth (depthAfter e.indent ns j)) :
    performInOrder (ns.map SampleEmitter.Indent) e =
      .ok { e with indent := (depthAfter e.indent ns ns.length).toNat } := by
  induction ns generalizing e with
  | nil => simp [performInOrder, depthAfter]
  | cons n rest ih =>
    have h0 := h 0 (Nat.zero_le _)
    have h1 := h 1 (by simp)
    rw [depthAfter_zero] at h0
    rw [depthAfter_cons_succ, depthAfter_zero] at h1
    have hd := (IsDepth_toNat _ h0).1
    have hz := IsDepth_toNat _ h1
    simp only [Int.toNat_ofNat] at hd
    simp only [IsDepth, intSize] at h1
    norm_num at h1
    rw [List.map_cons, performInOrder_cons, Indent_ok n e hd h1.1 h1.2, andThen_ok, ih]
    · simp only [List.length_cons, depthAfter_cons_succ, hz.2]
    · intro j hj
      have := h (j + 1) (by simpa using hj)
      rw [depthAfter_cons_succ] at this
      simpa only [hz.2] using this

theorem indentAll_fails (ns : List Int) (e : SampleEmitter) (hn : ∀ n ∈ ns, IsInt n) (i : Nat)
    (hi : i < ns.length) (h : ∀ j ≤ i, IsDepth (depthAfter e.indent ns j))
    (hbad : ¬ IsDepth (depthAfter e.indent ns (i + 1))) :
    performInOrder (ns.map SampleEmitter.Indent) e =
      .panicked unbalanced { e with indent := (depthAfter e.indent ns i).toNat } := by
  induction ns generalizing e i with
  | nil => simp at hi
  | cons n rest ih =>
    have h0 := h 0 (Nat.zero_le _)
    rw [depthAfter_zero] at h0
    have hd := (IsDepth_toNat _ h0).1
    simp only [Int.toNat_ofNat] at hd
    have hnn : IsInt n := hn n (List.mem_cons_self n rest)
    rw [List.map_cons, performInOrder_cons]
    cases i with
    | zero =>
      rw [depthAfter_cons_succ, depthAfter_zero] at hbad
      rw [Indent_invalid n e hd hnn hbad, andThen_panicked]
      simp [depthAfter]
    | succ i =>
      have h1 := h 1 (by omega)
      rw [depthAfter_cons_succ, depthAfter_zero] at h1
      have hz := IsDepth_toNat _ h1
      have h1b := h1
      simp only [IsDepth, intSize] at h1b
      norm_num at h1b
      rw [Indent_ok n e hd h1b.1 h1b.2, andThen_ok,
        ih _ (fun x hx => hn x (List.mem_cons_of_mem n hx)) i (by simpa using hi)]
      · simp only [depthAfter_cons_succ, hz.2]
      · intro j hj
        have := h (j + 1) (by omega)
        rw [depthAfter_cons_succ] at this
        simpa only [hz.2] using this
      · rw [depthAfter_cons_succ] at hbad
        simpa only [hz.2] using hbad

theorem depthAfter_take (d : Int) (ns : List Int) (i j : Nat) (h : j ≤ i) :
    depthAfter d (ns.take i) j = depthAfter d ns j := by
  simp [depthAfter, List.take_take, Nat.min_eq_left h]

end emitter

namespace command

open emitter

theorem Brief_writesOnly (cmd : Brief) (tag : String) : WritesOnly cmd.toCommand tag := by
  intro e
  simp [Brief.toCommand, Brief.Generate, sampleEmitter, emittedText, startAfter, Run.state,
    Println_eq, blank]

theorem Param_writesOnly (cmd : Param) (tag : String) : WritesOnly cmd.toCommand tag := by
  intro e
  simp only [Param.toCommand, Param.Generate, sampleEmitter, emittedText, startAfter]
  split <;>
    simp [andThen_ok, Run.state, Println_eq, Print_eq, blank, indentation, String.append_assoc]

end command

namespace doxygen

open emitter command

theorem generateLoop_eq_performInOrder (tag : String) {σ : Type} (out : Emitter σ)
    (cs : List Command) (s : σ) :
    generateLoop tag out cs s = performInOrder (cs.map (fun c => c.Generate tag out)) s := by
  induction cs generalizing s with
  | nil => rfl
  | cons c rest ih =>
    rw [generateLoop, List.map_cons, performInOrder_cons]
    cases c.Generate tag out s with
    | ok s1 => simpa [andThen_ok] using ih s1
    | panicked msg s1 => rfl

theorem generateLoop_writers (tag : String) (cs : List Command)
    (h : ∀ c ∈ cs, WritesOnly c tag) (e : SampleEmitter) :
    generateLoop tag sampleEmitter cs e =
      .ok { e with sb := e.sb ++ concatInOrder (textsInOrder tag e.indent cs e.start),
                   start := startAfterAll tag e.indent cs e.start } := by
  induction cs generalizing e with
  | nil => simp [generateLoop, textsInOrder, startAfterAll, concatInOrder]
  | cons c rest ih =>
    have hc := h c (List.mem_cons_self c rest)
    have hrest : ∀ x ∈ rest, WritesOnly x tag := fun x hx => h x (List.mem_cons_of_mem c hx)
    rw [generateLoop, hc e, andThen_ok, ih hrest]
    simp [textsInOrder, startAfterAll, concatInOrder, String.append_assoc]

theorem Generate_writers (d : Doxygen) (h : ∀ c ∈ d.Commands, WritesOnly c d.Tag)
    (e : SampleEmitter) (hd : e.indent + 1 < 2 ^ 63) :
    d.Generate sampleEmitter e =
      .ok { e with
        sb := e.sb ++ (indentation e.indent e.start ++ "/**" ++ "\n"
          ++ concatInOrder (textsInOrder d.Tag (e.indent + 1) d.Commands true)
          ++ (indentation e.indent (startAfterAll d.Tag (e.indent + 1) d.Commands true)
            ++ "*/" ++ "\n")),
        start := true } := by
  unfold Doxygen.Generate
  rw [sampleEmitter_Println, andThen_ok, sampleEmitter_Indent, Println_eq, Sprintf_open,
    Indent_succ, andThen_ok, generateLoop_writers d.Tag d.Commands h, andThen_ok,
    sampleEmitter_Indent, Indent_pred, andThen_ok, sampleEmitter_Println, Println_eq,
    Sprintf_close]
  · simp [String.append_assoc]
  · simp
  · simpa using hd
  · simpa using hd

/-- C1: for every block, every sink and every sink state, `Doxygen.Generate` ends exactly
as the run that performs, in this order, `Println("/**")`, `Indent(1)`, the `Generate`
of each stored directive in stored order with the block's tag, `Indent(-1)` and
`Println("*/")`. -/
theorem Generate_performs_calls_in_order (d : Doxygen) {σ : Type} (out : Emitter σ) (s : σ) :
    d.Generate out s =
      performInOrder
        ([out.Println "/**" [], out.Indent 1]
          ++ d.Commands.map (fun c => c.Generate d.Tag out)
          ++ [out.Indent (-1), out.Println "*/" []]) s := by
  unfold Doxygen.Generate
  rw [List.append_assoc, performInOrder_append, performInOrder_cons]
  simp only [generateLoop_eq_performInOrder]
  cases out.Println "/**" [] s with
  | panicked msg s1 => rfl
  | ok s1 =>
    simp only [andThen_ok, performInOrder_cons]
    cases out.Indent 1 s1 with
    | panicked msg s2 => rfl
    | ok s2 =>
      simp only [andThen_ok, performInOrder, performInOrder_append]
      cases performInOrder (d.Commands.map (fun c => c.Generate d.Tag out)) s2 with
      | panicked msg s3 => rfl
      | ok s3 =>
        simp only [andThen_ok, performInOrder_cons]
        cases out.Indent (-1) s3 with
        | panicked msg s4 => rfl
        | ok s4 =>
          simp only [andThen_ok, performInOrder_cons]
          cases out.Println "*/" [] s4 <;> rfl

theorem textsInOrder_length (tag : String) (indent : Nat) (cs : List Command) (start : Bool) :
    (textsInOrder tag indent cs start).length = cs.length := by
  induction cs generalizing start with
  | nil => rfl
  | cons c rest ih => simp [textsInOrder, ih]

theorem textsInOrder_getElem (tag : String) (indent : Nat) (cs : List Command) (start : Bool)
    (i : Nat) :
    (textsInOrder tag indent cs start)[i]? =
      (cs[i]?).map
        (fun c => emittedText c tag indent (startAfterAll tag indent (cs.take i) start)) := by
  induction cs generalizing start i with
  | nil => simp [textsInOrder]
  | cons c rest ih =>
    cases i with
    | zero => simp [textsInOrder, startAfterAll]
    | succ i => simp [textsInOrder, startAfterAll, ih]

/-- C2: the block with tag `@` and directives `Brief` "Does X." and `Param` with
direction "in", name "x" and description "the input", rendered into a newly created sink
of any maximum width, completes and leaves exactly the text
`/**\n\t@brief Does X.\n\t@param[in] x the input\n*/\n` in the buffer. -/
theorem Generate_brief_param_scenario (w : Nat) :
    Doxygen.Generate
        { Commands := [(Brief.mk "Does X.").toCommand,
                       (Param.mk "in" "x" "the input").toCommand],
          Tag := "@" }
        sampleEmitter (NewEmitter w) =
      .ok { sb := "/**\n\t@brief Does X.\n\t@param[in] x the input\n*/\n",
            maxLineLength := w, start := true, indent := 0 } := by
  rw [Generate_writers _ _ _ (by simp [NewEmitter])]
  · simp only [NewEmitter]
    congr 2
  · intro c hc
    simp only [List.mem_cons, List.mem_singleton, List.not_mem_nil, or_false] at hc
    rcases hc with rfl | rfl
    · exact Brief_writesOnly _ _
    · exact Param_writesOnly _ _

/-- C3: for every tag, the block with no directives rendered into a newly created sink
completes and leaves exactly `/**\n*/\n` in the buffer: the opening delimiter line, the
closing delimiter line, no body and no tab. -/
theorem Generate_empty_block (tag : String) (w : Nat) :
    Doxygen.Generate { Commands := [], Tag := tag } sampleEmitter (NewEmitter w) =
      .ok { sb := "/**\n*/\n", maxLineLength := w, start := true, indent := 0 } ∧
    "/**\n*/\n" = "/**" ++ "\n" ++ "*/" ++ "\n" ∧
    '\t' ∉ "/**\n*/\n".data := by
  refine ⟨?_, by decide, by decide⟩
  rw [Generate_writers _ (by simp) _ (by simp [NewEmitter])]
  simp only [NewEmitter]
  congr 2

/-- C4: for every tag and every list of directives that keep the directive contract,
appended with `WithMultipleCommands`, `Generate` into a newly created sink completes and
the buffer is the opening delimiter line, then the texts emitted by the directives, one
per directive and in list order, then the closing delimiter line; the i-th text is the
one emitted by the i-th directive in the formatting state its predecessors left. -/
theorem Generate_preserves_order (tag : String) (w : Nat) (cs : List Command)
    (h : ∀ c ∈ cs, WritesOnly c tag) :
    (WithMultipleCommands cs { Commands := [], Tag := tag }).Generate sampleEmitter
        (NewEmitter w) =
      .ok { sb := "/**\n" ++ concatInOrder (textsInOrder tag 1 cs true) ++ "*/\n",
            maxLineLength := w, start := true, indent := 0 } ∧
    (textsInOrder tag 1 cs true).length = cs.length ∧
    ∀ i : Nat, (textsInOrder tag 1 cs true)[i]? =
      (cs[i]?).map (fun c => emittedText c tag 1 (startAfterAll tag 1 (cs.take i) true)) := by
  refine ⟨?_, textsInOrder_length _ _ _ _, textsInOrder_getElem _ _ _ _⟩
  rw [Generate_writers _ (by simpa [WithMultipleCommands] using h) _ (by simp [NewEmitter])]
  simp only [NewEmitter, WithMultipleCommands, List.nil_append]
  congr 1
  simp [indentation, String.append_assoc]

/-- Witness of C4: `Brief` and `Param` keep the directive contract, so the block made of
the two renders as the opening line, the text of the first, the text of the second and
the closing line. -/
theorem Generate_preserves_order_witness :
    (WithMultipleCommands
        [(Brief.mk "Does X.").toCommand, (Param.mk "in" "x" "the input").toCommand]
        { Commands := [], Tag := "@" }).Generate sampleEmitter (NewEmitter 80) =
      .ok { sb := "/**\n" ++
              concatInOrder (textsInOrder "@" 1
                [(Brief.mk "Does X.").toCommand, (Param.mk "in" "x" "the input").toCommand]
                true) ++ "*/\n",
            maxLineLength := 80, start := true, indent := 0 } :=
  (Generate_preserves_order "@" 80
    [(Brief.mk "Does X.").toCommand, (Param.mk "in" "x" "the input").toCommand]
    (by
      intro c hc
      simp only [List.mem_cons, List.mem_singleton, List.not_mem_nil, or_false] at hc
      rcases hc with rfl | rfl
      · exact Brief_writesOnly _ _
      · exact Param_writesOnly _ _)).1

theorem hasCommandLoop_eq_true (c : Command) (cs : List Command) :
    hasCommandLoop c cs = true ↔ ∃ s ∈ cs, s.Command = c.Command := by
  induction cs with
  | nil => simp [hasCommandLoop]
  | cons x rest ih =>
    by_cases hx : x.Command = c.Command
    · simp [hasCommandLoop, hx]
    · simp [hasCommandLoop, hx, ih]

theorem WithCommandOnce_present (d : Doxygen) (c : Command)
    (h : ∃ s ∈ d.Commands, s.Command = c.Command) : WithCommandOnce c d = d := by
  have hl : hasCommandLoop c d.Commands = true := (hasCommandLoop_eq_true c d.Commands).2 h
  simp [WithCommandOnce, Doxygen.hasCommand, hl]

theorem WithCommandOnce_absent (d : Doxygen) (c : Command)
    (h : ∀ s ∈ d.Commands, s.Command ≠ c.Command) :
    WithCommandOnce c d = { d with Commands := d.Commands ++ [c] } := by
  have hl : hasCommandLoop c d.Commands = false := by
    cases hb : hasCommandLoop c d.Commands with
    | false => rfl
    | true =>
      obtain ⟨s, hs, hk⟩ := (hasCommandLoop_eq_true c d.Commands).1 hb
      exact absurd hk (h s hs)
  simp [WithCommandOnce, Doxygen.hasCommand, hl]

/-- C5: `WithCommandOnce(c)` returns the block unchanged when some stored directive has
the same `Command()` value as `c`, and otherwise appends `c` at the end of the sequence;
so appending `a` and then `b` of the same kind to a block holding no directive of that
kind stores `a` only. -/
theorem WithCommandOnce_first_wins (d : Doxygen) (c : Command) :
    ((∃ s ∈ d.Commands, s.Command = c.Command) → WithCommandOnce c d = d) ∧
    ((∀ s ∈ d.Commands, s.Command ≠ c.Command) →
      WithCommandOnce c d = { d with Commands := d.Commands ++ [c] }) ∧
    (∀ b : Command, b.Command = c.Command → (∀ s ∈ d.Commands, s.Command ≠ c.Command) →
      WithCommandOnce b (WithCommandOnce c d) = { d with Commands := d.Commands ++ [c] }) := by
  refine ⟨WithCommandOnce_present d c, WithCommandOnce_absent d c, ?_⟩
  intro b hb habs
  rw [WithCommandOnce_absent d c habs]
  apply WithCommandOnce_present
  exact ⟨c, by simp, hb.symm⟩

/-- Witness of C5: a block that stores `Brief` "one" ignores `WithCommandOnce` of
`Brief` "two", and an empty block given `Brief` "one" then `Brief` "two" stores the
first only. -/
theorem WithCommandOnce_first_wins_witness :
    WithCommandOnce (Brief.mk "two").toCommand
        { Commands := [(Brief.mk "one").toCommand], Tag := "@" } =
      { Commands := [(Brief.mk "one").toCommand], Tag := "@" } ∧
    WithCommandOnce (Brief.mk "two").toCommand
        (WithCommandOnce (Brief.mk "one").toCommand { Commands := [], Tag := "@" }) =
      { Commands := [(Brief.mk "one").toCommand], Tag := "@" } :=
  ⟨(WithCommandOnce_first_wins { Commands := [(Brief.mk "one").toCommand], Tag := "@" }
      (Brief.mk "two").toCommand).1 ⟨(Brief.mk "one").toCommand, by simp, rfl⟩,
   (WithCommandOnce_first_wins { Commands := [], Tag := "@" }
      (Brief.mk "one").toCommand).2.2 (Brief.mk "two").toCommand rfl (by simp)⟩

/-- C6: `WithCommand(c)` yields the stored sequence followed by `c`, whatever is stored:
the tag is kept, the length grows by exactly one, and appending `c` and then `b` leaves
both at the end, in that order, whether or not their kinds agree. -/
theorem WithCommand_appends (d : Doxygen) (c : Command) :
    WithCommand c d = { Commands := d.Commands ++ [c], Tag := d.Tag } ∧
    (WithCommand c d).Commands.length = d.Commands.length + 1 ∧
    (∀ b : Command, (WithCommand b (WithCommand c d)).Commands = d.Commands ++ [c, b]) := by
  refine ⟨rfl, by simp [WithCommand], ?_⟩
  intro b
  simp [WithCommand]

theorem applyInOrder_WithCommand (cs : List Command) (d : Doxygen) :
    applyInOrder (cs.map WithCommand) d = { d with Commands := d.Commands ++ cs } := by
  induction cs generalizing d with
  | nil => simp [applyInOrder]
  | cons c rest ih => simp [applyInOrder, ih, WithCommand]

/-- C7: `WithMultipleCommands(c1, ..., cn)` returns the same block as `WithCommand(c1)`,
..., `WithCommand(cn)` applied in that order: the old sequence followed by `c1..cn`;
with no argument it returns the block unchanged. -/
theorem WithMultipleCommands_eq_repeated_WithCommand (cs : List Command) (d : Doxygen) :
    WithMultipleCommands cs d = applyInOrder (cs.map WithCommand) d ∧
    WithMultipleCommands cs d = { Commands := d.Commands ++ cs, Tag := d.Tag } ∧
    WithMultipleCommands [] d = d := by
  refine ⟨?_, rfl, by simp [WithMultipleCommands]⟩
  rw [applyInOrder_WithCommand]
  rfl

theorem New_eq_applyInOrder (DefaultTag : String) (options : List Option) :
    New DefaultTag options = applyInOrder options { Commands := [], Tag := DefaultTag } := by
  unfold New
  generalize ({ Commands := [], Tag := DefaultTag } : Doxygen) = d
  induction options generalizing d with
  | nil => rfl
  | cons opt rest ih => simpa [applyInOrder] using ih (opt d)

theorem applyInOrder_append (xs ys : List Option) (d : Doxygen) :
    applyInOrder (xs ++ ys) d = applyInOrder ys (applyInOrder xs d) := by
  induction xs generalizing d with
  | nil => rfl
  | cons opt rest ih => simpa [applyInOrder] using ih (opt d)

theorem WithCommandOnce_Tag (c : Command) (d : Doxygen) : (WithCommandOnce c d).Tag = d.Tag := by
  unfold WithCommandOnce
  split <;> rfl

theorem applyInOrder_appending_Tag (rest : List Option) (d : Doxygen)
    (h : ∀ o ∈ rest, (∃ c, o = WithCommand c) ∨ (∃ cs, o = WithMultipleCommands cs) ∨
      (∃ c, o = WithCommandOnce c)) :
    (applyInOrder rest d).Tag = d.Tag := by
  induction rest generalizing d with
  | nil => rfl
  | cons o rest ih =>
    rw [applyInOrder, ih (o d) (fun x hx => h x (List.mem_cons_of_mem o hx))]
    rcases h o (List.mem_cons_self o rest) with ⟨c, rfl⟩ | ⟨cs, rfl⟩ | ⟨c, rfl⟩
    · rfl
    · rfl
    · exact WithCommandOnce_Tag c d

/-- C8: `New(o1, ..., on)` is the result of applying `o1`, ..., `on` in call order to
the block with the default tag and no directive; `New()` is that block; and the tag of
the result is the one of the last `WithTag` option, whatever options precede it, when
only appending options follow it. -/
theorem New_applies_options_in_order (DefaultTag : String) (options : List Option) :
    New DefaultTag options = applyInOrder options { Commands := [], Tag := DefaultTag } ∧
    New DefaultTag [] = { Commands := [], Tag := DefaultTag } ∧
    (∀ (tag : String) (rest : List Option),
      (∀ o ∈ rest, (∃ c, o = WithCommand c) ∨ (∃ cs, o = WithMultipleCommands cs) ∨
        (∃ c, o = WithCommandOnce c)) →
      (New DefaultTag (options ++ WithTag tag :: rest)).Tag = tag) := by
  refine ⟨New_eq_applyInOrder _ _, rfl, ?_⟩
  intro tag rest h
  rw [New_eq_applyInOrder, applyInOrder_append, applyInOrder,
    applyInOrder_appending_Tag rest _ h]
  rfl

/-- Witness of C8: with default tag at-sign and options `WithTag` hash, `WithTag`
backslash and one appended `Brief`, the block built by `New` has the backslash as tag. -/
theorem New_applies_options_in_order_witness :
    (New "@" ([WithTag "#"] ++ WithTag "\\" :: [WithCommand (Brief.mk "b").toCommand])).Tag
      = "\\" :=
  (New_applies_options_in_order "@" [WithTag "#"]).2.2 "\\"
    [WithCommand (Brief.mk "b").toCommand]
    (by intro o ho; simp only [List.mem_singleton] at ho; exact Or.inl ⟨_, ho⟩)

end doxygen

namespace emitter

/-- C9, with the range of the machine integers made explicit: for a sink at depth `d`
below `2 ^ 63` and a machine integer `n`, `Indent(n)` panics if and only if `d + n` is negative or is `2 ^ 63` or more, and it
then panics in the unchanged state; when `0 <= d + n < 2 ^ 63` it completes and the new
depth is exactly `d + n`, the other fields being kept. -/
theorem Indent_panics_iff_depth_out_of_range (e : SampleEmitter) (n : Int)
    (hd : e.indent < 2 ^ 63) (hn : IsInt n) :
    ((e.Indent n).panics = true ↔
      ((e.indent : Int) + n < 0 ∨ 2 ^ 63 ≤ (e.indent : Int) + n)) ∧
    (((e.indent : Int) + n < 0 ∨ 2 ^ 63 ≤ (e.indent : Int) + n) →
      e.Indent n = .panicked unbalanced e) ∧
    (0 ≤ (e.indent : Int) + n → (e.indent : Int) + n < 2 ^ 63 →
      e.Indent n = .ok { e with indent := ((e.indent : Int) + n).toNat }) := by
  have hpanic : ((e.indent : Int) + n < 0 ∨ 2 ^ 63 ≤ (e.indent : Int) + n) →
      e.Indent n = .panicked unbalanced e := by
    rintro (h | h)
    · exact Indent_negative n e hd hn h
    · exact Indent_overflow n e hd hn h
  refine ⟨⟨?_, fun h => by rw [hpanic h]; rfl⟩, hpanic, fun h0 h1 => Indent_ok n e hd h0 h1⟩
  intro hp
  by_contra hcon
  rw [Indent_ok n e hd (by omega) (by omega)] at hp
  simp [Run.panics] at hp

/-- Witness of C9: at depth 2, `Indent(-3)` panics and `Indent(-1)` leaves depth 1. -/
theorem Indent_panics_iff_depth_out_of_range_witness :
    SampleEmitter.Indent (-3) { sb := "", maxLineLength := 80, start := true, indent := 2 } =
      .panicked unbalanced { sb := "", maxLineLength := 80, start := true, indent := 2 } ∧
    SampleEmitter.Indent (-1) { sb := "", maxLineLength := 80, start := true, indent := 2 } =
      .ok { sb := "", maxLineLength := 80, start := true, indent := 1 } :=
  ⟨(Indent_panics_iff_depth_out_of_range
      { sb := "", maxLineLength := 80, start := true, indent := 2 } (-3)
      (by decide) (by decide)).2.1 (Or.inl (by decide)),
   (Indent_panics_iff_depth_out_of_range
      { sb := "", maxLineLength := 80, start := true, indent := 2 } (-1)
      (by decide) (by decide)).2.2 (by decide) (by decide)⟩

/-- Counterexample to C9 as stated: `Indent(2 ^ 63 - 1)` on a new sink completes and
leaves depth `2 ^ 63 - 1`; there `Indent(1)` panics although `d + n` is not negative. -/
theorem Indent_panics_at_signed_overflow :
    IsInt (2 ^ 63 - 1) ∧ IsInt 1 ∧
    SampleEmitter.Indent (2 ^ 63 - 1) (NewEmitter 80) =
      .ok { sb := "", maxLineLength := 80, start := true, indent := 2 ^ 63 - 1 } ∧
    SampleEmitter.WellFormed
      { sb := "", maxLineLength := 80, start := true, indent := 2 ^ 63 - 1 } ∧
    ¬ ((SampleEmitter.Indent 1
          { sb := "", maxLineLength := 80, start := true, indent := 2 ^ 63 - 1 }).panics = true ↔
        ((2 ^ 63 - 1 : Nat) : Int) + 1 < 0) := by
  decide

/-- C10, with the range of the machine integers made explicit: from a depth below
`2 ^ 63`, the calls `Indent(n1)`, ..., `Indent(nk)` panic if and only if some intermediate depth `d + n1 + ... + ni` is not
a depth (it is negative, or it is `2 ^ 63` or more); when the first such depth is the
one after call `i + 1`, the first `i` calls complete and leave depth
`d + n1 + ... + ni`, and the run panics in that very state; in particular a sequence
with a negative intermediate depth never runs to completion. -/
theorem Indent_sequence_panics_at_first_invalid_depth (e : SampleEmitter) (ns : List Int)
    (hd : e.indent < 2 ^ 63) (hn : ∀ n ∈ ns, IsInt n) :
    ((performInOrder (ns.map SampleEmitter.Indent) e).panics = true ↔
      ∃ i, i ≤ ns.length ∧ ¬ IsDepth (depthAfter e.indent ns i)) ∧
    (∀ i, i < ns.length → (∀ j ≤ i, IsDepth (depthAfter e.indent ns j)) →
      ¬ IsDepth (depthAfter e.indent ns (i + 1)) →
      performInOrder ((ns.take i).map SampleEmitter.Indent) e =
          .ok { e with indent := (depthAfter e.indent ns i).toNat } ∧
      performInOrder (ns.map SampleEmitter.Indent) e =
          .panicked unbalanced { e with indent := (depthAfter e.indent ns i).toNat }) ∧
    ((∃ i, i ≤ ns.length ∧ depthAfter e.indent ns i < 0) →
      (performInOrder (ns.map SampleEmitter.Indent) e).panics = true) := by
  have hfirst : ∀ i, i < ns.length → (∀ j ≤ i, IsDepth (depthAfter e.indent ns j)) →
      ¬ IsDepth (depthAfter e.indent ns (i + 1)) →
      performInOrder (ns.map SampleEmitter.Indent) e =
        .panicked unbalanced { e with indent := (depthAfter e.indent ns i).toNat } :=
    fun i hi h hbad => indentAll_fails ns e hn i hi h hbad
  have hiff : (performInOrder (ns.map SampleEmitter.Indent) e).panics = true ↔
      ∃ i, i ≤ ns.length ∧ ¬ IsDepth (depthAfter e.indent ns i) := by
    constructor
    · intro hp
      by_contra hcon
      have hall : ∀ j ≤ ns.length, IsDepth (depthAfter e.indent ns j) := by
        intro j hj
        by_contra hj2
        exact hcon ⟨j, hj, hj2⟩
      rw [indentAll_complete ns e hall] at hp
      simp [Run.panics] at hp
    · intro hex
      classical
      have hmin : ∀ m, m < Nat.find hex →
          ¬ (m ≤ ns.length ∧ ¬ IsDepth (depthAfter e.indent ns m)) :=
        fun m hm => Nat.find_min hex hm
      obtain ⟨hle, hbad⟩ := Nat.find_spec hex
      generalize Nat.find hex = i0 at hmin hle hbad
      cases i0 with
      | zero =>
        exfalso
        apply hbad
        rw [depthAfter_zero]
        simp only [IsDepth, intSize]
        norm_num
        omega
      | succ k =>
        have hall : ∀ j ≤ k, IsDepth (depthAfter e.indent ns j) := by
          intro j hj
          by_contra hj2
          exact hmin j (by omega) ⟨by omega, hj2⟩
        rw [hfirst k (by omega) hall hbad]
        rfl
  refine ⟨hiff, ?_, ?_⟩
  · intro i hi h hbad
    refine ⟨?_, hfirst i hi h hbad⟩
    have hlen : (ns.take i).length = i := by simp; omega
    have := indentAll_complete (ns.take i) e (by
      intro j hj
      rw [hlen] at hj
      rw [depthAfter_take _ _ _ _ hj]
      exact h j hj)
    rw [this, hlen, depthAfter_take _ _ _ _ (le_refl i)]
  · rintro ⟨i, hi, hneg⟩
    apply hiff.2
    refine ⟨i, hi, ?_⟩
    intro hdep
    exact absurd hdep.1 (by omega)

/-- Witness of C10: from depth 1 the calls `Indent(1)`, `Indent(-3)`, `Indent(5)` reach
depths 2 and then -1, so the run panics at the second call, in the state of depth 2. -/
theorem Indent_sequence_panics_at_first_invalid_depth_witness :
    performInOrder ([1, -3, 5].map SampleEmitter.Indent)
        { sb := "", maxLineLength := 80, start := true, indent := 1 } =
      .panicked unbalanced { sb := "", maxLineLength := 80, start := true, indent := 2 } :=
  ((Indent_sequence_panics_at_first_invalid_depth
      { sb := "", maxLineLength := 80, start := true, indent := 1 } [1, -3, 5]
      (by decide) (by decide)).2.1 1 (by decide) (by decide) (by decide)).2

/-- Counterexample to C10 as stated: on a new sink `Indent(2 ^ 63 - 1)` then `Indent(1)`
panics although none of the intermediate depths 0, `2 ^ 63 - 1`, `2 ^ 63` is negative. -/
theorem Indent_sequence_panics_without_negative_depth :
    (∀ n ∈ [2 ^ 63 - 1, (1 : Int)], IsInt n) ∧
    ¬ ((performInOrder ([2 ^ 63 - 1, 1].map SampleEmitter.Indent) (NewEmitter 80)).panics
          = true ↔
        ∃ i, i ≤ 2 ∧ depthAfter (NewEmitter 80).indent [2 ^ 63 - 1, 1] i < 0) := by
  decide

end emitter

namespace emitter

theorem Newline_eq (e : SampleEmitter) :
    e.Newline = { e with sb := e.sb ++ "\n", start := true } := by
  simp only [SampleEmitter.Newline]
  congr 1

theorem depthAfter_length (d : Int) (ns : List Int) :
    depthAfter d ns ns.length = d + ns.sum := by
  simp [depthAfter]

/-- C11, with the range of the machine integers made explicit: from a depth `d`, when
the deltas `n1..nk` sum to zero and every intermediate depth `d + n1 + ... + ni` is a
depth (not negative and below `2 ^ 63`), the calls `Indent(n1)`, ..., `Indent(nk)`
complete and leave the sink exactly as it was, depth `d` included; so a line written
afterwards gets the same indentation as a line written before: `d` tabs at line
start. -/
theorem Indent_sequence_balanced (e : SampleEmitter) (ns : List Int)
    (h : ∀ j ≤ ns.length, IsDepth (depthAfter e.indent ns j)) (hsum : ns.sum = 0) :
    performInOrder (ns.map SampleEmitter.Indent) e = .ok e ∧
    (performInOrder (ns.map SampleEmitter.Indent) e).state.indent = e.indent ∧
    (∀ (format : String) (args : List String),
      ((performInOrder (ns.map SampleEmitter.Indent) e).state.Println format args).sb =
        (e.Println format args).sb ∧
      (e.Println format args).sb =
        e.sb ++ (if e.start then String.mk (List.replicate e.indent '\t') else "")
          ++ fmt.Sprintf format args ++ "\n") := by
  have hrun : performInOrder (ns.map SampleEmitter.Indent) e = .ok e := by
    rw [indentAll_complete ns e h, depthAfter_length, hsum]
    simp
  refine ⟨hrun, by rw [hrun]; rfl, ?_⟩
  intro format args
  refine ⟨by rw [hrun]; rfl, ?_⟩
  rw [Println_eq]
  simp [indentation, String.append_assoc]

/-- Witness of C11: from depth 1 the calls `Indent(2)`, `Indent(-3)`, `Indent(1)` pass
through depths 3 and 0 and leave the sink as it was. -/
theorem Indent_sequence_balanced_witness :
    performInOrder ([2, -3, 1].map SampleEmitter.Indent)
        { sb := "x", maxLineLength := 80, start := true, indent := 1 } =
      .ok { sb := "x", maxLineLength := 80, start := true, indent := 1 } :=
  (Indent_sequence_balanced { sb := "x", maxLineLength := 80, start := true, indent := 1 }
    [2, -3, 1] (by decide) (by decide)).1

/-- Counterexample to C11 as stated: on a new sink the deltas `2 ^ 63 - 1`, `1`,
`-2 ^ 63` sum to zero and pass through the depths `2 ^ 63 - 1`, `2 ^ 63` and 0, none
negative, yet the second call panics and the depth stays `2 ^ 63 - 1`. -/
theorem balanced_Indent_sequence_fails_at_overflow :
    (∀ n ∈ [2 ^ 63 - 1, 1, -(2 ^ 63 : Int)], IsInt n) ∧
    [2 ^ 63 - 1, 1, -(2 ^ 63 : Int)].sum = 0 ∧
    (∀ i, i ≤ 3 → 0 ≤ depthAfter (NewEmitter 80).indent [2 ^ 63 - 1, 1, -(2 ^ 63 : Int)] i) ∧
    (performInOrder ([2 ^ 63 - 1, 1, -(2 ^ 63 : Int)].map SampleEmitter.Indent)
        (NewEmitter 80)).panics = true ∧
    (performInOrder ([2 ^ 63 - 1, 1, -(2 ^ 63 : Int)].map SampleEmitter.Indent)
        (NewEmitter 80)).state.indent ≠ (NewEmitter 80).indent := by
  decide

/-- C12: `Print` yields the old buffer followed by exactly `d` tabs when the sink is at
line start, and by nothing otherwise, followed by the expanded text; afterwards the
line-start flag is false, the indent depth is still `d` and the maximum width is kept.
Seen through the interface, the call completes. -/
theorem Print_appends_indented_text (format : String) (args : List String)
    (e : SampleEmitter) :
    e.Print format args =
      { sb := e.sb ++ (if e.start then String.mk (List.replicate e.indent '\t') else "")
              ++ fmt.Sprintf format args,
        maxLineLength := e.maxLineLength, start := false, indent := e.indent } ∧
    sampleEmitter.Print format args e = .ok (e.Print format args) := by
  refine ⟨?_, rfl⟩
  rw [Print_eq]
  simp [indentation, String.append_assoc]

/-- C13: `Println` leaves the sink in the state of `Print` followed by `Newline`, in the
struct's methods and through the interface alike: the buffer gains the indentation (at
line start only), the expanded text and one line feed, and the line-start flag is
true. -/
theorem Println_eq_Print_then_Newline (format : String) (args : List String)
    (e : SampleEmitter) :
    e.Println format args = (e.Print format args).Newline ∧
    sampleEmitter.Println format args e =
      (sampleEmitter.Print format args e).andThen sampleEmitter.Newline ∧
    e.Println format args =
      { sb := e.sb ++ (if e.start then String.mk (List.replicate e.indent '\t') else "")
              ++ fmt.Sprintf format args ++ "\n",
        maxLineLength := e.maxLineLength, start := true, indent := e.indent } := by
  refine ⟨rfl, rfl, ?_⟩
  rw [Println_eq]
  simp [indentation, String.append_assoc]

/-- C14: `Newline` appends exactly one line feed to the buffer, whether or not the sink
is at line start, sets the line-start flag, and keeps the indent depth and the maximum
line width. -/
theorem Newline_appends_one_line_feed (e : SampleEmitter) :
    e.Newline =
      { sb := e.sb ++ "\n", maxLineLength := e.maxLineLength, start := true,
        indent := e.indent } ∧
    e.Newline.sb.data = e.sb.data ++ ['\n'] ∧
    e.Newline.sb.length = e.sb.length + 1 ∧
    sampleEmitter.Newline e = .ok e.Newline := by
  refine ⟨Newline_eq e, ?_, ?_, rfl⟩
  · simp [SampleEmitter.Newline]
  · exact String.length_push _

end emitter

namespace command

open emitter

theorem Sprintf_param (tag : String) : fmt.Sprintf "%sparam" [tag] = tag ++ "param" := by
  apply String.ext
  simp [fmt.Sprintf, fmt.doPrintf, fmt.printArg, fmt.extraMarker]

theorem Sprintf_direction (dir : String) : fmt.Sprintf "[%s]" [dir] = "[" ++ dir ++ "]" := by
  apply String.ext
  simp [fmt.Sprintf, fmt.doPrintf, fmt.printArg, fmt.extraMarker]

theorem Sprintf_name_description (n d : String) :
    fmt.Sprintf " %s %s" [n, d] = " " ++ n ++ " " ++ d := by
  apply String.ext
  simp [fmt.Sprintf, fmt.doPrintf, fmt.printArg, fmt.extraMarker]

theorem Param_bracket_iff (dir n d : String) :
    ((Param.mk dir n d).Direction != "" && (Param.mk dir n d).directionValid) = true ↔
      (dir = "in" ∨ dir = "out" ∨ dir = "in,out") := by
  simp only [Param.directionValid, List.any_cons, List.any_nil, Bool.or_false, Bool.and_eq_true,
    Bool.or_eq_true, beq_iff_eq, bne_iff_ne, ne_eq]
  constructor
  · rintro ⟨_, h | h | h⟩
    · exact Or.inl h
    · exact Or.inr (Or.inr h)
    · exact Or.inr (Or.inl h)
  · intro h
    rcases h with h | h | h <;> subst h <;> decide

/-- C16: a `Param` directive rendered at line start completes and appends one line: the
indentation, then `tag` + "param[" + dir + "] " + name + " " + description when the
direction is "in", "out" or "in,out", and `tag` + "param " + name + " " + description
with no bracket for every other direction, then the line feed; directions "maybe" and
"" on a new sink give `@param x the input`. -/
theorem Param_Generate_line (tag n d dir : String) (e : SampleEmitter)
    (hstart : e.start = true) :
    (Param.mk dir n d).Generate tag sampleEmitter e =
      .ok { sb := e.sb ++ String.mk (List.replicate e.indent '\t') ++
              (if dir = "in" ∨ dir = "out" ∨ dir = "in,out" then
                tag ++ "param[" ++ dir ++ "] " ++ n ++ " " ++ d
              else
                tag ++ "param " ++ n ++ " " ++ d) ++ "\n",
            maxLineLength := e.maxLineLength, start := true, indent := e.indent } ∧
    ((Param.mk "maybe" "x" "the input").toCommand.Generate "@" sampleEmitter
        (NewEmitter 80)).state.sb = "@param x the input\n" ∧
    ((Param.mk "" "x" "the input").toCommand.Generate "@" sampleEmitter
        (NewEmitter 80)).state.sb = "@param x the input\n" := by
  refine ⟨?_, by decide, by decide⟩
  unfold Param.Generate
  by_cases hdir : dir = "in" ∨ dir = "out" ∨ dir = "in,out"
  · have hb := (Param_bracket_iff dir n d).2 hdir
    simp only [hb, if_pos hdir, if_true]
    simp [sampleEmitter, andThen_ok, Print_eq, Println_eq, indentation, hstart,
      Sprintf_param, Sprintf_direction, Sprintf_name_description, String.append_assoc]
    apply String.ext
    simp [String.data_append]
  · have hb := Bool.eq_false_iff.2 (fun h => hdir ((Param_bracket_iff dir n d).1 h))
    simp only [hb, if_neg hdir, Bool.false_eq_true, if_false]
    simp [sampleEmitter, andThen_ok, Print_eq, Println_eq, indentation, hstart,
      Sprintf_param, Sprintf_name_description, String.append_assoc]
    apply String.ext
    simp [String.data_append]

/-- Witness of C16: at depth 1 and line start, direction "out" gives the bracketed
line behind one tab. -/
theorem Param_Generate_line_witness :
    (Param.mk "out" "y" "the result").Generate "@" sampleEmitter
        { sb := "/**\n", maxLineLength := 80, start := true, indent := 1 } =
      .ok { sb := "/**\n" ++ String.mk (List.replicate 1 '\t') ++
              (if "out" = "in" ∨ "out" = "out" ∨ "out" = "in,out" then
                "@" ++ "param[" ++ "out" ++ "] " ++ "y" ++ " " ++ "the result"
              else
                "@" ++ "param " ++ "y" ++ " " ++ "the result") ++ "\n",
            maxLineLength := 80, start := true, indent := 1 } :=
  (Param_Generate_line "@" "y" "the result" "out"
    { sb := "/**\n", maxLineLength := 80, start := true, indent := 1 } rfl).1

end command

namespace emitter

theorem Writes_ok : Writes (fun e => Run.ok e) :=
  ⟨fun _ _ => "", fun b => b, fun e => by simp⟩

theorem Writes_Print (format : String) (args : List String) :
    Writes (fun e => sampleEmitter.Print format args e) :=
  ⟨fun i b => indentation i b ++ fmt.Sprintf format args, fun _ => false, fun e => by
    show Run.ok (e.Print format args) = _
    rw [Print_eq]⟩

theorem Writes_Println (format : String) (args : List String) :
    Writes (fun e => sampleEmitter.Println format args e) :=
  ⟨fun i b => indentation i b ++ fmt.Sprintf format args ++ "\n", fun _ => true, fun e => by
    show Run.ok (e.Println format args) = _
    rw [Println_eq]⟩

theorem Writes_Newline : Writes (fun e => sampleEmitter.Newline e) :=
  ⟨fun _ _ => "\n", fun _ => true, fun e => by
    show Run.ok e.Newline = _
    rw [Newline_eq]⟩

theorem Writes_andThen {f g : SampleEmitter → Run SampleEmitter} (hf : Writes f)
    (hg : Writes g) : Writes (fun e => (f e).andThen g) := by
  obtain ⟨tf, af, hf⟩ := hf
  obtain ⟨tg, ag, hg⟩ := hg
  refine ⟨fun i b => tf i b ++ tg i (af b), fun b => ag (af b), fun e => ?_⟩
  simp only [hf e, andThen_ok, hg, String.append_assoc]

theorem Writes_deferred {f g : SampleEmitter → Run SampleEmitter} (hf : Writes f)
    (hg : Writes g) : Writes (fun e => (f e).deferred g) := by
  obtain ⟨tf, af, hf⟩ := hf
  obtain ⟨tg, ag, hg⟩ := hg
  refine ⟨fun i b => tf i b ++ tg i (af b), fun b => ag (af b), fun e => ?_⟩
  simp only [hf e, Run.deferred, hg, String.append_assoc]

theorem Writes_ite (c : Prop) [Decidable c] {f g : SampleEmitter → Run SampleEmitter}
    (hf : Writes f) (hg : Writes g) : Writes (fun e => if c then f e else g e) := by
  by_cases hc : c
  · simpa [hc] using hf
  · simpa [hc] using hg

theorem Writes_keeps_indent {f : SampleEmitter → Run SampleEmitter} (hf : Writes f)
    (e : SampleEmitter) :
    ∃ e', f e = .ok e' ∧ e'.indent = e.indent ∧ e'.maxLineLength = e.maxLineLength := by
  obtain ⟨tf, af, hf⟩ := hf
  exact ⟨_, hf e, rfl, rfl⟩

end emitter

namespace command

open emitter

theorem WritesOnly_of_Writes (c : Command) (tag : String)
    (h : Writes (c.Generate tag sampleEmitter)) : WritesOnly c tag := by
  obtain ⟨text, after, hf⟩ := h
  intro e
  simp [emittedText, startAfter, hf, Run.state, blank]

theorem Author_loop_writes (authors : List String) :
    Writes (Author.GenerateLoop sampleEmitter authors) := by
  induction authors with
  | nil => exact Writes_ok
  | cons a rest ih => exact Writes_andThen (Writes_Println _ _) ih

theorem Authors_loop_writes (tag : String) (authors : List String) :
    Writes (Authors.GenerateLoop tag sampleEmitter authors) := by
  induction authors with
  | nil => exact Writes_ok
  | cons a rest ih => exact Writes_andThen (Writes_Println _ _) ih

theorem Parblock_loop_writes (paragraphs : List String) :
    Writes (Parblock.GenerateLoop sampleEmitter paragraphs) := by
  induction paragraphs with
  | nil => exact Writes_ok
  | cons p rest ih =>
    exact Writes_andThen (Writes_Println _ _)
      (Writes_andThen (Writes_ite _ Writes_Newline Writes_ok) ih)

theorem Par_writes (cmd : Par) (tag : String) : Writes (cmd.Generate tag sampleEmitter) :=
  Writes_andThen (f := fun e => sampleEmitter.Print "%spar " [tag] e)
    (g := fun s =>
      (if cmd.Title != "" then sampleEmitter.Println "%s" [cmd.Title] s else Run.ok s).andThen
        fun s => sampleEmitter.Println "%s" [cmd.Paragraph] s)
    (Writes_Print _ _)
    (Writes_andThen
      (f := fun s => if cmd.Title != "" then sampleEmitter.Println "%s" [cmd.Title] s else Run.ok s)
      (Writes_ite _ (Writes_Println _ _) Writes_ok) (Writes_Println _ _))

theorem Param_writes (cmd : Param) (tag : String) : Writes (cmd.Generate tag sampleEmitter) :=
  Writes_andThen (f := fun e => sampleEmitter.Print "%sparam" [tag] e)
    (g := fun s =>
      (if cmd.Direction != "" && cmd.directionValid then
          sampleEmitter.Print "[%s]" [cmd.Direction] s
        else Run.ok s).andThen
        fun s => sampleEmitter.Println " %s %s" [cmd.ParameterName, cmd.ParameterDescription] s)
    (Writes_Print _ _)
    (Writes_andThen
      (f := fun s =>
        if cmd.Direction != "" && cmd.directionValid then
          sampleEmitter.Print "[%s]" [cmd.Direction] s
        else Run.ok s)
      (Writes_ite _ (Writes_Print _ _) Writes_ok) (Writes_Println _ _))

theorem Directive_writes (h : Helpers) (d : Directive) (tag : String) :
    Writes ((d.toCommand h).Generate tag sampleEmitter) := by
  cases d with
  | ofAuthor cmd => exact Author_loop_writes _
  | ofAuthors cmd => exact Authors_loop_writes _ _
  | ofCode cmd =>
    exact Writes_andThen (Writes_Println _ _)
      (Writes_andThen (Writes_Println _ _) (Writes_Println _ _))
  | ofPar cmd => exact Par_writes cmd tag
  | ofParam cmd => exact Param_writes cmd tag
  | ofParblock cmd =>
    exact Writes_andThen (Writes_Println _ _)
      (Writes_deferred (Parblock_loop_writes _) (Writes_Println _ _))
  | ofVar cmd => exact Writes_andThen (Writes_Println _ _) (Writes_Println _ _)
  | _ => first | exact Writes_Print _ _ | exact Writes_Println _ _

end command

namespace command

open emitter

theorem Author_loop_ignores_Indent {σ : Type} (out : Emitter σ) (ind : Int → σ → Run σ)
    (authors : List String) (s : σ) :
    Author.GenerateLoop { out with Indent := ind } authors s =
      Author.GenerateLoop out authors s := by
  induction authors generalizing s with
  | nil => rfl
  | cons a rest ih =>
    simp only [Author.GenerateLoop]
    cases out.Println "%sauthor %s" [a] s with
    | ok s1 => exact ih s1
    | panicked msg s1 => rfl

theorem Authors_loop_ignores_Indent (tag : String) {σ : Type} (out : Emitter σ)
    (ind : Int → σ → Run σ) (authors : List String) (s : σ) :
    Authors.GenerateLoop tag { out with Indent := ind } authors s =
      Authors.GenerateLoop tag out authors s := by
  induction authors generalizing s with
  | nil => rfl
  | cons a rest ih =>
    simp only [Authors.GenerateLoop]
    cases out.Println "%sauthor %s" [tag, a] s with
    | ok s1 => exact ih s1
    | panicked msg s1 => rfl

theorem Parblock_loop_ignores_Indent {σ : Type} (out : Emitter σ) (ind : Int → σ → Run σ)
    (paragraphs : List String) (s : σ) :
    Parblock.GenerateLoop { out with Indent := ind } paragraphs s =
      Parblock.GenerateLoop out paragraphs s := by
  induction paragraphs generalizing s with
  | nil => rfl
  | cons p rest ih =>
    simp only [Parblock.GenerateLoop]
    cases out.Println "%s" [p] s with
    | panicked msg s1 => rfl
    | ok s1 =>
      simp only [andThen_ok]
      cases (if (!rest.isEmpty) = true then out.Newline s1 else Run.ok s1) with
      | ok s2 => exact ih s2
      | panicked msg s2 => rfl

/-- C17: the `Generate` of every directive of the library, for every choice of the
helper functions, every tag and every sink state, completes on the sample sink and
leaves the indent depth (and the maximum width) as it was; and on any sink its outcome
does not depend on the sink's `Indent` operation, which it never calls. -/
theorem Directive_Generate_keeps_indent (h : Helpers) (d : Directive) (tag : String)
    (e : SampleEmitter) :
    (∃ e', (d.toCommand h).Generate tag sampleEmitter e = .ok e' ∧ e'.indent = e.indent ∧
      e'.maxLineLength = e.maxLineLength) ∧
    (∀ (σ : Type) (out : Emitter σ) (ind : Int → σ → Run σ) (s : σ),
      (d.toCommand h).Generate tag { out with Indent := ind } s =
        (d.toCommand h).Generate tag out s) := by
  refine ⟨Writes_keeps_indent (Directive_writes h d tag) e, ?_⟩
  intro σ out ind s
  cases d with
  | ofAuthor cmd => exact Author_loop_ignores_Indent out ind _ s
  | ofAuthors cmd => exact Authors_loop_ignores_Indent tag out ind _ s
  | ofParblock cmd =>
    show (Parblock.Generate cmd tag { out with Indent := ind } s) = Parblock.Generate cmd tag out s
    simp only [Parblock.Generate]
    cases out.Println "%sparblock" [tag] s with
    | panicked msg s1 => rfl
    | ok s1 =>
      simp only [andThen_ok, Parblock_loop_ignores_Indent]
      rfl
  | _ => rfl

end command

namespace emitter

theorem BufferBlind_of_Writes {f : SampleEmitter → Run SampleEmitter} (hf : Writes f) :
    BufferBlind f := by
  obtain ⟨tf, af, hf⟩ := hf
  exact ⟨fun i b => ⟨tf i b, af b, i, none⟩, fun e => by rw [hf e]; rfl⟩

theorem BufferBlind_Indent (n : Int) : BufferBlind (fun e => sampleEmitter.Indent n e) := by
  refine ⟨fun i b =>
    if intAdd (intOfUint i) n < 0 then ⟨"", b, i, some unbalanced⟩
    else ⟨"", b, uintAdd i (uintOfInt n), none⟩, fun e => ?_⟩
  show e.Indent n = _
  unfold SampleEmitter.Indent
  by_cases hneg : intAdd (intOfUint e.indent) n < 0
  · simp [hneg, Effect.applyTo]
  · simp [hneg, Effect.applyTo]

theorem BufferBlind_andThen {f g : SampleEmitter → Run SampleEmitter} (hf : BufferBlind f)
    (hg : BufferBlind g) : BufferBlind (fun e => (f e).andThen g) := by
  obtain ⟨ef, hf⟩ := hf
  obtain ⟨eg, hg⟩ := hg
  refine ⟨fun i b =>
    match (ef i b).failure with
    | some _ => ef i b
    | none =>
      ⟨(ef i b).text ++ (eg (ef i b).indent (ef i b).start).text,
       (eg (ef i b).indent (ef i b).start).start,
       (eg (ef i b).indent (ef i b).start).indent,
       (eg (ef i b).indent (ef i b).start).failure⟩, fun e => ?_⟩
  show (f e).andThen g = _
  rw [hf e]
  cases hx : (ef e.indent e.start).failure with
  | some msg => simp [Effect.applyTo, hx, Run.andThen]
  | none =>
    simp only [Effect.applyTo, hx, andThen_ok, hg]
    cases (eg (ef e.indent e.start).indent (ef e.indent e.start).start).failure <;>
      simp [String.append_assoc]

theorem BufferBlind_text {f : SampleEmitter → Run SampleEmitter} (hf : BufferBlind f)
    (e1 e2 : SampleEmitter) (hi : e1.indent = e2.indent) (hs : e1.start = e2.start) :
    ∃ text : String, (f e1).state.sb = e1.sb ++ text ∧ (f e2).state.sb = e2.sb ++ text ∧
      (f e1).panics = (f e2).panics ∧ (f e1).state.indent = (f e2).state.indent ∧
      (f e1).state.start = (f e2).state.start := by
  obtain ⟨ef, hf⟩ := hf
  refine ⟨(ef e1.indent e1.start).text, ?_⟩
  rw [hf e1, hf e2, ← hi, ← hs]
  cases hx : (ef e1.indent e1.start).failure <;>
    simp [Effect.applyTo, hx, Run.state, Run.panics]

end emitter

namespace doxygen

open emitter command

theorem blockOf_writers (h : Helpers) (tag : String) (ds : List Directive) :
    ∀ c ∈ (blockOf h tag ds).Commands, WritesOnly c (blockOf h tag ds).Tag := by
  intro c hc
  simp only [blockOf, List.mem_map] at hc
  obtain ⟨d, _, rfl⟩ := hc
  exact WritesOnly_of_Writes _ _ (Directive_writes h d tag)

theorem statesAtRender_writers (tag : String) (cs : List Command)
    (h : ∀ c ∈ cs, WritesOnly c tag) (e : SampleEmitter) :
    (statesAtRender tag sampleEmitter cs e).length = cs.length ∧
    ∀ s ∈ statesAtRender tag sampleEmitter cs e, s.indent = e.indent := by
  induction cs generalizing e with
  | nil => simp [statesAtRender]
  | cons c rest ih =>
    have hc := h c (List.mem_cons_self c rest)
    have hrest : ∀ x ∈ rest, WritesOnly x tag := fun x hx => h x (List.mem_cons_of_mem c hx)
    simp only [statesAtRender, hc e, List.length_cons, List.mem_cons]
    obtain ⟨hlen, hall⟩ := ih hrest
      { e with sb := e.sb ++ emittedText c tag e.indent e.start,
               start := startAfter c tag e.indent e.start }
    refine ⟨by rw [hlen], ?_⟩
    rintro s (rfl | hs)
    · rfl
    · exact hall s hs

theorem generateLoop_bufferBlind (h : Helpers) (tag : String) (ds : List Directive) :
    BufferBlind (generateLoop tag sampleEmitter (ds.map (Directive.toCommand h))) := by
  induction ds with
  | nil => exact BufferBlind_of_Writes Writes_ok
  | cons d rest ih =>
    exact BufferBlind_andThen (f := (d.toCommand h).Generate tag sampleEmitter)
      (BufferBlind_of_Writes (Directive_writes h d tag)) ih

theorem Generate_bufferBlind (h : Helpers) (tag : String) (ds : List Directive) :
    BufferBlind ((blockOf h tag ds).Generate sampleEmitter) :=
  BufferBlind_andThen (f := fun s => sampleEmitter.Println "/**" [] s)
    (g := fun s => (sampleEmitter.Indent 1 s).andThen fun s =>
      (generateLoop tag sampleEmitter (ds.map (Directive.toCommand h)) s).andThen fun s =>
        (sampleEmitter.Indent (-1) s).andThen fun s => sampleEmitter.Println "*/" [] s)
    (BufferBlind_of_Writes (Writes_Println _ _))
    (BufferBlind_andThen (f := fun s => sampleEmitter.Indent 1 s)
      (g := fun s =>
        (generateLoop tag sampleEmitter (ds.map (Directive.toCommand h)) s).andThen fun s =>
          (sampleEmitter.Indent (-1) s).andThen fun s => sampleEmitter.Println "*/" [] s)
      (BufferBlind_Indent 1)
      (BufferBlind_andThen (f := generateLoop tag sampleEmitter (ds.map (Directive.toCommand h)))
        (g := fun s => (sampleEmitter.Indent (-1) s).andThen
          fun s => sampleEmitter.Println "*/" [] s)
        (generateLoop_bufferBlind h tag ds)
        (BufferBlind_andThen (f := fun s => sampleEmitter.Indent (-1) s)
          (BufferBlind_Indent (-1)) (BufferBlind_of_Writes (Writes_Println _ _)))))

end doxygen

namespace doxygen

open emitter command

theorem andThen_assoc {σ : Type} (r : Run σ) (f g : σ → Run σ) :
    (r.andThen f).andThen g = r.andThen (fun s => (f s).andThen g) := by
  cases r <;> rfl

theorem generateLoop_append (tag : String) {σ : Type} (out : Emitter σ)
    (xs ys : List Command) (s : σ) :
    generateLoop tag out (xs ++ ys) s =
      (generateLoop tag out xs s).andThen (generateLoop tag out ys) := by
  induction xs generalizing s with
  | nil => rfl
  | cons c rest ih =>
    show (c.Generate tag out s).andThen (generateLoop tag out (rest ++ ys)) =
      ((c.Generate tag out s).andThen (generateLoop tag out rest)).andThen
        (generateLoop tag out ys)
    cases c.Generate tag out s with
    | ok s1 => exact ih s1
    | panicked msg s1 => rfl

theorem statesAtRender_getElem (tag : String) {σ : Type} (out : Emitter σ)
    (xs ys : List Command) (c : Command) (s0 s : σ)
    (h : generateLoop tag out xs s0 = .ok s) :
    (statesAtRender tag out (xs ++ c :: ys) s0)[xs.length]? = some s := by
  induction xs generalizing s0 with
  | nil =>
    simp only [generateLoop] at h
    injection h with h
    simp [statesAtRender, h]
  | cons x rest ih =>
    simp only [generateLoop] at h
    cases hx : x.Generate tag out s0 with
    | ok s1 =>
      rw [hx, andThen_ok] at h
      simp [statesAtRender, hx, ih s1 h]
    | panicked msg s1 =>
      rw [hx, andThen_panicked] at h
      cases h

/-- C18, with the range of the machine integers made explicit: for every block of
library directives and every sink state at a depth `d` with `d + 1` below `2 ^ 63`,
`Generate` completes and the depth after it is exactly `d`; its buffer is the opening
line, the texts the directives emit when rendered at depth `d + 1`, and the closing line;
and every directive `c` of the block is rendered at depth `d + 1`: the state `s` reached
after the opening line, `Indent(1)` and the directives before `c` has depth `d + 1`, and
`Generate` is the render of `c` called in `s`, followed by the directives after `c`,
`Indent(-1)` and the closing line. -/
theorem Generate_restores_indent (h : Helpers) (tag : String) (ds : List Directive)
    (e : SampleEmitter) (hd : e.indent + 1 < 2 ^ 63) :
    (∃ e', (blockOf h tag ds).Generate sampleEmitter e = .ok e' ∧ e'.indent = e.indent) ∧
    (blockOf h tag ds).Generate sampleEmitter e =
      .ok { e with
        sb := e.sb ++ (indentation e.indent e.start ++ "/**" ++ "\n"
          ++ concatInOrder
              (textsInOrder tag (e.indent + 1) (ds.map (Directive.toCommand h)) true)
          ++ (indentation e.indent
                (startAfterAll tag (e.indent + 1) (ds.map (Directive.toCommand h)) true)
              ++ "*/" ++ "\n")),
        start := true } ∧
    (∀ (xs ys : List Directive) (c : Directive), ds = xs ++ c :: ys →
      ∃ s : SampleEmitter, s.indent = e.indent + 1 ∧
        generateLoop tag sampleEmitter (xs.map (Directive.toCommand h))
          { e.Println "/**" [] with indent := e.indent + 1 } = .ok s ∧
        ((blockOf h tag ds).statesAtRender sampleEmitter e)[xs.length]? = some s ∧
        (blockOf h tag ds).Generate sampleEmitter e =
          (((c.toCommand h).Generate tag sampleEmitter s).andThen fun s1 =>
            (generateLoop tag sampleEmitter (ys.map (Directive.toCommand h)) s1).andThen
              fun s2 => (sampleEmitter.Indent (-1) s2).andThen
                fun s3 => sampleEmitter.Println "*/" [] s3)) ∧
    ((blockOf h tag ds).statesAtRender sampleEmitter e).length = ds.length ∧
    (∀ s ∈ (blockOf h tag ds).statesAtRender sampleEmitter e, s.indent = e.indent + 1) := by
  have hstates : (blockOf h tag ds).statesAtRender sampleEmitter e =
      statesAtRender tag sampleEmitter (ds.map (Directive.toCommand h))
        { e.Println "/**" [] with indent := e.indent + 1 } := by
    unfold Doxygen.statesAtRender
    rw [sampleEmitter_Println]
    simp only [sampleEmitter_Indent]
    rw [Indent_succ _ (by simpa [Println_eq] using hd)]
    simp [blockOf, Println_eq]
  have hw := statesAtRender_writers tag (ds.map (Directive.toCommand h))
    (blockOf_writers h tag ds) { e.Println "/**" [] with indent := e.indent + 1 }
  refine ⟨⟨_, Generate_writers _ (blockOf_writers h tag ds) e hd, rfl⟩,
    Generate_writers _ (blockOf_writers h tag ds) e hd, ?_, ?_, ?_⟩
  · intro xs ys c hds
    have hxs : ∀ x ∈ xs.map (Directive.toCommand h), WritesOnly x tag := by
      intro x hx
      obtain ⟨d, _, rfl⟩ := List.mem_map.1 hx
      exact WritesOnly_of_Writes _ _ (Directive_writes h d tag)
    have hloop := generateLoop_writers tag (xs.map (Directive.toCommand h)) hxs
      { e.Println "/**" [] with indent := e.indent + 1 }
    refine ⟨_, ?_, hloop, ?_, ?_⟩
    · rfl
    · rw [hstates, hds, List.map_append, List.map_cons]
      have hlen : (xs.map (Directive.toCommand h)).length = xs.length := List.length_map _ _
      rw [← hlen]
      exact statesAtRender_getElem tag sampleEmitter _ _ _ _ _ hloop
    · have hIndent : (e.Println "/**" []).Indent 1 =
          .ok { e.Println "/**" [] with indent := e.indent + 1 } := by
        rw [Indent_succ _ (by simpa [Println_eq] using hd)]
        simp [Println_eq]
      show Doxygen.Generate { Commands := ds.map (Directive.toCommand h), Tag := tag }
        sampleEmitter e = _
      unfold Doxygen.Generate
      simp only [sampleEmitter_Println, andThen_ok, sampleEmitter_Indent]
      rw [hIndent, andThen_ok, hds, List.map_append, List.map_cons, generateLoop_append,
        hloop, andThen_ok, generateLoop, andThen_assoc]
  · rw [hstates]
    simpa using hw.1
  · rw [hstates]
    exact hw.2

/-- Witness of C18: a block of one `Brief` and one `Param` rendered into a new sink
completes and leaves depth 0. -/
theorem Generate_restores_indent_witness :
    ∃ e', (blockOf ⟨id, id, fun _ x => x⟩ "@"
        [Directive.ofBrief ⟨"b"⟩, Directive.ofParam ⟨"in", "x", "y"⟩]).Generate sampleEmitter
          (NewEmitter 80) = .ok e' ∧ e'.indent = (NewEmitter 80).indent :=
  (Generate_restores_indent ⟨id, id, fun _ x => x⟩ "@"
    [Directive.ofBrief ⟨"b"⟩, Directive.ofParam ⟨"in", "x", "y"⟩] (NewEmitter 80)
    (by decide)).1

/-- Counterexample to C18 as stated: on a new sink `Print("x")` and then
`Indent(2 ^ 63 - 1)` complete, and in the state they leave the `Generate` of a block of
one `Brief` writes its opening line and panics at its own `Indent(1)`, before any
directive is rendered. -/
theorem Generate_panics_at_signed_overflow :
    SampleEmitter.Indent (2 ^ 63 - 1) ((NewEmitter 80).Print "x" []) =
      .ok { sb := "x", maxLineLength := 80, start := false, indent := 2 ^ 63 - 1 } ∧
    Doxygen.Generate { Commands := [(Brief.mk "b").toCommand], Tag := "@" } sampleEmitter
        { sb := "x", maxLineLength := 80, start := false, indent := 2 ^ 63 - 1 } =
      .panicked unbalanced
        { sb := "x/**\n", maxLineLength := 80, start := true, indent := 2 ^ 63 - 1 } := by
  decide

/-- C19: `Print`, `Println` and `Newline` complete on every sink state and for every
format and operands, each with exactly the state its statements build, and so does every
sequence of them: no run without an `Indent` panics.  `WithTag`, `WithCommand`,
`WithMultipleCommands` and `WithCommandOnce` return a block for every block and
directive, namely the block with the new tag, with the directives appended, and for
`WithCommandOnce` the block itself or the block with the directive appended, as
`hasCommand` decides.  `Indent` is the one operation that can panic. -/
theorem core_operations_complete (format : String) (args : List String) (e : SampleEmitter)
    (d : Doxygen) (tag : String) (c : Command) (cs : List Command) :
    sampleEmitter.Print format args e =
      .ok { e with sb := e.sb ++ (indentation e.indent e.start ++ fmt.Sprintf format args),
                   start := false } ∧
    sampleEmitter.Println format args e =
      .ok { e with
        sb := e.sb ++ (indentation e.indent e.start ++ fmt.Sprintf format args ++ "\n"),
        start := true } ∧
    sampleEmitter.Newline e = .ok { e with sb := e.sb ++ "\n", start := true } ∧
    (∀ ops : List Op, (∀ op ∈ ops, ∀ n, op ≠ Op.Indent n) →
      ∃ e1, performInOrder (ops.map Op.run) e = .ok e1 ∧ e1.indent = e.indent ∧
        AppendsOnly e e1) ∧
    WithTag tag d = { Commands := d.Commands, Tag := tag } ∧
    WithCommand c d = { Commands := d.Commands ++ [c], Tag := d.Tag } ∧
    WithMultipleCommands cs d = { Commands := d.Commands ++ cs, Tag := d.Tag } ∧
    (d.hasCommand c = true → WithCommandOnce c d = d) ∧
    (d.hasCommand c = false →
      WithCommandOnce c d = { Commands := d.Commands ++ [c], Tag := d.Tag }) ∧
    (d.hasCommand c = true ∨ d.hasCommand c = false) ∧
    sampleEmitter.Indent (-1) (NewEmitter 0) = .panicked unbalanced (NewEmitter 0) := by
  refine ⟨?_, ?_, ?_, ?_, rfl, rfl, rfl, ?_, ?_, ?_, by decide⟩
  · show Run.ok (e.Print format args) = _
    rw [Print_eq]
  · show Run.ok (e.Println format args) = _
    rw [Println_eq]
  · show Run.ok e.Newline = _
    rw [Newline_eq]
  · intro ops
    induction ops generalizing e with
    | nil => exact fun _ => ⟨e, rfl, rfl, List.prefix_refl _⟩
    | cons op rest ih =>
      intro hops
      have hrest : ∀ o ∈ rest, ∀ n, o ≠ Op.Indent n :=
        fun o ho => hops o (List.mem_cons_of_mem op ho)
      have hop := hops op (List.mem_cons_self op rest)
      have hone : ∃ e0 : SampleEmitter, Op.run op e = .ok e0 ∧ e0.indent = e.indent ∧
          AppendsOnly e e0 := by
        cases op with
        | Indent n => exact absurd rfl (hop n)
        | Print f a =>
          refine ⟨e.Print f a, rfl, by rw [Print_eq], ?_⟩
          exact ⟨(indentation e.indent e.start ++ fmt.Sprintf f a).data, by
            rw [Print_eq]; simp [String.data_append]⟩
        | Println f a =>
          refine ⟨e.Println f a, rfl, by rw [Println_eq], ?_⟩
          exact ⟨(indentation e.indent e.start ++ fmt.Sprintf f a ++ "\n").data, by
            rw [Println_eq]; simp [String.data_append]⟩
        | Newline =>
          refine ⟨e.Newline, rfl, by rw [Newline_eq], ?_⟩
          exact ⟨"\n".data, by rw [Newline_eq]; simp [String.data_append]⟩
      obtain ⟨e0, h0, hi0, ha0⟩ := hone
      obtain ⟨e1, h1, hi1, ha1⟩ := ih e0 hrest
      refine ⟨e1, ?_, hi1.trans hi0, List.IsPrefix.trans ha0 ha1⟩
      rw [List.map_cons, performInOrder_cons, h0, andThen_ok, h1]
  · intro hc
    simp [WithCommandOnce, hc]
  · intro hc
    simp [WithCommandOnce, hc]
  · cases d.hasCommand c <;> simp

/-- Witness of C19: on a sink holding "x" in mid-line at depth 1 the calls `Print("a")`,
`Newline()`, `Println("%s", "b")` complete, and `WithCommandOnce` of a `Brief` returns a
block holding a `Brief` unchanged and appends to an empty block. -/
theorem core_operations_complete_witness :
    (∃ e1, performInOrder
        ([Op.Print "a" [], Op.Newline, Op.Println "%s" ["b"]].map Op.run)
        { sb := "x", maxLineLength := 80, start := false, indent := 1 } = .ok e1 ∧
      e1.indent = 1 ∧
      AppendsOnly { sb := "x", maxLineLength := 80, start := false, indent := 1 } e1) ∧
    WithCommandOnce (Brief.mk "two").toCommand
        { Commands := [(Brief.mk "one").toCommand], Tag := "@" } =
      { Commands := [(Brief.mk "one").toCommand], Tag := "@" } ∧
    WithCommandOnce (Brief.mk "two").toCommand { Commands := [], Tag := "@" } =
      { Commands := [] ++ [(Brief.mk "two").toCommand], Tag := "@" } :=
  ⟨(core_operations_complete "" []
      { sb := "x", maxLineLength := 80, start := false, indent := 1 }
      { Commands := [], Tag := "@" } "@" (Brief.mk "two").toCommand []).2.2.2.1
      [Op.Print "a" [], Op.Newline, Op.Println "%s" ["b"]]
      (by
        intro op hop n
        simp only [List.mem_cons, List.mem_singleton, List.not_mem_nil, or_false] at hop
        rcases hop with rfl | rfl | rfl <;> exact fun hne => Op.noConfusion hne),
    (core_operations_complete "" [] (NewEmitter 80)
      { Commands := [(Brief.mk "one").toCommand], Tag := "@" } "@"
      (Brief.mk "two").toCommand []).2.2.2.2.2.2.2.1 rfl,
    (core_operations_complete "" [] (NewEmitter 80)
      { Commands := [], Tag := "@" } "@"
      (Brief.mk "two").toCommand []).2.2.2.2.2.2.2.2.1 rfl⟩

/-- C20: for every block of library directives and any two sink states that agree on
indent depth and line-start flag, whatever their buffers and maximum widths, `Generate`
appends the same text to both buffers and ends alike (both runs complete or both
panic, at the same depth and flag); the same holds for the `Generate` of each single
directive, which always completes. -/
theorem Generate_text_independent_of_buffer (h : Helpers) (tag : String)
    (ds : List Directive) (e1 e2 : SampleEmitter) (hi : e1.indent = e2.indent)
    (hs : e1.start = e2.start) :
    (∃ text : String,
      ((blockOf h tag ds).Generate sampleEmitter e1).state.sb = e1.sb ++ text ∧
      ((blockOf h tag ds).Generate sampleEmitter e2).state.sb = e2.sb ++ text ∧
      ((blockOf h tag ds).Generate sampleEmitter e1).panics =
        ((blockOf h tag ds).Generate sampleEmitter e2).panics ∧
      ((blockOf h tag ds).Generate sampleEmitter e1).state.indent =
        ((blockOf h tag ds).Generate sampleEmitter e2).state.indent ∧
      ((blockOf h tag ds).Generate sampleEmitter e1).state.start =
        ((blockOf h tag ds).Generate sampleEmitter e2).state.start) ∧
    (∀ d : Directive, ∃ text : String,
      ((d.toCommand h).Generate tag sampleEmitter e1).state.sb = e1.sb ++ text ∧
      ((d.toCommand h).Generate tag sampleEmitter e2).state.sb = e2.sb ++ text ∧
      ((d.toCommand h).Generate tag sampleEmitter e1).panics = false ∧
      ((d.toCommand h).Generate tag sampleEmitter e2).panics = false) := by
  refine ⟨BufferBlind_text (Generate_bufferBlind h tag ds) e1 e2 hi hs, ?_⟩
  intro d
  obtain ⟨text, after, hw⟩ := Directive_writes h d tag
  refine ⟨text e1.indent e1.start, ?_, ?_, ?_, ?_⟩
  · rw [hw e1]; rfl
  · rw [hw e2, hi, hs]; rfl
  · rw [hw e1]; rfl
  · rw [hw e2]; rfl

/-- Witness of C20: a sink holding "abc" and a new sink, both at depth 0 and line
start, receive the same text from the `Generate` of a block of one `Brief`. -/
theorem Generate_text_independent_of_buffer_witness :
    ∃ text : String,
      ((blockOf ⟨id, id, fun _ x => x⟩ "@" [Directive.ofBrief ⟨"b"⟩]).Generate sampleEmitter
        { sb := "abc", maxLineLength := 10, start := true, indent := 0 }).state.sb =
          "abc" ++ text ∧
      ((blockOf ⟨id, id, fun _ x => x⟩ "@" [Directive.ofBrief ⟨"b"⟩]).Generate sampleEmitter
        (NewEmitter 80)).state.sb = "" ++ text :=
  let ⟨text, h1, h2, _⟩ :=
    (Generate_text_independent_of_buffer ⟨id, id, fun _ x => x⟩ "@" [Directive.ofBrief ⟨"b"⟩]
      { sb := "abc", maxLineLength := 10, start := true, indent := 0 } (NewEmitter 80)
      rfl rfl).1
  ⟨text, h1, h2⟩

end doxygen

namespace emitter

theorem intercalate_lines (done : List (List Char)) (cur : List Char) :
    ['\n'].intercalate (done ++ [cur]) =
      (done.map (fun l => l ++ ['\n'])).flatten ++ cur := by
  induction done with
  | nil => simp [List.intercalate]
  | cons l rest ih =>
    cases rest with
    | nil => simp [List.intercalate, List.intersperse]
    | cons l2 rest2 =>
      simp only [List.intercalate] at ih ⊢
      simp only [List.cons_append, List.intersperse_cons_cons, List.flatten_cons,
        List.map_cons, List.append_assoc] at ih ⊢
      rw [ih]

theorem splitOn_lines (done : List (List Char)) (cur : List Char)
    (h : ∀ l ∈ done ++ [cur], '\n' ∉ l) :
    ((done.map (fun l => l ++ ['\n'])).flatten ++ cur).splitOn '\n' = done ++ [cur] := by
  rw [← intercalate_lines]
  exact List.splitOn_intercalate _ '\n' h (by simp)

theorem leadingTabs_replicate (d : Nat) (text : List Char) (h : text.head? ≠ some '\t') :
    leadingTabs (List.replicate d '\t' ++ text) = d := by
  unfold leadingTabs
  induction d with
  | zero =>
    cases text with
    | nil => simp
    | cons c rest =>
      have hc : c ≠ '\t' := fun hc => h (by simp [hc])
      simp [List.takeWhile, hc]
  | succ d ih =>
    rw [List.replicate_succ, List.cons_append, List.takeWhile_cons_of_pos (by simp),
      List.length_cons, ih]

theorem Indent_ok_inv (n : Int) (e e' : SampleEmitter) (hd : e.indent < 2 ^ 63)
    (hn : IsInt n) (h : e.Indent n = .ok e') :
    e' = { e with indent := ((e.indent : Int) + n).toNat } ∧
      ((e.indent : Int) + n).toNat < 2 ^ 63 := by
  by_cases hdep : IsDepth ((e.indent : Int) + n)
  · have hz := IsDepth_toNat _ hdep
    have hdep2 := hdep
    simp only [IsDepth, intSize] at hdep2
    norm_num at hdep2
    rw [Indent_ok n e hd hdep2.1 hdep2.2] at h
    injection h with h
    exact ⟨h.symm, hz.1⟩
  · rw [Indent_invalid n e hd hn hdep] at h
    cases h

end emitter

namespace emitter

theorem Holds_Print (format : String) (args : List String) (e : SampleEmitter) (p : Page)
    (h : Holds e p) : Holds (e.Print format args) (p.write (fmt.Sprintf format args)) := by
  obtain ⟨hsb, hdepth, hstart, hlt⟩ := h
  rw [Print_eq]
  cases hcur : p.current with
  | none =>
    have hs : e.start = true := hstart.2 hcur
    refine ⟨?_, by simp [Page.write, hcur, hdepth], ?_, hlt⟩
    · simp [Page.write, hcur, hsb, lineChars, indentation, hs, hdepth, String.data_append]
    · simp [Page.write, hcur]
  | some l =>
    have hs : e.start = false := by
      cases hb : e.start with
      | false => rfl
      | true => rw [hstart.1 hb] at hcur; cases hcur
    refine ⟨?_, by simp [Page.write, hcur, hdepth], ?_, hlt⟩
    · simp [Page.write, hcur, hsb, lineChars, indentation, hs, String.data_append]
    · simp [Page.write, hcur]

theorem Holds_Newline (e : SampleEmitter) (p : Page) (h : Holds e p) :
    Holds e.Newline p.newline := by
  obtain ⟨hsb, hdepth, _, hlt⟩ := h
  rw [Newline_eq]
  refine ⟨?_, hdepth, ?_, hlt⟩
  · simp [Page.newline, hsb, lineChars, String.data_append]
  · simp [Page.newline]

theorem Holds_Indent (n : Int) (e e' : SampleEmitter) (p : Page) (h : Holds e p)
    (hn : IsInt n) (hrun : e.Indent n = .ok e') :
    Holds e' { p with depth := ((p.depth : Int) + n).toNat } := by
  obtain ⟨hsb, hdepth, hstart, hlt⟩ := h
  obtain ⟨rfl, hlt'⟩ := Indent_ok_inv n e e' hlt hn hrun
  exact ⟨hsb, by simp [hdepth], hstart, hlt'⟩

theorem Holds_step (op : Op) (e e' : SampleEmitter) (p : Page) (h : Holds e p)
    (hwf : op.WellFormed) (hrun : op.run e = .ok e') : Holds e' (p.step op) := by
  cases op with
  | Indent n => exact Holds_Indent n e e' p h hwf hrun
  | Print format args =>
    have : e' = e.Print format args := by
      simp only [Op.run, sampleEmitter] at hrun
      injection hrun with hrun
      exact hrun.symm
    rw [this]
    exact Holds_Print format args e p h
  | Println format args =>
    have : e' = (e.Print format args).Newline := by
      simp only [Op.run, sampleEmitter] at hrun
      injection hrun with hrun
      exact hrun.symm
    rw [this]
    exact Holds_Newline _ _ (Holds_Print format args e p h)
  | Newline =>
    have : e' = e.Newline := by
      simp only [Op.run, sampleEmitter] at hrun
      injection hrun with hrun
      exact hrun.symm
    rw [this]
    exact Holds_Newline e p h

theorem Holds_run (ops : List Op) (e e' : SampleEmitter) (p : Page) (h : Holds e p)
    (hwf : ∀ op ∈ ops, op.WellFormed)
    (hrun : performInOrder (ops.map Op.run) e = .ok e') :
    Holds e' (ops.foldl Page.step p) := by
  induction ops generalizing e p with
  | nil =>
    simp only [List.map_nil, performInOrder] at hrun
    injection hrun with hrun
    rw [← hrun]
    exact h
  | cons op rest ih =>
    rw [List.map_cons, performInOrder_cons] at hrun
    cases hop : op.run e with
    | panicked msg s => rw [hop, andThen_panicked] at hrun; cases hrun
    | ok s =>
      rw [hop, andThen_ok] at hrun
      exact ih s (p.step op) (Holds_step op e s p h (hwf op (List.mem_cons_self op rest)) hop)
        (fun x hx => hwf x (List.mem_cons_of_mem op hx)) hrun

theorem SingleLines_write (x : String) (p : Page) (h : p.SingleLines)
    (hx : '\n' ∉ x.data) : (p.write x).SingleLines := by
  intro l hl
  simp only [Page.lines, List.mem_append, List.mem_singleton] at hl
  cases hcur : p.current with
  | none =>
    simp only [Page.write, hcur] at hl
    rcases hl with hl | rfl
    · exact h l (by simp [Page.lines, hl])
    · simp [lineChars, hx]
  | some l0 =>
    simp only [Page.write, hcur] at hl
    rcases hl with hl | rfl
    · exact h l (by simp [Page.lines, hl])
    · have h0 := h (some l0) (by simp [Page.lines, hcur])
      simp only [lineChars, List.mem_append, not_or] at h0
      simp [lineChars, hx, h0.1, h0.2, String.data_append]

theorem SingleLines_newline (p : Page) (h : p.SingleLines) : p.newline.SingleLines := by
  intro l hl
  simp only [Page.lines, Page.newline, List.mem_append, List.mem_singleton] at hl
  rcases hl with (hl | rfl) | rfl
  · exact h l (by simp [Page.lines, hl])
  · exact h _ (by simp [Page.lines])
  · simp [lineChars]

theorem SingleLines_step (op : Op) (p : Page) (h : p.SingleLines) (hop : op.SingleLine) :
    (p.step op).SingleLines := by
  cases op with
  | Indent n => exact h
  | Print format args => exact SingleLines_write _ p h hop
  | Println format args => exact SingleLines_newline _ (SingleLines_write _ p h hop)
  | Newline => exact SingleLines_newline p h

theorem SingleLines_foldl (ops : List Op) (p : Page) (h : p.SingleLines)
    (hops : ∀ op ∈ ops, op.SingleLine) : (ops.foldl Page.step p).SingleLines := by
  induction ops generalizing p with
  | nil => exact h
  | cons op rest ih =>
    exact ih (p.step op) (SingleLines_step op p h (hops op (List.mem_cons_self op rest)))
      (fun x hx => hops x (List.mem_cons_of_mem op hx))

end emitter

namespace emitter

/-- C15, restricted to texts without a line feed and with empty lines set apart: for
every sequence of `Indent`, `Print`, `Println` and `Newline` calls that runs to
completion on a newly created sink, the logical lines of the buffer are exactly the
lines the calls built; a line to which no text was written is empty and carries no
indentation; every other line is as many tabs as the indent depth in force at its first
write, followed by the texts written to it, so it begins with exactly that many tabs
when its text does not itself begin with a tab. -/
theorem lines_begin_at_depth_in_force (w : Nat) (ops : List Op) (e' : SampleEmitter)
    (hwf : ∀ op ∈ ops, op.WellFormed) (hsingle : ∀ op ∈ ops, op.SingleLine)
    (hrun : performInOrder (ops.map Op.run) (NewEmitter w) = .ok e') :
    e'.sb.data.splitOn '\n' = (pageOf ops).lines.map lineChars ∧
    e'.indent = (pageOf ops).depth ∧
    lineChars none = [] ∧
    (∀ l : Line, some l ∈ (pageOf ops).lines →
      lineChars (some l) = List.replicate l.depth '\t' ++ l.text.data ∧
      (l.text.data.head? ≠ some '\t' → leadingTabs (lineChars (some l)) = l.depth)) := by
  have h0 : Holds (NewEmitter w) { done := [], current := none, depth := 0 } := by
    refine ⟨by simp [NewEmitter, lineChars], rfl, by simp [NewEmitter], by simp [NewEmitter]⟩
  have hs0 : Page.SingleLines { done := [], current := none, depth := 0 } := by
    intro l hl
    simp only [Page.lines, List.nil_append, List.mem_singleton] at hl
    simp [hl, lineChars]
  have hholds : Holds e' (pageOf ops) := Holds_run ops (NewEmitter w) e' _ h0 hwf hrun
  obtain ⟨hsb, hdepth, _, _⟩ := hholds
  have hlines : (pageOf ops).SingleLines := SingleLines_foldl ops _ hs0 hsingle
  refine ⟨?_, hdepth, rfl, fun l _ => ⟨rfl, fun hl => leadingTabs_replicate _ _ hl⟩⟩
  rw [hsb]
  have hsplit := splitOn_lines ((pageOf ops).done.map lineChars) (lineChars (pageOf ops).current)
    (by
      intro l hl
      simp only [List.mem_append, List.mem_map, List.mem_singleton] at hl
      rcases hl with ⟨x, hx, rfl⟩ | rfl
      · exact hlines x (by simp [Page.lines, hx])
      · exact hlines _ (by simp [Page.lines]))
  simpa [Page.lines, List.map_map, Function.comp_def] using hsplit

/-- Witness of C15: `Println("/**")`, `Indent(1)`, `Print("a")`, `Print("b")`,
`Newline()`, `Newline()`, `Indent(-1)`, `Print("*/")` on a new sink give the lines
`/**`, tab `ab`, an empty line and `*/`. -/
theorem lines_begin_at_depth_in_force_witness :
    "/**\n\tab\n\n*/".data.splitOn '\n' =
      (pageOf [.Println "/**" [], .Indent 1, .Print "a" [], .Print "b" [], .Newline, .Newline,
        .Indent (-1), .Print "*/" []]).lines.map lineChars :=
  (lines_begin_at_depth_in_force 80
    [.Println "/**" [], .Indent 1, .Print "a" [], .Print "b" [], .Newline, .Newline,
      .Indent (-1), .Print "*/" []]
    { sb := "/**\n\tab\n\n*/", maxLineLength := 80, start := false, indent := 0 }
    (by decide) (by decide) (by decide)).1

/-- Counterexample to C15 as stated, all at depth 1 in force from before the first
write: a text with a line feed leaves the second logical line `b` without a tab; a
`Newline` at line start leaves an empty first line without a tab; a text that begins
with a tab leaves a line that begins with two tabs. -/
theorem lines_not_always_at_depth_in_force :
    performInOrder ([Op.Indent 1, Op.Print "a\nb" []].map Op.run) (NewEmitter 80) =
      .ok { sb := "\ta\nb", maxLineLength := 80, start := false, indent := 1 } ∧
    "\ta\nb".data.splitOn '\n' = ["\ta".data, "b".data] ∧
    leadingTabs "b".data = 0 ∧
    performInOrder ([Op.Indent 1, Op.Newline, Op.Print "x" []].map Op.run) (NewEmitter 80) =
      .ok { sb := "\n\tx", maxLineLength := 80, start := false, indent := 1 } ∧
    "\n\tx".data.splitOn '\n' = ["".data, "\tx".data] ∧
    leadingTabs "".data = 0 ∧
    performInOrder ([Op.Indent 1, Op.Print "\tx" []].map Op.run) (NewEmitter 80) =
      .ok { sb := "\t\tx", maxLineLength := 80, start := false, indent := 1 } ∧
    leadingTabs "\t\tx".data = 2 := by
  decide

end emitter

namespace doxygen

open emitter command

/-- C30: `WithTag(t)` sets the tag to `t` and keeps the directive sequence; `WithCommand`,
`WithMultipleCommands` and `WithCommandOnce` keep the tag, and the sequence they return
is the stored sequence followed by what they add, so every stored directive stays in
its place. -/
theorem options_change_only_their_part (d : Doxygen) (tag : String) (c : Command)
    (cs : List Command) :
    (WithTag tag d).Tag = tag ∧ (WithTag tag d).Commands = d.Commands ∧
    (WithCommand c d).Tag = d.Tag ∧ (WithCommand c d).Commands = d.Commands ++ [c] ∧
    (WithMultipleCommands cs d).Tag = d.Tag ∧
    (WithMultipleCommands cs d).Commands = d.Commands ++ cs ∧
    (WithCommandOnce c d).Tag = d.Tag ∧
    ((WithCommandOnce c d).Commands = d.Commands ∨
      (WithCommandOnce c d).Commands = d.Commands ++ [c]) ∧
    (∀ (i : Nat) (x : Command), d.Commands[i]? = some x →
      (WithCommand c d).Commands[i]? = some x ∧
      (WithMultipleCommands cs d).Commands[i]? = some x ∧
      (WithCommandOnce c d).Commands[i]? = some x) := by
  have honce : (WithCommandOnce c d).Commands = d.Commands ∨
      (WithCommandOnce c d).Commands = d.Commands ++ [c] := by
    unfold WithCommandOnce
    split
    · exact Or.inr rfl
    · exact Or.inl rfl
  refine ⟨rfl, rfl, rfl, rfl, rfl, rfl, WithCommandOnce_Tag c d, honce, ?_⟩
  intro i x hx
  have hi : i < d.Commands.length := by
    rcases Nat.lt_or_ge i d.Commands.length with h | h
    · exact h
    · rw [List.getElem?_eq_none h] at hx; cases hx
  refine ⟨?_, ?_, ?_⟩
  · show (d.Commands ++ [c])[i]? = some x
    rw [List.getElem?_append_left hi, hx]
  · show (d.Commands ++ cs)[i]? = some x
    rw [List.getElem?_append_left hi, hx]
  · rcases honce with h | h
    · rw [h, hx]
    · rw [h, List.getElem?_append_left hi, hx]

end doxygen

namespace command

open emitter

theorem append_left_ne (a x y : String) (h : ¬ x.data = y.data) : a ++ x ≠ a ++ y := by
  intro heq
  apply h
  have := congrArg String.data heq
  simpa [String.data_append] using this

/-- C21: evaluation of the code.  For every tag and every field value, `B` renders the
keyword `arg`, `Em` the keyword `Em`, `HeaderFile` the keyword `exception` and `Authors`
the keyword `author`, so none of them renders the tag followed by its own keyword `b `,
`em `, `headerfile ` or `authors `. -/
theorem B_Em_HeaderFile_Authors_render_another_keyword (h : Helpers)
    (tag word file name author : String) (width : Nat) :
    (((B.mk word).Generate h tag sampleEmitter (NewEmitter width)).state.sb =
        tag ++ ("arg " ++ h.word word) ∧
      ∀ rest, ((B.mk word).Generate h tag sampleEmitter (NewEmitter width)).state.sb ≠
        tag ++ ("b " ++ rest)) ∧
    (((Em.mk word).Generate h tag sampleEmitter (NewEmitter width)).state.sb =
        tag ++ ("Em " ++ h.word word) ∧
      ∀ rest, ((Em.mk word).Generate h tag sampleEmitter (NewEmitter width)).state.sb ≠
        tag ++ ("em " ++ rest)) ∧
    (((HeaderFile.mk file name).Generate h tag sampleEmitter (NewEmitter width)).state.sb =
        tag ++ ("exception " ++ (h.word file ++ (h.optional (h.word name) ++ "\n"))) ∧
      ∀ rest,
        ((HeaderFile.mk file name).Generate h tag sampleEmitter (NewEmitter width)).state.sb ≠
          tag ++ ("headerfile " ++ rest)) ∧
    (((Authors.mk [author]).Generate tag sampleEmitter (NewEmitter width)).state.sb =
        tag ++ ("author " ++ (author ++ "\n")) ∧
      ∀ rest, ((Authors.mk [author]).Generate tag sampleEmitter (NewEmitter width)).state.sb ≠
        tag ++ ("authors " ++ rest)) := by
  have hB : ((B.mk word).Generate h tag sampleEmitter (NewEmitter width)).state.sb =
      tag ++ ("arg " ++ h.word word) := by
    show ((NewEmitter width).Print "%sarg %s" [tag, h.word word]).sb = _
    rw [Print_eq]
    apply String.ext
    simp [NewEmitter, indentation, fmt.Sprintf, fmt.doPrintf, fmt.printArg, fmt.extraMarker,
      String.data_append]
  have hEm : ((Em.mk word).Generate h tag sampleEmitter (NewEmitter width)).state.sb =
      tag ++ ("Em " ++ h.word word) := by
    show ((NewEmitter width).Print "%sEm %s" [tag, h.word word]).sb = _
    rw [Print_eq]
    apply String.ext
    simp [NewEmitter, indentation, fmt.Sprintf, fmt.doPrintf, fmt.printArg, fmt.extraMarker,
      String.data_append]
  have hH : ((HeaderFile.mk file name).Generate h tag sampleEmitter (NewEmitter width)).state.sb =
      tag ++ ("exception " ++ (h.word file ++ (h.optional (h.word name) ++ "\n"))) := by
    show ((NewEmitter width).Println "%sexception %s%s"
      [tag, h.word file, h.optional (h.word name)]).sb = _
    rw [Println_eq]
    apply String.ext
    simp [NewEmitter, indentation, fmt.Sprintf, fmt.doPrintf, fmt.printArg, fmt.extraMarker,
      String.data_append]
  have hA : ((Authors.mk [author]).Generate tag sampleEmitter (NewEmitter width)).state.sb =
      tag ++ ("author " ++ (author ++ "\n")) := by
    show ((NewEmitter width).Println "%sauthor %s" [tag, author]).sb = _
    rw [Println_eq]
    apply String.ext
    simp [NewEmitter, indentation, fmt.Sprintf, fmt.doPrintf, fmt.printArg, fmt.extraMarker,
      String.data_append]
  refine ⟨⟨hB, fun rest => ?_⟩, ⟨hEm, fun rest => ?_⟩, ⟨hH, fun rest => ?_⟩,
    ⟨hA, fun rest => ?_⟩⟩
  · rw [hB]; exact append_left_ne _ _ _ (by simp [String.data_append])
  · rw [hEm]; exact append_left_ne _ _ _ (by simp [String.data_append])
  · rw [hH]; exact append_left_ne _ _ _ (by simp [String.data_append])
  · rw [hA]; exact append_left_ne _ _ _ (by simp [String.data_append])

end command

namespace command

open emitter

theorem Sprintf_author_missing (author : String) :
    fmt.Sprintf "%sauthor %s" [author] = author ++ "author %!s(MISSING)" := by
  apply String.ext
  simp [fmt.Sprintf, fmt.doPrintf, fmt.printArg, fmt.extraMarker, String.data_append]

theorem Author_loop_text (authors : List String) (e : SampleEmitter) (h0 : e.indent = 0) :
    Author.GenerateLoop sampleEmitter authors e =
      .ok { e with
        sb := e.sb ++ concatInOrder (authors.map (fun a => a ++ "author %!s(MISSING)" ++ "\n")),
        start := if authors = [] then e.start else true } := by
  induction authors generalizing e with
  | nil => simp [Author.GenerateLoop, concatInOrder]
  | cons a rest ih =>
    rw [Author.GenerateLoop, sampleEmitter_Println, andThen_ok, ih _ (by simpa [Println_eq] using h0)]
    simp only [Println_eq, h0, Sprintf_author_missing]
    cases e.start <;>
      simp [indentation, concatInOrder, String.append_assoc]

/-- C22: evaluation of the code.  `Author.Generate` passes the author as the only operand
of the format `%sauthor %s`, so for every tag and every list of authors the i-th line it
renders on a new sink is the author's name, then `author `, then the missing-operand
marker of `fmt`: the tag appears on no line, and for the tag `@` and the one author
`bob` the text is not `@author bob`. -/
theorem Author_Generate_drops_tag (tag : String) (authors : List String) (width : Nat) :
    (Author.mk authors).Generate tag sampleEmitter (NewEmitter width) =
      .ok { sb := concatInOrder (authors.map (fun a => a ++ "author %!s(MISSING)" ++ "\n")),
            maxLineLength := width,
            start := true, indent := 0 } ∧
    ((Author.mk ["bob"]).Generate "@" sampleEmitter (NewEmitter 80)).state.sb =
      "bobauthor %!s(MISSING)\n" ∧
    ((Author.mk ["bob"]).Generate "@" sampleEmitter (NewEmitter 80)).state.sb ≠
      "@author bob\n" := by
  refine ⟨?_, by decide, by decide⟩
  show Author.GenerateLoop sampleEmitter authors (NewEmitter width) = _
  rw [Author_loop_text authors _ rfl]
  cases authors <;> simp [NewEmitter]

end command

namespace command

open emitter doxygen

theorem Directive_Command_eq (d : Directive) : d.Command = aliasedType d.typeName := by
  cases d <;> rfl

theorem aliasedType_eq_iff (a b : String) :
    aliasedType a = aliasedType b ↔
      a = b ∨ (a = "Lt" ∧ b = "LessThan") ∨ (a = "LessThan" ∧ b = "Lt") ∨
        (a = "Gt" ∧ b = "GreaterThan") ∨ (a = "GreaterThan" ∧ b = "Gt") := by
  unfold aliasedType
  by_cases ha1 : a = "Lt" <;> by_cases ha2 : a = "Gt" <;> by_cases hb1 : b = "Lt" <;>
    by_cases hb2 : b = "Gt" <;> simp_all <;> constructor <;> intro h <;>
    first
    | exact Or.inr h.symm
    | (rcases h with h | h
       · first | exact absurd h.symm hb1 | exact absurd h.symm hb2
       · exact h.symm)

end command

namespace command

open emitter doxygen

/-- C23, with the two declared aliases set apart: `Command()` is fixed by the struct type
of a directive value, whatever its fields; two values of different struct types have
different `Command()` values unless one is `Lt` and the other `LessThan`, or one is `Gt`
and the other `GreaterThan`; so when `WithCommandOnce` leaves a block of library
directives unchanged, the block stores a directive of the same struct type or of its
alias partner. -/
theorem Command_identifies_variant_up_to_alias (h : Helpers) (d1 d2 : Directive) :
    (d1.typeName = d2.typeName → d1.Command = d2.Command) ∧
    (d1.Command = d2.Command ↔
      d1.typeName = d2.typeName ∨
      (d1.typeName = "Lt" ∧ d2.typeName = "LessThan") ∨
      (d1.typeName = "LessThan" ∧ d2.typeName = "Lt") ∨
      (d1.typeName = "Gt" ∧ d2.typeName = "GreaterThan") ∨
      (d1.typeName = "GreaterThan" ∧ d2.typeName = "Gt")) ∧
    (∀ (tag : String) (ds : List Directive),
      (WithCommandOnce (d1.toCommand h) (blockOf h tag ds)).Commands.length = ds.length →
      ∃ s ∈ ds, s.typeName = d1.typeName ∨
        (s.typeName = "Lt" ∧ d1.typeName = "LessThan") ∨
        (s.typeName = "LessThan" ∧ d1.typeName = "Lt") ∨
        (s.typeName = "Gt" ∧ d1.typeName = "GreaterThan") ∨
        (s.typeName = "GreaterThan" ∧ d1.typeName = "Gt")) := by
  have hiff : ∀ a b : Directive, a.Command = b.Command ↔
      a.typeName = b.typeName ∨
      (a.typeName = "Lt" ∧ b.typeName = "LessThan") ∨
      (a.typeName = "LessThan" ∧ b.typeName = "Lt") ∨
      (a.typeName = "Gt" ∧ b.typeName = "GreaterThan") ∨
      (a.typeName = "GreaterThan" ∧ b.typeName = "Gt") := by
    intro a b
    rw [Directive_Command_eq, Directive_Command_eq]
    exact aliasedType_eq_iff _ _
  refine ⟨fun ht => (hiff d1 d2).2 (Or.inl ht), hiff d1 d2, ?_⟩
  intro tag ds hlen
  by_cases hex : ∃ s ∈ (blockOf h tag ds).Commands, s.Command = (d1.toCommand h).Command
  · obtain ⟨s, hs, hk⟩ := hex
    simp only [blockOf, List.mem_map] at hs
    obtain ⟨d, hd, rfl⟩ := hs
    exact ⟨d, hd, (hiff d d1).1 hk⟩
  · exfalso
    have habs : ∀ s ∈ (blockOf h tag ds).Commands, s.Command ≠ (d1.toCommand h).Command :=
      fun s hs hk => hex ⟨s, hs, hk⟩
    rw [WithCommandOnce_absent _ _ habs] at hlen
    simp [blockOf] at hlen

/-- Witness of C23: a `Brief` and a `Param` have different kinds, and two `Brief` values
with different fields have the same kind. -/
theorem Command_identifies_variant_up_to_alias_witness :
    (Directive.ofBrief ⟨"a"⟩).Command = (Directive.ofBrief ⟨"b"⟩).Command ∧
    ¬ (Directive.ofBrief ⟨"a"⟩).Command = (Directive.ofParam ⟨"in", "x", "y"⟩).Command :=
  ⟨(Command_identifies_variant_up_to_alias ⟨id, id, fun _ x => x⟩
      (Directive.ofBrief ⟨"a"⟩) (Directive.ofBrief ⟨"b"⟩)).1 rfl,
   fun hk =>
    absurd ((Command_identifies_variant_up_to_alias ⟨id, id, fun _ x => x⟩
      (Directive.ofBrief ⟨"a"⟩) (Directive.ofParam ⟨"in", "x", "y"⟩)).2.1.1 hk) (by decide)⟩

/-- Counterexample to C23 as stated: `Lt` and `LessThan` are different struct types with
the same `Command()` value, and `WithCommandOnce` of an `Lt` value on a block that
stores a `LessThan` value adds nothing. -/
theorem Lt_shares_kind_of_LessThan :
    (Directive.ofLt ⟨⟨⟩⟩).typeName ≠ (Directive.ofLessThan ⟨⟩).typeName ∧
    (Directive.ofLt ⟨⟨⟩⟩).Command = (Directive.ofLessThan ⟨⟩).Command ∧
    (WithCommandOnce ((Directive.ofLt ⟨⟨⟩⟩).toCommand ⟨id, id, fun _ x => x⟩)
      (blockOf ⟨id, id, fun _ x => x⟩ "@" [Directive.ofLessThan ⟨⟩])).Commands.length = 1 ∧
    ((WithCommandOnce ((Directive.ofLt ⟨⟨⟩⟩).toCommand ⟨id, id, fun _ x => x⟩)
      (blockOf ⟨id, id, fun _ x => x⟩ "@" [Directive.ofLessThan ⟨⟩])).Commands.map
        (fun c => c.Command)) = ["LessThan"] := by
  decide

end command

namespace command

open emitter

theorem Todo_rendersInline (h : Helpers) (cmd : Todo) (tag : String) :
    RendersInline ((Directive.ofTodo cmd).toCommand h) tag (tag ++ "todo " ++ cmd.Description) := by
  intro e
  show Run.ok (e.Print "%stodo %s" [tag, cmd.Description]) = _
  have hs : fmt.Sprintf "%stodo %s" [tag, cmd.Description] = tag ++ "todo " ++ cmd.Description := by
    apply String.ext
    simp [fmt.Sprintf, fmt.doPrintf, fmt.printArg, fmt.extraMarker, String.data_append]
  rw [Print_eq, hs]

theorem Emoji_rendersInline (h : Helpers) (cmd : Emoji) (tag : String) :
    RendersInline ((Directive.ofEmoji cmd).toCommand h) tag (tag ++ "emoji " ++ cmd.Name) := by
  intro e
  show Run.ok (e.Print "%semoji %s" [tag, cmd.Name]) = _
  have hs : fmt.Sprintf "%semoji %s" [tag, cmd.Name] = tag ++ "emoji " ++ cmd.Name := by
    apply String.ext
    simp [fmt.Sprintf, fmt.doPrintf, fmt.printArg, fmt.extraMarker, String.data_append]
  rw [Print_eq, hs]

theorem A_rendersInline (h : Helpers) (cmd : A) (tag : String) :
    RendersInline ((Directive.ofA cmd).toCommand h) tag (tag ++ "a " ++ h.word cmd.Word) := by
  intro e
  show Run.ok (e.Print "%sa %s" [tag, h.word cmd.Word]) = _
  have hs : fmt.Sprintf "%sa %s" [tag, h.word cmd.Word] = tag ++ "a " ++ h.word cmd.Word := by
    apply String.ext
    simp [fmt.Sprintf, fmt.doPrintf, fmt.printArg, fmt.extraMarker, String.data_append]
  rw [Print_eq, hs]

end command

namespace doxygen

open emitter command

end doxygen

namespace doxygen

open emitter command

theorem RendersInline_writes (c : Command) (tag text : String) (h : RendersInline c tag text) :
    Writes (c.Generate tag sampleEmitter) :=
  ⟨fun i b => indentation i b ++ text, fun _ => false, h⟩

theorem RendersInline_emittedText (c : Command) (tag text : String)
    (h : RendersInline c tag text) (indent : Nat) (start : Bool) :
    emittedText c tag indent start = indentation indent start ++ text ∧
      startAfter c tag indent start = false := by
  have hb := h (blank indent start)
  simp only [emittedText, startAfter, hb, Run.state]
  simp [blank]

theorem textsInOrder_append_one (tag : String) (indent : Nat) (cs : List Command) (c : Command)
    (start : Bool) :
    textsInOrder tag indent (cs ++ [c]) start =
      textsInOrder tag indent cs start ++
        [emittedText c tag indent (startAfterAll tag indent cs start)] ∧
    startAfterAll tag indent (cs ++ [c]) start =
      startAfter c tag indent (startAfterAll tag indent cs start) := by
  induction cs generalizing start with
  | nil => simp [textsInOrder, startAfterAll]
  | cons x rest ih => simp [textsInOrder, startAfterAll, ih]

theorem concatInOrder_append_one (xs : List String) (y : String) :
    concatInOrder (xs ++ [y]) = concatInOrder xs ++ y := by
  induction xs with
  | nil => simp [concatInOrder]
  | cons x rest ih => simp [concatInOrder, ih, String.append_assoc]

/-- C29, with the range of the machine integers made explicit: when the last directive
of a block renders inline and the sink is at a depth `d` with `d + 1` below `2 ^ 63`,
`Generate` appends `*/` and a line feed directly after that directive's text, with no
line feed and no indentation in between; and a directive rendered after an inline one
appends its own text directly after it, with no indentation and no separator. -/
theorem closing_delimiter_follows_inline_text (tag : String) (cs : List Command) (c : Command)
    (text : String) (hcs : ∀ x ∈ cs, WritesOnly x tag) (hc : RendersInline c tag text)
    (e : SampleEmitter) (hd : e.indent + 1 < 2 ^ 63) :
    Doxygen.Generate { Commands := cs ++ [c], Tag := tag } sampleEmitter e =
      .ok { e with
        sb := e.sb ++ (indentation e.indent e.start ++ "/**" ++ "\n")
          ++ concatInOrder (textsInOrder tag (e.indent + 1) cs true)
          ++ (indentation (e.indent + 1) (startAfterAll tag (e.indent + 1) cs true) ++ text)
          ++ ("*/" ++ "\n"),
        start := true } ∧
    (∀ (c2 : Command) (line : String), RendersLine c2 tag line →
      generateLoop tag sampleEmitter [c, c2] e =
        .ok { e with
          sb := e.sb ++ (indentation e.indent e.start ++ text) ++ (tag ++ line ++ "\n"),
          start := true }) ∧
    (∀ (c2 : Command) (text2 : String), RendersInline c2 tag text2 →
      generateLoop tag sampleEmitter [c, c2] e =
        .ok { e with
          sb := e.sb ++ (indentation e.indent e.start ++ text) ++ text2,
          start := false }) := by
  refine ⟨?_, ?_, ?_⟩
  · have hall : ∀ x ∈ (cs ++ [c]), WritesOnly x tag := by
      intro x hx
      rcases List.mem_append.1 hx with hx | hx
      · exact hcs x hx
      · rw [List.mem_singleton.1 hx]
        exact WritesOnly_of_Writes _ _ (RendersInline_writes c tag text hc)
    rw [Generate_writers { Commands := cs ++ [c], Tag := tag } hall e hd]
    simp only [(textsInOrder_append_one tag (e.indent + 1) cs c true).1,
      (textsInOrder_append_one tag (e.indent + 1) cs c true).2,
      concatInOrder_append_one,
      (RendersInline_emittedText c tag text hc _ _).1,
      (RendersInline_emittedText c tag text hc _ _).2]
    simp [indentation, String.append_assoc]
  · intro c2 line h2
    unfold RendersLine at h2
    rw [generateLoop, hc e, andThen_ok, generateLoop, h2, andThen_ok, generateLoop]
    simp [indentation, String.append_assoc]
  · intro c2 text2 h2
    unfold RendersInline at h2
    rw [generateLoop, hc e, andThen_ok, generateLoop, h2, andThen_ok, generateLoop]
    simp [indentation, String.append_assoc]

/-- Witness of C29: at depth 1 and line start, the block of a `Brief` followed by a `Todo`
ends in the `Todo` text immediately followed by `*/`. -/
theorem closing_delimiter_follows_inline_text_witness :
    Doxygen.Generate
        { Commands := [(Brief.mk "b").toCommand] ++
            [(Directive.ofTodo ⟨"later"⟩).toCommand ⟨id, id, fun _ x => x⟩],
          Tag := "@" } sampleEmitter
        { sb := "", maxLineLength := 80, start := true, indent := 1 } =
      .ok { sb := "" ++ (indentation 1 true ++ "/**" ++ "\n")
              ++ concatInOrder (textsInOrder "@" (1 + 1) [(Brief.mk "b").toCommand] true)
              ++ (indentation (1 + 1)
                    (startAfterAll "@" (1 + 1) [(Brief.mk "b").toCommand] true)
                  ++ ("@" ++ "todo " ++ "later"))
              ++ ("*/" ++ "\n"),
            maxLineLength := 80, start := true, indent := 1 } :=
  (closing_delimiter_follows_inline_text "@" [(Brief.mk "b").toCommand]
    ((Directive.ofTodo ⟨"later"⟩).toCommand ⟨id, id, fun _ x => x⟩) ("@" ++ "todo " ++ "later")
    (by
      intro x hx
      rw [List.mem_singleton.1 hx]
      exact Brief_writesOnly _ _)
    (Todo_rendersInline _ _ _)
    { sb := "", maxLineLength := 80, start := true, indent := 1 } (by decide)).1

/-- Counterexample to C29 as stated: on a new sink `Print("x")` and then
`Indent(2 ^ 63 - 1)` complete, and in the state they leave the `Generate` of a block
whose last directive is a `Todo` writes its opening line and panics at its own
`Indent(1)`: the `Todo` is not rendered and no `*/` is appended. -/
theorem Generate_inline_block_panics_at_overflow :
    SampleEmitter.Indent (2 ^ 63 - 1) ((NewEmitter 80).Print "x" []) =
      .ok { sb := "x", maxLineLength := 80, start := false, indent := 2 ^ 63 - 1 } ∧
    Doxygen.Generate
        { Commands := [(Directive.ofTodo ⟨"later"⟩).toCommand ⟨id, id, fun _ x => x⟩],
          Tag := "@" } sampleEmitter
        { sb := "x", maxLineLength := 80, start := false, indent := 2 ^ 63 - 1 } =
      .panicked unbalanced
        { sb := "x/**\n", maxLineLength := 80, start := true, indent := 2 ^ 63 - 1 } := by
  decide

end doxygen

namespace emitter

theorem Sprintf_comment (line : String) : fmt.Sprintf "// %s" [line] = "// " ++ line := by
  apply String.ext
  simp [fmt.Sprintf, fmt.doPrintf, fmt.printArg, fmt.extraMarker, String.data_append]

theorem commentLoop_eq (lines : List String) (e : SampleEmitter) :
    e.commentLoop lines =
      { e with sb := e.sb ++ commentText e.indent e.start lines,
               start := e.start || !lines.isEmpty } := by
  induction lines generalizing e with
  | nil => simp [SampleEmitter.commentLoop, commentText]
  | cons line rest ih =>
    rw [SampleEmitter.commentLoop, ih, Println_eq, Sprintf_comment]
    simp [commentText, String.append_assoc]

theorem commentLoop_performInOrder (lines : List String) (e : SampleEmitter) :
    performInOrder (lines.map (fun line => sampleEmitter.Println "// %s" [line])) e =
      .ok (e.commentLoop lines) := by
  induction lines generalizing e with
  | nil => rfl
  | cons line rest ih =>
    rw [List.map_cons, performInOrder_cons, sampleEmitter_Println, andThen_ok, ih,
      SampleEmitter.commentLoop]

theorem commentLines_ne_nil (wrap : String → Nat → String) (s : String) (e : SampleEmitter) :
    e.commentLines wrap s ≠ [] := by
  unfold SampleEmitter.commentLines strings.Split
  intro h
  rw [List.map_eq_nil_iff] at h
  exact List.splitOnP_ne_nil _ _ h

/-- C24: a sink made by `NewEmitter w` has an empty buffer (`String()` is the empty
string, `Bytes()` is empty), depth zero and `MaxLineLength()` equal to `w`, and its first
`Print` or `Println` emits the expanded text with no indentation before it; for every
sink, `Bytes()` is the UTF-8 encoding of what `String()` returns, which is the buffer, and
`String()`, `Bytes()` and `MaxLineLength()` leave the sink as it was. -/
theorem accessors_read_the_sink (w : Nat) (format : String) (args : List String)
    (e : SampleEmitter) :
    ((NewEmitter w).String.1 = "" ∧ (NewEmitter w).Bytes.1 = ByteArray.empty ∧
      (NewEmitter w).Bytes.1.size = 0 ∧ (NewEmitter w).indent = 0 ∧
      (NewEmitter w).MaxLineLength.1 = w) ∧
    ((NewEmitter w).Print format args =
        { sb := fmt.Sprintf format args, maxLineLength := w, start := false, indent := 0 } ∧
      (NewEmitter w).Println format args =
        { sb := fmt.Sprintf format args ++ "\n", maxLineLength := w, start := true,
          indent := 0 }) ∧
    (e.String.1 = e.sb ∧ e.Bytes.1 = e.String.1.toUTF8 ∧
      e.MaxLineLength.1 = e.maxLineLength) ∧
    (e.String.2 = e ∧ e.Bytes.2 = e ∧ e.MaxLineLength.2 = e) := by
  refine ⟨⟨rfl, rfl, rfl, rfl, rfl⟩, ⟨?_, ?_⟩, ⟨rfl, rfl, rfl⟩, ⟨rfl, rfl, rfl⟩⟩
  · rw [Print_eq]
    simp [NewEmitter, indentation]
  · rw [Println_eq]
    simp [NewEmitter, indentation]

/-- C27: for a non-empty text `s`, `Comment(s)` is the run of `Println("// %s", Li)` over
the lines `L1..Lk` of `s` wrapped to `maxLineLength - indent` (in `uint` arithmetic) and
split at the line feeds, in order; the buffer gains for each line the indentation
`Println` writes, `// `, the line and a line feed, and nothing else, and depth and width
are kept; for the empty text the sink is unchanged. Holds for every wrapping function. -/
theorem Comment_emits_wrapped_lines (wrap : String → Nat → String) (s : String)
    (e : SampleEmitter) :
    (s ≠ "" →
      performInOrder
          ((e.commentLines wrap s).map (fun line => sampleEmitter.Println "// %s" [line])) e =
        .ok (e.Comment wrap s) ∧
      e.Comment wrap s =
        { e with sb := e.sb ++ commentText e.indent e.start (e.commentLines wrap s),
                 start := true }) ∧
    e.commentLines wrap s =
      strings.Split (wrap s (uintSub e.maxLineLength e.indent)) '\n' ∧
    (e.indent ≤ e.maxLineLength → e.maxLineLength < 2 ^ 64 →
      uintSub e.maxLineLength e.indent = e.maxLineLength - e.indent) ∧
    e.Comment wrap "" = e := by
  refine ⟨?_, rfl, ?_, ?_⟩
  · intro hs
    have hne := commentLines_ne_nil wrap s e
    refine ⟨?_, ?_⟩
    · rw [commentLoop_performInOrder]
      simp [SampleEmitter.Comment, hs]
    · simp only [SampleEmitter.Comment, hs, ne_eq, not_false_eq_true, if_true]
      rw [commentLoop_eq]
      cases hl : e.commentLines wrap s with
      | nil => exact absurd hl hne
      | cons line rest => simp
  · intro h1 h2
    unfold uintSub intSize
    have h3 : e.indent % 2 ^ 64 = e.indent := Nat.mod_eq_of_lt (by omega)
    rw [h3]
    have h4 : e.maxLineLength + (2 ^ 64 - e.indent) = (e.maxLineLength - e.indent) + 2 ^ 64 := by
      omega
    rw [h4, Nat.add_mod_right]
    exact Nat.mod_eq_of_lt (by omega)
  · simp [SampleEmitter.Comment]

/-- Witness of C27: the text `foo bar baz` on a new sink of width 4. -/
theorem Comment_emits_wrapped_lines_witness :
    ("foo bar baz" ≠ "" ∧ (0 : Nat) ≤ 4 ∧ (4 : Nat) < 2 ^ 64) ∧
    (NewEmitter 4).Comment wordwrap.WrapString "foo bar baz" =
      { (NewEmitter 4) with
        sb := (NewEmitter 4).sb ++ commentText (NewEmitter 4).indent (NewEmitter 4).start
          ((NewEmitter 4).commentLines wordwrap.WrapString "foo bar baz"),
        start := true } ∧
    (NewEmitter 4).Comment wordwrap.WrapString "foo bar baz" =
      { sb := "// foo\n// bar\n// baz\n", maxLineLength := 4, start := true, indent := 0 } :=
  ⟨⟨by decide, by decide, by decide⟩,
    ((Comment_emits_wrapped_lines wordwrap.WrapString "foo bar baz" (NewEmitter 4)).1
      (by decide)).2,
    by decide⟩

end emitter

namespace wordwrap

theorem wordsFrom_seps (sep : Char → Bool) (S t : List Char) (hS : ∀ c ∈ S, sep c = true) :
    wordsFrom sep [] (S ++ t) = wordsFrom sep [] t := by
  induction S with
  | nil => rfl
  | cons c rest ih =>
    have hc : sep c = true := hS c (List.mem_cons_self c rest)
    have hrest : ∀ x ∈ rest, sep x = true := fun x hx => hS x (List.mem_cons_of_mem c hx)
    simp [wordsFrom, hc, ih hrest]

theorem wordsFrom_split (sep : Char → Bool) (cur xs S t : List Char) (hne : S ≠ [])
    (hS : ∀ c ∈ S, sep c = true) :
    wordsFrom sep cur (xs ++ (S ++ t)) = wordsFrom sep cur xs ++ wordsFrom sep [] t := by
  induction xs generalizing cur with
  | nil =>
    cases S with
    | nil => exact absurd rfl hne
    | cons c rest =>
      have hc : sep c = true := hS c (List.mem_cons_self c rest)
      have hrest : ∀ x ∈ rest, sep x = true := fun x hx => hS x (List.mem_cons_of_mem c hx)
      simp [wordsFrom, hc, wordsFrom_seps sep rest t hrest]
  | cons x rest ih =>
    by_cases hx : sep x = true
    · simp [wordsFrom, hx, ih []]
    · simp [wordsFrom, hx, ih (cur ++ [x])]

theorem wordsFrom_trailing (sep : Char → Bool) (cur xs S : List Char)
    (hS : ∀ c ∈ S, sep c = true) :
    wordsFrom sep cur (xs ++ S) = wordsFrom sep cur xs := by
  by_cases hne : S = []
  · simp [hne]
  · have h := wordsFrom_split sep cur xs S [] hne hS
    simpa [wordsFrom] using h

theorem wordsFrom_intercalate (sep : Char → Bool) (hsep : sep '\n' = true)
    (ls : List (List Char)) :
    wordsFrom sep [] (['\n'].intercalate ls) = ls.flatMap (wordsFrom sep []) := by
  induction ls with
  | nil => simp [List.intercalate, wordsFrom]
  | cons l rest ih =>
    cases rest with
    | nil => simp [List.intercalate, List.intersperse]
    | cons l2 rest2 =>
      simp only [List.intercalate] at ih ⊢
      simp only [List.intersperse_cons_cons, List.flatten_cons, List.flatMap_cons] at ih ⊢
      rw [← ih]
      exact wordsFrom_split sep [] l ['\n'] _ (by simp) (by simpa using hsep)

/-- What the loop of `WrapString` keeps true of its state after reading the prefix `p` of
the text: written and pending text have the words of `p` followed by anything, pending
white space is made of separators, and white space is pending whenever the line being
built is not empty. -/
structure KeepsWords (sep : Char → Bool) (p : List Char) (st : State) : Prop where
  same : ∀ t, wordsFrom sep [] (p ++ t) =
    wordsFrom sep [] (st.buf ++ st.spaceBuf ++ st.wordBuf ++ t)
  spaces : ∀ c ∈ st.spaceBuf, sep c = true
  fresh : st.spaceBuf = [] → st.current = 0

theorem step_keepsWords (sep : Char → Bool) (hsep : ∀ c, breakable c = true → sep c = true)
    (lim : Nat) (p : List Char) (st : State) (c : Char) (h : KeepsWords sep p st) :
    KeepsWords sep (p ++ [c]) (step lim st c) := by
  obtain ⟨hsame, hspaces, hfresh⟩ := h
  have hnl : sep '\n' = true := hsep '\n' (by decide)
  unfold step
  by_cases hc : c = '\n'
  · subst hc
    rw [if_pos rfl]
    by_cases hw : st.wordBuf = []
    · rw [if_pos hw]
      by_cases hfit : st.current + st.spaceBuf.length > lim
      · rw [if_pos hfit]
        refine ⟨?_, by simp, by simp⟩
        intro t
        have h1 := hsame ('\n' :: t)
        simp only [hw, List.append_nil, List.append_assoc, List.singleton_append, List.cons_append, List.nil_append] at h1 ⊢
        rw [h1]
        have h2 := wordsFrom_split sep [] st.buf (st.spaceBuf ++ ['\n']) t (by simp)
          (by
            intro x hx
            rcases List.mem_append.1 hx with hx | hx
            · exact hspaces x hx
            · rw [List.mem_singleton.1 hx]; exact hnl)
        have h3 := wordsFrom_split sep [] st.buf ['\n'] t (by simp) (by simpa using hnl)
        simp only [List.append_assoc, List.singleton_append, List.cons_append, List.nil_append] at h2 h3
        rw [h2, h3]
      · rw [if_neg hfit]
        refine ⟨?_, by simp, by simp⟩
        intro t
        have h1 := hsame ('\n' :: t)
        simpa [hw, List.append_assoc] using h1
    · rw [if_neg hw]
      refine ⟨?_, by simp, by simp⟩
      intro t
      have h1 := hsame ('\n' :: t)
      simpa [List.append_assoc] using h1
  · rw [if_neg hc]
    by_cases hs : (unicode.IsSpace c && c != nbsp) = true
    · rw [if_pos hs]
      have hcs : sep c = true := hsep c (by simp [breakable, hs])
      by_cases hf : st.spaceBuf = [] ∨ st.wordBuf ≠ []
      · rw [if_pos hf]
        refine ⟨?_, by simpa using hcs, by simp⟩
        intro t
        have h1 := hsame (c :: t)
        simpa [List.append_assoc] using h1
      · rw [if_neg hf]
        have hw : st.wordBuf = [] := by
          by_contra hw
          exact hf (Or.inr hw)
        refine ⟨?_, ?_, by simp⟩
        · intro t
          have h1 := hsame (c :: t)
          simpa [hw, List.append_assoc] using h1
        · intro x hx
          rcases List.mem_append.1 hx with hx | hx
          · exact hspaces x hx
          · rw [List.mem_singleton.1 hx]; exact hcs
    · rw [if_neg hs]
      by_cases hb : st.current + (st.wordBuf.length + 1) + st.spaceBuf.length > lim
          ∧ st.wordBuf.length + 1 < lim
      · rw [if_pos hb]
        have hne : st.spaceBuf ≠ [] := by
          intro h0
          have h1 := hfresh h0
          simp [h0, h1] at hb
          omega
        refine ⟨?_, by simp, by simp⟩
        intro t
        have h1 := hsame (c :: t)
        have h2 := wordsFrom_split sep [] st.buf st.spaceBuf (st.wordBuf ++ c :: t) hne hspaces
        have h3 := wordsFrom_split sep [] st.buf ['\n'] (st.wordBuf ++ c :: t) (by simp)
          (by simpa using hnl)
        simp only [List.append_assoc, List.singleton_append, List.cons_append, List.nil_append] at h1 h2 h3 ⊢
        rw [h1, h2, h3]
      · rw [if_neg hb]
        refine ⟨?_, hspaces, hfresh⟩
        intro t
        have h1 := hsame (c :: t)
        simpa [List.append_assoc] using h1

theorem foldl_keepsWords (sep : Char → Bool) (hsep : ∀ c, breakable c = true → sep c = true)
    (lim : Nat) (l p : List Char) (st : State) (h : KeepsWords sep p st) :
    KeepsWords sep (p ++ l) (l.foldl (step lim) st) := by
  induction l generalizing p st with
  | nil => simpa using h
  | cons c rest ih =>
    have h1 := ih (p ++ [c]) (step lim st c) (step_keepsWords sep hsep lim p st c h)
    simpa [List.append_assoc] using h1

theorem finish_keepsWords (sep : Char → Bool) (lim : Nat) (p : List Char) (st : State)
    (h : KeepsWords sep p st) :
    wordsFrom sep [] (finish lim st) = wordsFrom sep [] p := by
  obtain ⟨hsame, hspaces, _⟩ := h
  have h1 := hsame []
  simp only [List.append_nil] at h1
  unfold finish
  by_cases hw : st.wordBuf = []
  · rw [if_pos hw]
    simp only [hw, List.append_nil] at h1
    by_cases hfit : st.current + st.spaceBuf.length ≤ lim
    · rw [if_pos hfit, h1]
    · rw [if_neg hfit, h1, wordsFrom_trailing sep [] st.buf st.spaceBuf hspaces]
  · rw [if_neg hw, h1]

theorem WrapString_keeps_words (sep : Char → Bool)
    (hsep : ∀ c, breakable c = true → sep c = true) (s : String) (lim : Nat) :
    (strings.Split (WrapString s lim) '\n').flatMap (words sep) = words sep s := by
  have hnl : sep '\n' = true := hsep '\n' (by decide)
  have h0 : KeepsWords sep [] ⟨[], 0, [], []⟩ := ⟨fun t => rfl, by simp, by simp⟩
  have h1 := foldl_keepsWords sep hsep lim s.data [] _ h0
  have h2 := finish_keepsWords sep lim _ _ h1
  simp only [List.nil_append] at h2
  unfold strings.Split words WrapString
  simp only [List.flatMap_map, ← List.map_flatMap]
  rw [← wordsFrom_intercalate sep hnl, List.intercalate_splitOn, h2]

end wordwrap

namespace wordwrap

theorem wordsFrom_has_current (sep : Char → Bool) (l cur : List Char) (hne : cur ≠ []) :
    ∃ w ∈ wordsFrom sep cur l, cur.length ≤ w.length := by
  induction l generalizing cur with
  | nil => exact ⟨cur, by simp [wordsFrom, hne], Nat.le_refl _⟩
  | cons c rest ih =>
    by_cases hc : sep c = true
    · exact ⟨cur, by simp [wordsFrom, hc, hne], Nat.le_refl _⟩
    · obtain ⟨w, hw, hlen⟩ := ih (cur ++ [c]) (by simp)
      refine ⟨w, by simpa [wordsFrom, hc] using hw, ?_⟩
      simp at hlen
      omega

theorem breakable_iff (c : Char) :
    breakable c = true ↔ c = '\n' ∨ (unicode.IsSpace c && c != nbsp) = true := by
  simp [breakable]

theorem step_wordBuf_breakable (lim : Nat) (st : State) (c : Char)
    (hc : breakable c = true) : (step lim st c).wordBuf = [] := by
  rcases (breakable_iff c).1 hc with h | h
  · subst h
    unfold step
    rw [if_pos rfl]
    by_cases hw : st.wordBuf = []
    · rw [if_pos hw]
      split <;> exact hw
    · rw [if_neg hw]
  · unfold step
    by_cases h0 : c = '\n'
    · subst h0
      rw [if_pos rfl]
      by_cases hw : st.wordBuf = []
      · rw [if_pos hw]
        split <;> exact hw
      · rw [if_neg hw]
    · rw [if_neg h0, if_pos h]
      by_cases hf : st.spaceBuf = [] ∨ st.wordBuf ≠ []
      · rw [if_pos hf]
      · rw [if_neg hf]
        by_contra hw
        exact hf (Or.inr hw)

theorem step_wordBuf_word (lim : Nat) (st : State) (c : Char)
    (hc : ¬breakable c = true) : (step lim st c).wordBuf = st.wordBuf ++ [c] := by
  have h0 : ¬c = '\n' := fun h => hc ((breakable_iff c).2 (Or.inl h))
  have h1 : ¬(unicode.IsSpace c && c != nbsp) = true :=
    fun h => hc ((breakable_iff c).2 (Or.inr h))
  unfold step
  rw [if_neg h0, if_neg h1]
  split <;> rfl

/-- What the loop of `WrapString` keeps true of its state when no word reaches the limit:
the buffer is the finished lines `done`, each closed by a line feed, followed by the line
`last` being built; `current` is the length of `last`; no line is longer than the limit;
and a pending word fits the line being built together with the pending white space. -/
structure FitsLimit (lim : Nat) (st : State) (done : List (List Char)) (last : List Char) :
    Prop where
  buf_eq : st.buf = (done.map (fun l => l ++ ['\n'])).flatten ++ last
  cur_eq : st.current = last.length
  done_ok : ∀ l ∈ done, '\n' ∉ l ∧ l.length ≤ lim
  last_nl : '\n' ∉ last
  last_len : last.length ≤ lim
  space_nl : '\n' ∉ st.spaceBuf
  word_nl : '\n' ∉ st.wordBuf
  fit : st.wordBuf ≠ [] → last.length + st.spaceBuf.length + st.wordBuf.length ≤ lim

theorem lines_snoc (done : List (List Char)) (last tail : List Char) :
    (done.map (fun l => l ++ ['\n'])).flatten ++ last ++ tail ++ ['\n'] =
      ((done ++ [last ++ tail]).map (fun l => l ++ ['\n'])).flatten ++ [] := by
  simp [List.append_assoc]

theorem step_fitsLimit (lim : Nat) (st : State) (c : Char) (done : List (List Char))
    (last : List Char) (h : FitsLimit lim st done last)
    (hword : ¬breakable c = true → st.wordBuf.length + 1 < lim) :
    ∃ done1 last1, FitsLimit lim (step lim st c) done1 last1 := by
  obtain ⟨hbuf, hcur, hdone, hlnl, hllen, hsnl, hwnl, hfit⟩ := h
  by_cases hc : c = '\n'
  · subst hc
    by_cases hw : st.wordBuf = []
    · by_cases hover : st.current + st.spaceBuf.length > lim
      · refine ⟨done ++ [last], [], ?_⟩
        have hstep : step lim st '\n' =
            { buf := st.buf ++ ['\n'], current := 0, wordBuf := st.wordBuf, spaceBuf := [] } := by
          unfold step
          rw [if_pos rfl, if_pos hw, if_pos hover]
        rw [hstep]
        refine ⟨?_, rfl, ?_, by simp, by simp, by simp, hwnl, ?_⟩
        · have h1 := lines_snoc done last []
          simp only [List.append_nil] at h1
          simp only [hbuf, List.append_nil]
          exact h1
        · intro l hl
          rcases List.mem_append.1 hl with hl | hl
          · exact hdone l hl
          · rw [List.mem_singleton.1 hl]; exact ⟨hlnl, hllen⟩
        · intro hne; exact absurd hw hne
      · refine ⟨done ++ [last ++ st.spaceBuf], [], ?_⟩
        have hstep : step lim st '\n' =
            { buf := st.buf ++ st.spaceBuf ++ ['\n'], current := 0, wordBuf := st.wordBuf,
              spaceBuf := [] } := by
          unfold step
          rw [if_pos rfl, if_pos hw, if_neg hover]
        rw [hstep]
        refine ⟨?_, rfl, ?_, by simp, by simp, by simp, hwnl, ?_⟩
        · simp only [hbuf]
          exact lines_snoc done last st.spaceBuf
        · intro l hl
          rcases List.mem_append.1 hl with hl | hl
          · exact hdone l hl
          · rw [List.mem_singleton.1 hl]
            refine ⟨?_, ?_⟩
            · simp [hlnl, hsnl]
            · simp only [List.length_append]; omega
        · intro hne; exact absurd hw hne
    · refine ⟨done ++ [last ++ (st.spaceBuf ++ st.wordBuf)], [], ?_⟩
      have hstep : step lim st '\n' =
          { buf := st.buf ++ st.spaceBuf ++ st.wordBuf ++ ['\n'], current := 0, wordBuf := [],
            spaceBuf := [] } := by
        unfold step
        rw [if_pos rfl, if_neg hw]
      rw [hstep]
      refine ⟨?_, rfl, ?_, by simp, by simp, by simp, by simp, by simp⟩
      · simp only [hbuf]
        simp [List.append_assoc]
      · intro l hl
        rcases List.mem_append.1 hl with hl | hl
        · exact hdone l hl
        · rw [List.mem_singleton.1 hl]
          refine ⟨?_, ?_⟩
          · simp [hlnl, hsnl, hwnl]
          · have := hfit hw
            simp only [List.length_append]; omega
  · by_cases hs : (unicode.IsSpace c && c != nbsp) = true
    · by_cases hf : st.spaceBuf = [] ∨ st.wordBuf ≠ []
      · refine ⟨done, last ++ (st.spaceBuf ++ st.wordBuf), ?_⟩
        have hstep : step lim st c =
            { buf := st.buf ++ st.spaceBuf ++ st.wordBuf,
              current := st.current + (st.spaceBuf.length + st.wordBuf.length),
              wordBuf := [], spaceBuf := [c] } := by
          unfold step
          rw [if_neg hc, if_pos hs, if_pos hf]
        rw [hstep]
        have hlen : last.length + (st.spaceBuf.length + st.wordBuf.length) ≤ lim := by
          by_cases hw : st.wordBuf = []
          · rcases hf with hf | hf
            · simp [hf, hw]; exact hllen
            · exact absurd hw hf
          · have := hfit hw
            omega
        refine ⟨?_, ?_, hdone, ?_, ?_, ?_, by simp, by simp⟩
        · simp [hbuf, List.append_assoc]
        · simp [hcur]
        · simp [hlnl, hsnl, hwnl]
        · simpa using hlen
        · simpa using fun h => hc h.symm
      · refine ⟨done, last, ?_⟩
        have hstep : step lim st c = { st with spaceBuf := st.spaceBuf ++ [c] } := by
          unfold step
          rw [if_neg hc, if_pos hs, if_neg hf]
        rw [hstep]
        have hw : st.wordBuf = [] := by
          by_contra hw
          exact hf (Or.inr hw)
        refine ⟨hbuf, hcur, hdone, hlnl, hllen, ?_, hwnl, ?_⟩
        · simp only [List.mem_append, List.mem_singleton, not_or]
          exact ⟨hsnl, fun h => hc h.symm⟩
        · intro hne; exact absurd hw hne
    · have hnb : ¬breakable c = true := by
        intro hb
        rcases (breakable_iff c).1 hb with hb | hb
        · exact hc hb
        · exact hs hb
      have hshort := hword hnb
      by_cases hb : st.current + (st.wordBuf.length + 1) + st.spaceBuf.length > lim
          ∧ st.wordBuf.length + 1 < lim
      · refine ⟨done ++ [last], [], ?_⟩
        have hstep : step lim st c =
            { buf := st.buf ++ ['\n'], current := 0, wordBuf := st.wordBuf ++ [c],
              spaceBuf := [] } := by
          unfold step
          rw [if_neg hc, if_neg hs, if_pos hb]
        rw [hstep]
        refine ⟨?_, rfl, ?_, by simp, by simp, by simp, ?_, ?_⟩
        · have h1 := lines_snoc done last []
          simp only [List.append_nil] at h1
          simp only [hbuf, List.append_nil]
          exact h1
        · intro l hl
          rcases List.mem_append.1 hl with hl | hl
          · exact hdone l hl
          · rw [List.mem_singleton.1 hl]; exact ⟨hlnl, hllen⟩
        · simp only [List.mem_append, List.mem_singleton, not_or]
          exact ⟨hwnl, fun h => hc h.symm⟩
        · intro _
          simp only [List.length_nil, List.length_append, List.length_singleton]
          omega
      · refine ⟨done, last, ?_⟩
        have hstep : step lim st c = { st with wordBuf := st.wordBuf ++ [c] } := by
          unfold step
          rw [if_neg hc, if_neg hs, if_neg hb]
        rw [hstep]
        refine ⟨hbuf, hcur, hdone, hlnl, hllen, hsnl, ?_, ?_⟩
        · simp only [List.mem_append, List.mem_singleton, not_or]
          exact ⟨hwnl, fun h => hc h.symm⟩
        · intro _
          simp only [List.length_append, List.length_singleton]
          have : ¬(st.current + (st.wordBuf.length + 1) + st.spaceBuf.length > lim) :=
            fun h1 => hb ⟨h1, hshort⟩
          omega

theorem foldl_fitsLimit (lim : Nat) (l : List Char) (st : State) (done : List (List Char))
    (last : List Char) (h : FitsLimit lim st done last)
    (hwords : ∀ w ∈ wordsFrom breakable st.wordBuf l, w.length < lim) :
    ∃ done1 last1, FitsLimit lim (l.foldl (step lim) st) done1 last1 := by
  induction l generalizing st done last with
  | nil => exact ⟨done, last, h⟩
  | cons c rest ih =>
    have hword : ¬breakable c = true → st.wordBuf.length + 1 < lim := by
      intro hc
      obtain ⟨w, hw, hlen⟩ := wordsFrom_has_current breakable rest (st.wordBuf ++ [c]) (by simp)
      have h1 : w ∈ wordsFrom breakable st.wordBuf (c :: rest) := by
        simpa [wordsFrom, hc] using hw
      have h2 := hwords w h1
      simp at hlen
      omega
    obtain ⟨done1, last1, h1⟩ := step_fitsLimit lim st c done last h hword
    refine ih (step lim st c) done1 last1 h1 ?_
    intro w hw
    apply hwords
    by_cases hc : breakable c = true
    · rw [step_wordBuf_breakable lim st c hc] at hw
      simp only [wordsFrom, hc, if_true]
      exact List.mem_append_right _ hw
    · rw [step_wordBuf_word lim st c hc] at hw
      simpa [wordsFrom, hc] using hw

theorem finish_fitsLimit (lim : Nat) (st : State) (done : List (List Char))
    (last : List Char) (h : FitsLimit lim st done last) :
    ∀ l ∈ (finish lim st).splitOn '\n', l.length ≤ lim := by
  obtain ⟨hbuf, hcur, hdone, hlnl, hllen, hsnl, hwnl, hfit⟩ := h
  have key : ∀ tail : List Char, '\n' ∉ tail → last.length + tail.length ≤ lim →
      ∀ l ∈ (st.buf ++ tail).splitOn '\n', l.length ≤ lim := by
    intro tail htail hlen l hl
    rw [hbuf, List.append_assoc, emitter.splitOn_lines] at hl
    · rcases List.mem_append.1 hl with hl | hl
      · exact (hdone l hl).2
      · rw [List.mem_singleton.1 hl]
        simpa using hlen
    · intro x hx
      rcases List.mem_append.1 hx with hx | hx
      · exact (hdone x hx).1
      · rw [List.mem_singleton.1 hx]
        simp [hlnl, htail]
  unfold finish
  by_cases hw : st.wordBuf = []
  · rw [if_pos hw]
    by_cases hfits : st.current + st.spaceBuf.length ≤ lim
    · rw [if_pos hfits]
      exact key st.spaceBuf hsnl (by omega)
    · rw [if_neg hfits]
      have := key [] (by simp) (by simpa using hllen)
      simpa using this
  · rw [if_neg hw, List.append_assoc]
    refine key (st.spaceBuf ++ st.wordBuf) (by simp [hsnl, hwnl]) ?_
    have := hfit hw
    simp only [List.length_append]
    omega

theorem WrapString_lines_fit (s : String) (lim : Nat)
    (h : ∀ w ∈ words breakable s, w.length < lim) :
    ∀ line ∈ strings.Split (WrapString s lim) '\n', line.length ≤ lim := by
  have h0 : FitsLimit lim ⟨[], 0, [], []⟩ [] [] :=
    ⟨rfl, rfl, by simp, by simp, by simp, by simp, by simp, by simp⟩
  have hw : ∀ w ∈ wordsFrom breakable [] s.data, w.length < lim := by
    intro w hw
    have := h (String.mk w) (by simp only [words, List.mem_map]; exact ⟨w, hw, rfl⟩)
    simpa using this
  obtain ⟨done, last, h1⟩ := foldl_fitsLimit lim s.data _ [] [] h0 hw
  have h2 := finish_fitsLimit lim _ done last h1
  intro line hline
  simp only [strings.Split, WrapString, List.mem_map] at hline
  obtain ⟨l, hl, rfl⟩ := hline
  simpa using h2 l hl

end wordwrap

namespace emitter

open wordwrap

theorem Comment_text (wrap : String → Nat → String) (s : String) (e : SampleEmitter)
    (hs : s ≠ "") :
    e.Comment wrap s =
      { e with sb := e.sb ++ commentText e.indent e.start (e.commentLines wrap s),
               start := true } := by
  have hne := commentLines_ne_nil wrap s e
  simp only [SampleEmitter.Comment, hs, ne_eq, not_false_eq_true, if_true]
  rw [commentLoop_eq]
  cases hl : e.commentLines wrap s with
  | nil => exact absurd hl hne
  | cons line rest => simp

theorem uintSub_eq (a b : Nat) (h1 : b ≤ a) (h2 : a < 2 ^ 64) : uintSub a b = a - b := by
  unfold uintSub intSize
  have h3 : b % 2 ^ 64 = b := Nat.mod_eq_of_lt (by omega)
  rw [h3]
  have h4 : a + (2 ^ 64 - b) = (a - b) + 2 ^ 64 := by omega
  rw [h4, Nat.add_mod_right]
  exact Nat.mod_eq_of_lt (by omega)

/-- C25 as stated fails on three inputs: a word longer than the limit is never broken
(width 5, depth 0, text `abcdefghij`), a word of exactly the limit after white space
stays on its line (width 3, text ` abc`), and at a depth above the width the limit
`maxLineLength - indent` wraps around to a huge `uint` (width 2, depth 3, text `a b c`). -/
theorem Comment_line_passes_width_budget :
    ((NewEmitter 5).Comment WrapString "abcdefghij" =
        { sb := "// abcdefghij\n", maxLineLength := 5, start := true, indent := 0 } ∧
      (NewEmitter 5).commentLines WrapString "abcdefghij" = ["abcdefghij"] ∧
      ¬("abcdefghij".length ≤ 5 - 0)) ∧
    ((NewEmitter 3).Comment WrapString " abc" =
        { sb := "//  abc\n", maxLineLength := 3, start := true, indent := 0 } ∧
      (NewEmitter 3).commentLines WrapString " abc" = [" abc"] ∧
      ¬(" abc".length ≤ 3 - 0)) ∧
    ((NewEmitter 2).Indent 3 =
        .ok { sb := "", maxLineLength := 2, start := true, indent := 3 } ∧
      SampleEmitter.Comment WrapString "a b c"
          { sb := "", maxLineLength := 2, start := true, indent := 3 } =
        { sb := "\t\t\t// a b c\n", maxLineLength := 2, start := true, indent := 3 } ∧
      SampleEmitter.commentLines WrapString "a b c"
          { sb := "", maxLineLength := 2, start := true, indent := 3 } = ["a b c"] ∧
      ¬(("a b c".length : Int) ≤ 2 - 3)) := by
  refine ⟨⟨?_, ?_, ?_⟩, ⟨?_, ?_, ?_⟩, ⟨?_, ?_, ?_, ?_⟩⟩ <;> decide

/-- C25, for texts whose words are shorter than the limit: at a sink of width `w` and
depth `d` with `d ≤ w` (both `uint` values), when every word of the text (a maximal run
of characters other than the line feed and the breaking white space) has fewer than
`w - d` characters, `Comment` emits the lines of the wrapped text, and each of them,
without its indentation and the marker `// `, has at most `w - d` characters. -/
theorem Comment_lines_within_width_budget (s : String) (e : SampleEmitter) (hs : s ≠ "")
    (hd : e.indent ≤ e.maxLineLength) (hw : e.maxLineLength < 2 ^ 64)
    (hwords : ∀ word ∈ words breakable s, word.length < e.maxLineLength - e.indent) :
    e.Comment WrapString s =
      { e with sb := e.sb ++ commentText e.indent e.start (e.commentLines WrapString s),
               start := true } ∧
    ∀ line ∈ e.commentLines WrapString s, line.length ≤ e.maxLineLength - e.indent := by
  refine ⟨Comment_text WrapString s e hs, ?_⟩
  intro line hline
  unfold SampleEmitter.commentLines at hline
  rw [uintSub_eq _ _ hd hw] at hline
  exact WrapString_lines_fit s _ hwords line hline

/-- Witness of C25: the text `foo bar baz` at width 6 and depth 2. -/
theorem Comment_lines_within_width_budget_witness :
    ("foo bar baz" ≠ "" ∧ (2 : Nat) ≤ 6 ∧ (6 : Nat) < 2 ^ 64 ∧
      ∀ word ∈ words breakable "foo bar baz", word.length < 6 - 2) ∧
    SampleEmitter.commentLines WrapString "foo bar baz"
        { sb := "", maxLineLength := 6, start := true, indent := 2 } = ["foo", "bar", "baz"] ∧
    ∀ line ∈ SampleEmitter.commentLines WrapString "foo bar baz"
        { sb := "", maxLineLength := 6, start := true, indent := 2 },
      line.length ≤ 6 - 2 :=
  ⟨⟨by decide, by decide, by decide, by decide⟩, by decide,
    (Comment_lines_within_width_budget "foo bar baz"
      { sb := "", maxLineLength := 6, start := true, indent := 2 }
      (by decide) (by decide) (by decide) (by decide)).2⟩

/-- C26: for a non-empty text, `Comment` emits the lines of the wrapped text, each as
indentation, `// `, the line and a line feed; the words of these lines, read in order,
are exactly the words of the text, in the same order, none split, lost or repeated.
This holds for words delimited by any white space (`unicode.IsSpace`) and for words
delimited by the characters at which the text may be broken (`breakable`). -/
theorem Comment_keeps_word_sequence (s : String) (e : SampleEmitter) (hs : s ≠ "") :
    e.Comment WrapString s =
      { e with sb := e.sb ++ commentText e.indent e.start (e.commentLines WrapString s),
               start := true } ∧
    (e.commentLines WrapString s).flatMap (words unicode.IsSpace) = words unicode.IsSpace s ∧
    (e.commentLines WrapString s).flatMap (words breakable) = words breakable s := by
  refine ⟨Comment_text WrapString s e hs, ?_, ?_⟩
  · refine WrapString_keeps_words unicode.IsSpace ?_ s _
    intro c hc
    rcases (breakable_iff c).1 hc with h | h
    · subst h; decide
    · simp only [Bool.and_eq_true] at h
      exact h.1
  · exact WrapString_keeps_words breakable (fun c hc => hc) s _

/-- Witness of C26: the text `foo  bar baz ` at width 4 is emitted as three lines with
the words `foo`, `bar`, `baz`. -/
theorem Comment_keeps_word_sequence_witness :
    "foo  bar baz " ≠ "" ∧
    (NewEmitter 4).commentLines WrapString "foo  bar baz " = ["foo", "bar", "baz "] ∧
    words unicode.IsSpace "foo  bar baz " = ["foo", "bar", "baz"] ∧
    ((NewEmitter 4).commentLines WrapString "foo  bar baz ").flatMap (words unicode.IsSpace) =
      words unicode.IsSpace "foo  bar baz " :=
  ⟨by decide, by decide, by decide,
    (Comment_keeps_word_sequence "foo  bar baz " (NewEmitter 4) (by decide)).2.1⟩

end emitter

namespace doxygen

open emitter command

theorem WithCommandOnce_distinct (d : Doxygen) (c : Command) (h : DistinctKinds d) :
    DistinctKinds (WithCommandOnce c d) := by
  by_cases hp : ∃ s ∈ d.Commands, s.Command = c.Command
  · rw [WithCommandOnce_present d c hp]
    exact h
  · have habs : ∀ s ∈ d.Commands, s.Command ≠ c.Command := fun s hs hk => hp ⟨s, hs, hk⟩
    rw [WithCommandOnce_absent d c habs]
    unfold DistinctKinds at h ⊢
    simp only [List.map_append, List.map_cons, List.map_nil]
    refine List.Nodup.append h (List.nodup_singleton _) ?_
    intro k hk hk2
    rw [List.mem_singleton] at hk2
    obtain ⟨s, hs, hsk⟩ := List.mem_map.1 hk
    exact habs s hs (hsk.trans hk2)

theorem foldl_distinct (options : List Option)
    (h : ∀ opt ∈ options, (∃ t, opt = WithTag t) ∨ ∃ x, opt = WithCommandOnce x)
    (d : Doxygen) (hd : DistinctKinds d) :
    DistinctKinds (options.foldl (fun d opt => opt d) d) := by
  induction options generalizing d with
  | nil => exact hd
  | cons opt rest ih =>
    have hrest : ∀ o ∈ rest, (∃ t, o = WithTag t) ∨ ∃ x, o = WithCommandOnce x :=
      fun o ho => h o (List.mem_cons_of_mem opt ho)
    rw [List.foldl_cons]
    apply ih hrest
    rcases h opt (List.mem_cons_self opt rest) with ⟨t, rfl⟩ | ⟨x, rfl⟩
    · exact hd
    · exact WithCommandOnce_distinct d x hd

/-- C31: `WithCommandOnce(c)` keeps the no-duplicate-kind invariant, so a block built by
`New` from `WithTag` and `WithCommandOnce` options only has pairwise distinct kinds;
`WithCommand(c)` breaks the invariant whenever the block holds a directive of the kind of
`c`, and `WithMultipleCommands` whenever it is given such a `c` or the same kind twice. -/
theorem WithCommandOnce_keeps_kinds_distinct (d : Doxygen) (c : Command)
    (DefaultTag : String) (options : List Option) :
    (DistinctKinds d → DistinctKinds (WithCommandOnce c d)) ∧
    ((∀ opt ∈ options, (∃ t, opt = WithTag t) ∨ ∃ x, opt = WithCommandOnce x) →
      DistinctKinds (New DefaultTag options)) ∧
    (d.hasCommand c = true → ¬DistinctKinds (WithCommand c d)) ∧
    (d.hasCommand c = true → ¬DistinctKinds (WithMultipleCommands [c] d)) ∧
    ¬DistinctKinds (WithMultipleCommands [c, c] d) ∧
    (DistinctKinds { Commands := [(Brief.mk "a").toCommand], Tag := "@" } ∧
      ¬DistinctKinds (WithCommand (Brief.mk "b").toCommand
        { Commands := [(Brief.mk "a").toCommand], Tag := "@" })) := by
  have happ : d.hasCommand c = true →
      ¬(d.Commands.map (fun x => x.Command) ++ [c.Command]).Nodup := by
    intro hc hn
    obtain ⟨s, hs, hk⟩ := (hasCommandLoop_eq_true c d.Commands).1 hc
    rw [List.nodup_append] at hn
    exact hn.2.2 (List.mem_map.2 ⟨s, hs, hk⟩) (List.mem_singleton.2 rfl)
  refine ⟨WithCommandOnce_distinct d c, ?_, ?_, ?_, ?_, ?_, ?_⟩
  · intro h
    exact foldl_distinct options h _ (by simp [DistinctKinds])
  · intro hc
    simpa [DistinctKinds, WithCommand] using happ hc
  · intro hc
    simpa [DistinctKinds, WithMultipleCommands] using happ hc
  · simp [DistinctKinds, WithMultipleCommands, List.nodup_append]
  · simp [DistinctKinds, Brief.toCommand, Brief.Command]
  · simp [DistinctKinds, WithCommand, Brief.toCommand, Brief.Command]

/-- Witness of C31: a block holding one `Brief` keeps distinct kinds under
`WithCommandOnce` of another `Brief`, and `New` with a tag option and three
`WithCommandOnce` options, two of them of kind `Brief`, has distinct kinds. -/
theorem WithCommandOnce_keeps_kinds_distinct_witness :
    DistinctKinds { Commands := [(Brief.mk "one").toCommand], Tag := "@" } ∧
    DistinctKinds (WithCommandOnce (Brief.mk "two").toCommand
      { Commands := [(Brief.mk "one").toCommand], Tag := "@" }) ∧
    DistinctKinds (New "@" [WithTag "\\", WithCommandOnce (Brief.mk "a").toCommand,
      WithCommandOnce (Param.mk "in" "x" "the input").toCommand,
      WithCommandOnce (Brief.mk "b").toCommand]) :=
  have h := WithCommandOnce_keeps_kinds_distinct
    { Commands := [(Brief.mk "one").toCommand], Tag := "@" } (Brief.mk "two").toCommand "@"
    [WithTag "\\", WithCommandOnce (Brief.mk "a").toCommand,
      WithCommandOnce (Param.mk "in" "x" "the input").toCommand,
      WithCommandOnce (Brief.mk "b").toCommand]
  have h0 : DistinctKinds { Commands := [(Brief.mk "one").toCommand], Tag := "@" } := by
    simp [DistinctKinds]
  ⟨h0, h.1 h0, h.2.1 (by
    intro opt hopt
    simp only [List.mem_cons, List.mem_singleton, List.not_mem_nil, or_false] at hopt
    rcases hopt with rfl | rfl | rfl | rfl
    · exact Or.inl ⟨_, rfl⟩
    · exact Or.inr ⟨_, rfl⟩
    · exact Or.inr ⟨_, rfl⟩
    · exact Or.inr ⟨_, rfl⟩)⟩

/-- C32: `WithCommandOnce(c)` applied twice in succession gives the block that one
application gives, and `WithCommandOnce(c)` applied right after `WithCommand(c)` leaves
the block as `WithCommand(c)` made it. -/
theorem WithCommandOnce_idempotent (d : Doxygen) (c : Command) :
    WithCommandOnce c (WithCommandOnce c d) = WithCommandOnce c d ∧
    WithCommandOnce c (WithCommand c d) = WithCommand c d := by
  refine ⟨?_, ?_⟩
  · by_cases hp : ∃ s ∈ d.Commands, s.Command = c.Command
    · rw [WithCommandOnce_present d c hp, WithCommandOnce_present d c hp]
    · have habs : ∀ s ∈ d.Commands, s.Command ≠ c.Command := fun s hs hk => hp ⟨s, hs, hk⟩
      rw [WithCommandOnce_absent d c habs]
      exact WithCommandOnce_present _ c ⟨c, by simp, rfl⟩
  · exact WithCommandOnce_present _ c ⟨c, by simp [WithCommand], rfl⟩

end doxygen

namespace emitter

/-- C33: a failing `Indent` is atomic.  For every sink and every `int` value `n` with
`d + n < 0`, where `d` is the indent depth, `Indent(n)` panics with the state it was
called in: buffer, indent depth, line-start flag and width are what they were, and no
text was emitted.  More generally every panic of `Indent` carries its message and the
state of the call. -/
theorem Indent_failure_is_atomic (n : Int) (e : SampleEmitter) (hn : IsInt n)
    (h : (e.indent : Int) + n < 0) :
    e.Indent n = .panicked unbalanced e ∧
    (e.Indent n).panics = true ∧
    (e.Indent n).state.sb = e.sb ∧ (e.Indent n).state.indent = e.indent ∧
    (e.Indent n).state.start = e.start ∧
    (e.Indent n).state.maxLineLength = e.maxLineLength ∧
    (∀ (m : Int) (s : SampleEmitter) (msg : String),
      s.Indent m = .panicked msg e → msg = unbalanced ∧ s = e) := by
  have hn0 : -(2 ^ 63) ≤ n := by simpa [IsInt, intSize] using hn.1
  have hd : e.indent < 2 ^ 63 := by omega
  have hp := Indent_negative n e hd hn h
  refine ⟨hp, ?_, ?_, ?_, ?_, ?_, ?_⟩
  · rw [hp]; rfl
  · rw [hp]; rfl
  · rw [hp]; rfl
  · rw [hp]; rfl
  · rw [hp]; rfl
  · intro m s msg hs
    unfold SampleEmitter.Indent at hs
    by_cases hneg : intAdd (intOfUint s.indent) m < 0
    · rw [if_pos hneg] at hs
      injection hs with h1 h2
      exact ⟨h1.symm, h2⟩
    · rw [if_neg hneg] at hs
      cases hs

/-- Witness of C33: at depth 1 with "ab" in the buffer and the sink in mid-line,
`Indent(-2)` panics and leaves the sink as it was. -/
theorem Indent_failure_is_atomic_witness :
    (IsInt (-2) ∧ ((1 : Nat) : Int) + (-2) < 0) ∧
    SampleEmitter.Indent (-2) { sb := "ab", maxLineLength := 80, start := false, indent := 1 } =
      .panicked unbalanced { sb := "ab", maxLineLength := 80, start := false, indent := 1 } :=
  ⟨⟨by decide, by decide⟩,
    (Indent_failure_is_atomic (-2)
      { sb := "ab", maxLineLength := 80, start := false, indent := 1 }
      (by decide) (by decide)).1⟩

/-- C34: for a depth `d` below `2 ^ 63` and a negative `n` with `d + n ≥ 0`, the
conversion `uint(n)` is the wrapped value `2 ^ 64 - |n|`, and the update
`indent += uint(n)` modulo `2 ^ 64` stores exactly `d - |n|`; `Indent(n)` completes with
that depth and changes nothing else. -/
theorem Indent_negative_delta_is_exact (n : Int) (e : SampleEmitter)
    (hd : e.indent < 2 ^ 63) (hn : n < 0) (h : 0 ≤ (e.indent : Int) + n) :
    uintOfInt n = 2 ^ 64 - n.natAbs ∧
    uintAdd e.indent (uintOfInt n) = e.indent - n.natAbs ∧
    (e.indent + (2 ^ 64 - n.natAbs)) % 2 ^ 64 = e.indent - n.natAbs ∧
    e.Indent n = .ok { e with indent := e.indent - n.natAbs } := by
  have hu : uintOfInt n = 2 ^ 64 - n.natAbs := by
    unfold uintOfInt intSize
    omega
  have ha : uintAdd e.indent (uintOfInt n) = e.indent - n.natAbs := by
    rw [uintAdd_uintOfInt _ _ h (by omega)]
    omega
  refine ⟨hu, ha, ?_, ?_⟩
  · have := ha
    rw [hu] at this
    simpa [uintAdd, intSize] using this
  · rw [Indent_ok n e hd h (by omega)]
    congr 2
    omega

/-- Witness of C34: at depth 5, `Indent(-3)` stores depth 2, although `uint(-3)` is
`2 ^ 64 - 3`. -/
theorem Indent_negative_delta_is_exact_witness :
    ((5 : Nat) < 2 ^ 63 ∧ (-3 : Int) < 0 ∧ (0 : Int) ≤ ((5 : Nat) : Int) + (-3)) ∧
    uintOfInt (-3) = 2 ^ 64 - 3 ∧
    SampleEmitter.Indent (-3) { sb := "", maxLineLength := 80, start := true, indent := 5 } =
      .ok { sb := "", maxLineLength := 80, start := true, indent := 5 - (-3 : Int).natAbs } :=
  ⟨⟨by decide, by decide, by decide⟩, by decide,
    (Indent_negative_delta_is_exact (-3)
      { sb := "", maxLineLength := 80, start := true, indent := 5 }
      (by decide) (by decide) (by decide)).2.2.2⟩

end emitter

namespace wordwrap

/-- What the loop of `WrapString` keeps true of its state after reading the prefix `p`
when the limit is at least the length of the text: nothing was dropped or inserted, and
the counters are bounded by the number of characters read. -/
structure Unwrapped (p : List Char) (st : State) : Prop where
  same : st.buf ++ st.spaceBuf ++ st.wordBuf = p
  bound : st.current + st.spaceBuf.length + st.wordBuf.length ≤ p.length

theorem step_unwrapped (lim : Nat) (p : List Char) (st : State) (c : Char)
    (h : Unwrapped p st) (hlim : p.length + 1 ≤ lim) :
    Unwrapped (p ++ [c]) (step lim st c) := by
  obtain ⟨hsame, hbound⟩ := h
  have hlen : (st.buf ++ st.spaceBuf ++ st.wordBuf).length = p.length := by rw [hsame]
  simp only [List.length_append] at hlen
  by_cases hc : c = '\n'
  · subst hc
    by_cases hw : st.wordBuf = []
    · have hover : ¬(st.current + st.spaceBuf.length > lim) := by omega
      have hstep : step lim st '\n' =
          { buf := st.buf ++ st.spaceBuf ++ ['\n'], current := 0, wordBuf := st.wordBuf,
            spaceBuf := [] } := by
        unfold step
        rw [if_pos rfl, if_pos hw, if_neg hover]
      rw [hstep]
      refine ⟨?_, ?_⟩
      · rw [← hsame]
        simp [hw]
      · simp [hw]
    · have hstep : step lim st '\n' =
          { buf := st.buf ++ st.spaceBuf ++ st.wordBuf ++ ['\n'], current := 0, wordBuf := [],
            spaceBuf := [] } := by
        unfold step
        rw [if_pos rfl, if_neg hw]
      rw [hstep]
      refine ⟨?_, ?_⟩
      · rw [← hsame]
        simp
      · simp
  · by_cases hs : (unicode.IsSpace c && c != nbsp) = true
    · by_cases hf : st.spaceBuf = [] ∨ st.wordBuf ≠ []
      · have hstep : step lim st c =
            { buf := st.buf ++ st.spaceBuf ++ st.wordBuf,
              current := st.current + (st.spaceBuf.length + st.wordBuf.length),
              wordBuf := [], spaceBuf := [c] } := by
          unfold step
          rw [if_neg hc, if_pos hs, if_pos hf]
        rw [hstep]
        refine ⟨?_, ?_⟩
        · rw [← hsame]
          simp
        · simp only [List.length_singleton, List.length_nil, List.length_append]
          omega
      · have hstep : step lim st c = { st with spaceBuf := st.spaceBuf ++ [c] } := by
          unfold step
          rw [if_neg hc, if_pos hs, if_neg hf]
        rw [hstep]
        have hw : st.wordBuf = [] := by
          by_contra hw
          exact hf (Or.inr hw)
        refine ⟨?_, ?_⟩
        · rw [← hsame]
          simp [hw]
        · simp only [List.length_singleton, List.length_append]
          omega
    · have hb : ¬(st.current + (st.wordBuf.length + 1) + st.spaceBuf.length > lim
          ∧ st.wordBuf.length + 1 < lim) := by
        intro hb
        omega
      have hstep : step lim st c = { st with wordBuf := st.wordBuf ++ [c] } := by
        unfold step
        rw [if_neg hc, if_neg hs, if_neg hb]
      rw [hstep]
      refine ⟨?_, ?_⟩
      · rw [← hsame]
        simp
      · simp only [List.length_singleton, List.length_append]
        omega

theorem foldl_unwrapped (lim : Nat) (l p : List Char) (st : State) (h : Unwrapped p st)
    (hlim : (p ++ l).length ≤ lim) :
    Unwrapped (p ++ l) (l.foldl (step lim) st) := by
  induction l generalizing p st with
  | nil => simpa using h
  | cons c rest ih =>
    simp only [List.length_append, List.length_cons] at hlim
    have h1 := ih (p ++ [c]) (step lim st c) (step_unwrapped lim p st c h (by omega))
      (by simp only [List.length_append, List.length_singleton, List.length_nil]; omega)
    simpa [List.append_assoc] using h1

theorem WrapString_of_length_le (s : String) (lim : Nat) (h : s.length ≤ lim) :
    WrapString s lim = s := by
  have h0 : Unwrapped [] ⟨[], 0, [], []⟩ := ⟨rfl, by simp⟩
  have h1 := foldl_unwrapped lim s.data [] _ h0 (by simpa using h)
  obtain ⟨hsame, hbound⟩ := h1
  simp only [List.nil_append] at hsame hbound
  have hlen : s.data.length ≤ lim := by simpa using h
  unfold WrapString finish
  apply String.ext
  simp only
  by_cases hw : (List.foldl (step lim) ⟨[], 0, [], []⟩ s.data).wordBuf = []
  · rw [if_pos hw]
    rw [hw] at hsame hbound
    simp only [List.append_nil, List.length_nil, Nat.add_zero] at hsame hbound
    rw [if_pos (by omega), hsame]
  · rw [if_neg hw, hsame]

end wordwrap

namespace emitter

open wordwrap

theorem uintSub_wrap (a b : Nat) (h1 : a < b) (h2 : b < 2 ^ 64) :
    uintSub a b = 2 ^ 64 + a - b := by
  unfold uintSub intSize
  have h3 : b % 2 ^ 64 = b := Nat.mod_eq_of_lt h2
  rw [h3]
  have h4 : a + (2 ^ 64 - b) = 2 ^ 64 + a - b := by omega
  rw [h4]
  exact Nat.mod_eq_of_lt (by omega)

/-- C35: the limit `Comment` passes to the wrapper is `maxLineLength - indent` in `uint`
arithmetic.  For every wrapping function and non-empty text, `Comment` emits the lines of
what the wrapper returns for that limit; for a width `w` and a depth `d` (both `uint`
values) the wrapper is called with `w - d` when `d ≤ w`, and with `2 ^ 64 + w - d`, which
is positive, when `d > w`; for a depth a sink can reach (`d < 2 ^ 63`) that limit is
above `2 ^ 63`, so that a text (shorter than `2 ^ 63` characters, as every Go string)
comes back from `WrapString` unchanged and `Comment` emits the text's own lines. -/
theorem Comment_limit_is_unsigned_difference (wrap : String → Nat → String) (s : String)
    (e : SampleEmitter) (hs : s ≠ "") (hw : e.maxLineLength < 2 ^ 64)
    (hd : e.indent < 2 ^ 64) :
    e.Comment wrap s =
      { e with
        sb := e.sb ++ commentText e.indent e.start
          (strings.Split (wrap s (uintSub e.maxLineLength e.indent)) '\n'),
        start := true } ∧
    (e.indent ≤ e.maxLineLength →
      uintSub e.maxLineLength e.indent = e.maxLineLength - e.indent ∧
      e.Comment wrap s =
        { e with
          sb := e.sb ++ commentText e.indent e.start
            (strings.Split (wrap s (e.maxLineLength - e.indent)) '\n'),
          start := true }) ∧
    (e.maxLineLength < e.indent →
      uintSub e.maxLineLength e.indent = 2 ^ 64 + e.maxLineLength - e.indent ∧
      0 < uintSub e.maxLineLength e.indent ∧
      e.Comment wrap s =
        { e with
          sb := e.sb ++ commentText e.indent e.start
            (strings.Split (wrap s (2 ^ 64 + e.maxLineLength - e.indent)) '\n'),
          start := true } ∧
      (e.indent < 2 ^ 63 → 2 ^ 63 < uintSub e.maxLineLength e.indent) ∧
      (e.indent < 2 ^ 63 → s.length < 2 ^ 63 →
        WrapString s (uintSub e.maxLineLength e.indent) = s ∧
        e.Comment WrapString s =
          { e with sb := e.sb ++ commentText e.indent e.start (strings.Split s '\n'),
                   start := true })) := by
  have hc : ∀ wr : String → Nat → String, e.Comment wr s =
      { e with
        sb := e.sb ++ commentText e.indent e.start
          (strings.Split (wr s (uintSub e.maxLineLength e.indent)) '\n'),
        start := true } := fun wr => Comment_text wr s e hs
  refine ⟨hc wrap, ?_, ?_⟩
  · intro h
    have hu := uintSub_eq _ _ h hw
    refine ⟨hu, ?_⟩
    rw [hc wrap, hu]
  · intro h
    have hu := uintSub_wrap _ _ h hd
    refine ⟨hu, by omega, ?_, fun h63 => by omega, ?_⟩
    · rw [hc wrap, hu]
    · intro h63 hlen
      have hwr : WrapString s (uintSub e.maxLineLength e.indent) = s :=
        WrapString_of_length_le s _ (by omega)
      refine ⟨hwr, ?_⟩
      rw [hc WrapString, hwr]

/-- Witness of C35: at width 2 and depth 3 the wrapper is called with `2 ^ 64 - 1`, as
a wrapper that answers with a text naming its limit shows, and the text `a b c` is
emitted as one line; at width 6 and depth 2 the wrapper is called with 4 and the text
`foo bar baz` is emitted as three lines. -/
theorem Comment_limit_is_unsigned_difference_witness :
    ("a b c" ≠ "" ∧ (2 : Nat) < 2 ^ 64 ∧ (3 : Nat) < 2 ^ 64 ∧ (2 : Nat) < 3 ∧
      (3 : Nat) < 2 ^ 63 ∧ "a b c".length < 2 ^ 63) ∧
    uintSub 2 3 = 2 ^ 64 + 2 - 3 ∧
    SampleEmitter.Comment WrapString "a b c"
        { sb := "", maxLineLength := 2, start := true, indent := 3 } =
      { sb := "" ++ commentText 3 true (strings.Split "a b c" '\n'), maxLineLength := 2,
        start := true, indent := 3 } ∧
    SampleEmitter.Comment WrapString "a b c"
        { sb := "", maxLineLength := 2, start := true, indent := 3 } =
      { sb := "\t\t\t// a b c\n", maxLineLength := 2, start := true, indent := 3 } ∧
    SampleEmitter.Comment
        (fun _ lim => if lim = 2 ^ 64 - 1 then "limit 2^64-1" else "another limit") "a b c"
        { sb := "", maxLineLength := 2, start := true, indent := 3 } =
      { sb := "\t\t\t// limit 2^64-1\n", maxLineLength := 2, start := true, indent := 3 } ∧
    SampleEmitter.Comment WrapString "foo bar baz"
        { sb := "", maxLineLength := 6, start := true, indent := 2 } =
      { sb := "" ++ commentText 2 true (strings.Split (WrapString "foo bar baz" (6 - 2)) '\n'),
        maxLineLength := 6, start := true, indent := 2 } ∧
    SampleEmitter.Comment WrapString "foo bar baz"
        { sb := "", maxLineLength := 6, start := true, indent := 2 } =
      { sb := "\t\t// foo\n\t\t// bar\n\t\t// baz\n", maxLineLength := 6, start := true,
        indent := 2 } :=
  have h := Comment_limit_is_unsigned_difference WrapString "a b c"
    { sb := "", maxLineLength := 2, start := true, indent := 3 } (by decide) (by decide)
    (by decide)
  ⟨⟨by decide, by decide, by decide, by decide, by decide, by decide⟩,
    (h.2.2 (by decide)).1,
    ((h.2.2 (by decide)).2.2.2.2 (by decide) (by decide)).2,
    by decide, by decide,
    ((Comment_limit_is_unsigned_difference WrapString "foo bar baz"
      { sb := "", maxLineLength := 6, start := true, indent := 2 } (by decide) (by decide)
      (by decide)).2.1 (by decide)).2,
    by decide⟩

end emitter

namespace doxygen

open emitter command

theorem AppendsOnly_of_text (before after : SampleEmitter)
    (h : ∃ text : String, after.sb = before.sb ++ text) : AppendsOnly before after := by
  obtain ⟨text, h⟩ := h
  exact ⟨text.data, by rw [h, String.data_append]⟩

theorem AppendsOnly_of_bufferBlind {f : SampleEmitter → Run SampleEmitter}
    (hf : BufferBlind f) (e : SampleEmitter) : AppendsOnly e (f e).state := by
  obtain ⟨text, h1, _⟩ := BufferBlind_text hf e e rfl rfl
  exact AppendsOnly_of_text e _ ⟨text, h1⟩

/-- C36: the buffer of a sink is append-only.  For every sink state, the buffer before
`Indent`, `Print`, `Println`, `Newline`, `Comment`, the `Generate` of a directive of the
library and the `Generate` of a block of such directives is the beginning of the buffer
after it, also when the operation ends in a panic; the accessors leave the buffer as it
is; and so does any sequence of these operations, the relation being transitive. -/
theorem buffer_is_append_only (e : SampleEmitter) (n : Int) (format : String)
    (args : List String) (wrap : String → Nat → String) (s : String) (h : Helpers)
    (tag : String) (d : Directive) (ds : List Directive) :
    AppendsOnly e (e.Indent n).state ∧
    AppendsOnly e (e.Print format args) ∧
    AppendsOnly e (e.Println format args) ∧
    AppendsOnly e e.Newline ∧
    AppendsOnly e (e.Comment wrap s) ∧
    AppendsOnly e ((d.toCommand h).Generate tag sampleEmitter e).state ∧
    AppendsOnly e ((blockOf h tag ds).Generate sampleEmitter e).state ∧
    (AppendsOnly e e.String.2 ∧ AppendsOnly e e.Bytes.2 ∧ AppendsOnly e e.MaxLineLength.2) ∧
    (∀ e1 e2 e3 : SampleEmitter, AppendsOnly e1 e2 → AppendsOnly e2 e3 →
      AppendsOnly e1 e3) := by
  refine ⟨?_, ?_, ?_, ?_, ?_, ?_, ?_, ⟨?_, ?_, ?_⟩, ?_⟩
  · exact AppendsOnly_of_bufferBlind (BufferBlind_Indent n) e
  · exact AppendsOnly_of_text _ _ ⟨_, by rw [Print_eq]⟩
  · exact AppendsOnly_of_text _ _ ⟨_, by rw [Println_eq]⟩
  · exact AppendsOnly_of_text _ _ ⟨_, by rw [Newline_eq]⟩
  · by_cases hs : s = ""
    · exact AppendsOnly_of_text _ _ ⟨"", by simp [SampleEmitter.Comment, hs]⟩
    · exact AppendsOnly_of_text _ _ ⟨_, by rw [Comment_text wrap s e hs]⟩
  · exact AppendsOnly_of_bufferBlind (BufferBlind_of_Writes (Directive_writes h d tag)) e
  · exact AppendsOnly_of_bufferBlind (Generate_bufferBlind h tag ds) e
  · exact List.prefix_refl _
  · exact List.prefix_refl _
  · exact List.prefix_refl _
  · intro e1 e2 e3 h12 h23
    exact List.IsPrefix.trans h12 h23

end doxygen

namespace command

open emitter

theorem Sprintf_parblock (tag : String) :
    fmt.Sprintf "%sparblock" [tag] = tag ++ "parblock" := by
  apply String.ext
  simp [fmt.Sprintf, fmt.doPrintf, fmt.printArg, fmt.extraMarker, String.data_append]

theorem Sprintf_endparblock (tag : String) :
    fmt.Sprintf "%sendparblock" [tag] = tag ++ "endparblock" := by
  apply String.ext
  simp [fmt.Sprintf, fmt.doPrintf, fmt.printArg, fmt.extraMarker, String.data_append]

theorem Sprintf_operand (p : String) : fmt.Sprintf "%s" [p] = p := by
  apply String.ext
  simp [fmt.Sprintf, fmt.doPrintf, fmt.printArg, fmt.extraMarker]

theorem Parblock_loop_text (paragraphs : List String) (e : SampleEmitter) :
    Parblock.GenerateLoop sampleEmitter paragraphs e =
      .ok { e with sb := e.sb ++ paragraphsText e.indent e.start paragraphs,
                   start := e.start || !paragraphs.isEmpty } := by
  induction paragraphs generalizing e with
  | nil => simp [Parblock.GenerateLoop, paragraphsText]
  | cons p rest ih =>
    cases rest with
    | nil =>
      simp only [Parblock.GenerateLoop, sampleEmitter_Println, andThen_ok, Println_eq,
        Sprintf_operand]
      simp [paragraphsText, String.append_assoc, andThen_ok]
    | cons q rest2 =>
      rw [Parblock.GenerateLoop, sampleEmitter_Println, andThen_ok]
      simp only [List.isEmpty_cons, Bool.not_false, if_true]
      show (Run.ok (e.Println "%s" [p]).Newline).andThen _ = _
      rw [andThen_ok, ih, Println_eq, Newline_eq, Sprintf_operand]
      simp [paragraphsText, String.append_assoc]

/-- C37: a `Parblock` emits the line `t + "parblock"`, then each paragraph on a line of
its own with exactly one empty line between consecutive paragraphs and none after the
last, and last the line `t + "endparblock"`; with no paragraphs the two lines follow each
other.  Each line begins with the indentation of the sink, the first one when the sink is
at line start, and the empty lines hold no character at all. -/
theorem Parblock_Generate_text (tag : String) (paragraphs : List String) (e : SampleEmitter) :
    (Parblock.mk paragraphs).Generate tag sampleEmitter e =
      .ok { e with
        sb := e.sb ++ (indentation e.indent e.start ++ tag ++ "parblock" ++ "\n")
          ++ paragraphsText e.indent true paragraphs
          ++ (indentation e.indent true ++ tag ++ "endparblock" ++ "\n"),
        start := true } ∧
    (Parblock.mk []).Generate tag sampleEmitter e =
      .ok { e with
        sb := e.sb ++ (indentation e.indent e.start ++ tag ++ "parblock" ++ "\n")
          ++ (indentation e.indent true ++ tag ++ "endparblock" ++ "\n"),
        start := true } ∧
    (∀ p q : String, paragraphsText e.indent true [p, q] =
      indentation e.indent true ++ p ++ "\n" ++ "\n" ++ (indentation e.indent true ++ q ++ "\n")) ∧
    (Parblock.mk ["one", "two", "three"]).Generate "@" sampleEmitter (NewEmitter 80) =
      .ok { sb := "@parblock\none\n\ntwo\n\nthree\n@endparblock\n", maxLineLength := 80,
            start := true, indent := 0 } := by
  have main : ∀ ps : List String, (Parblock.mk ps).Generate tag sampleEmitter e =
      .ok { e with
        sb := e.sb ++ (indentation e.indent e.start ++ tag ++ "parblock" ++ "\n")
          ++ paragraphsText e.indent true ps
          ++ (indentation e.indent true ++ tag ++ "endparblock" ++ "\n"),
        start := true } := by
    intro ps
    simp only [Parblock.Generate, Endparblock.Generate, sampleEmitter_Println, andThen_ok,
      Parblock_loop_text, Run.deferred, Println_eq, Sprintf_parblock, Sprintf_endparblock]
    simp [String.append_assoc]
  refine ⟨main paragraphs, ?_, ?_, by decide⟩
  · have h := main []
    simpa [paragraphsText] using h
  · intro p q
    simp [paragraphsText]

theorem Sprintf_throws (tag word description : String) :
    fmt.Sprintf "%sthrows" [tag, word, description] =
      tag ++ "throws" ++ "%!(EXTRA string=" ++ word ++ ", string=" ++ description ++ ")" := by
  apply String.ext
  simp [fmt.Sprintf, fmt.doPrintf, fmt.printArg, fmt.extraMarker, fmt.extraOperands,
    String.data_append]

theorem Sprintf_code (tag operand : String) :
    fmt.Sprintf "%scode" [tag, operand] =
      tag ++ "code" ++ "%!(EXTRA string=" ++ operand ++ ")" := by
  apply String.ext
  simp [fmt.Sprintf, fmt.doPrintf, fmt.printArg, fmt.extraMarker, fmt.extraOperands,
    String.data_append]

theorem Sprintf_endcode (tag : String) :
    fmt.Sprintf "%sendcode" [tag] = tag ++ "endcode" := by
  apply String.ext
  simp [fmt.Sprintf, fmt.doPrintf, fmt.printArg, fmt.extraMarker, String.data_append]

theorem Sprintf_percent (tag : String) :
    fmt.Sprintf "%s%" [tag] = tag ++ "%!(NOVERB)" := by
  apply String.ext
  simp [fmt.Sprintf, fmt.doPrintf, fmt.printArg, fmt.extraMarker, String.data_append]

/-- C38: evaluation of the code.  Four renders are not well-formed formatting calls, and
`fmt` reports each in the emitted text: `Author` passes one operand to a format with two
verbs (marker `%!s(MISSING)`, and the tag is not emitted), `Throws` passes three operands
and `Code` two to a format with one verb (marker `%!(EXTRA ...)`), and the format of
`Percent` ends in a lone `%` (marker `%!(NOVERB)`). -/
theorem Author_Throws_Code_Percent_emit_fmt_markers (h : Helpers)
    (tag author object description word block : String) (width : Nat) :
    ((Author.mk [author]).Generate tag sampleEmitter (NewEmitter width)).state.sb =
      author ++ "author %!s(MISSING)" ++ "\n" ∧
    ((Throws.mk object description).Generate h tag sampleEmitter (NewEmitter width)).state.sb =
      tag ++ "throws" ++ "%!(EXTRA string=" ++ h.word object ++ ", string=" ++ description
        ++ ")" ++ "\n" ∧
    ((Code.mk word block).Generate h tag sampleEmitter (NewEmitter width)).state.sb =
      tag ++ "code" ++ "%!(EXTRA string=" ++ h.optionalf " \x7b%s\x7d" (h.word word) ++ ")"
        ++ "\n" ++ block ++ "\n" ++ tag ++ "endcode" ++ "\n" ∧
    ((Percent.mk).Generate tag sampleEmitter (NewEmitter width)).state.sb =
      tag ++ "%!(NOVERB)" ∧
    ((Percent.mk).Generate "@" sampleEmitter (NewEmitter 80)).state.sb = "@%!(NOVERB)" ∧
    ((Throws.mk "E" "on failure").Generate ⟨id, id, fun _ x => x⟩ "@" sampleEmitter
        (NewEmitter 80)).state.sb =
      "@throws%!(EXTRA string=E, string=on failure)\n" := by
  refine ⟨?_, ?_, ?_, ?_, by decide, by decide⟩
  · show (Author.GenerateLoop sampleEmitter [author] (NewEmitter width)).state.sb = _
    rw [Author_loop_text [author] _ rfl]
    simp [Run.state, NewEmitter, concatInOrder]
  · simp only [Throws.Generate, sampleEmitter_Println, Println_eq, Sprintf_throws, Run.state]
    simp [NewEmitter, indentation, String.append_assoc]
  · simp only [Code.Generate, Endcode.Generate, sampleEmitter_Println, andThen_ok, Println_eq,
      Sprintf_code, Sprintf_operand, Sprintf_endcode, Run.state]
    simp [NewEmitter, indentation, String.append_assoc]
  · show (Run.ok ((NewEmitter width).Print "%s%" [tag])).state.sb = _
    rw [Print_eq, Sprintf_percent]
    simp [Run.state, NewEmitter, indentation]

end command
